import Mathlib

/-!
Verification of the `@cardano-ogmios/mdk` client engine (src/lib/index.mjs,
src/lib/safe-json.mjs): the numeric-fidelity JSON codec (`Json.parse` /
`Json.stringify` with the `sanitize` pass), the RPC request builder
(`newRpcRequest`), and the pipelined chain follower (`newChainFollower`).

Modelling conventions, stated once:

* JSON documents are modelled by the inductive `Json` below.  JavaScript
  distinguishes ordinary numbers (`typeof v === "number"`) from
  arbitrary-precision integers (`typeof v === "bigint"`); the model mirrors
  this with the two constructors `num` and `big`.  Numeric literals are
  modelled as integers (the claims under verification only concern integer
  payloads; fractional literals never reach the conversion sites in a
  successfully decoded document, because `BigInt` of a fractional number
  throws during decoding).
* The external dependency `@cardanosolutions/json-bigint` (imported as `$`
  in src/lib/safe-json.mjs) is not part of this repository; it is modelled
  at the token level: `stringifyToks` and `rawParse` below realise its
  documented behaviour — serialize `BigInt` as a bare numeric literal, and
  parse an integer literal as `BigInt` exactly when its magnitude exceeds
  `Number.MAX_SAFE_INTEGER`, raising a `SyntaxError` whose message contains
  "forbidden constructor" when an object member is literally named
  `constructor`.
* JavaScript object iteration (`for (const k in json)`) is modelled as
  iteration over the members of the object in order; parsed JSON objects
  have pairwise distinct keys.  Iterating `for..in` over a primitive other
  than a string visits no keys; a non-empty string visits its indices, and
  the subsequent strict-mode index assignment in
  `sanitizeAdditionalFields` would throw, so a document with a string
  directly below a quantity-map trigger never decodes — the model treats
  those positions as visiting no keys, which only enlarges the set of
  documents the universally-quantified theorems cover.
-/

set_option maxHeartbeats 1000000

namespace Mdk

/-- A JavaScript value as produced by the JSON codec.  `num` is an ordinary
number (`typeof === "number"`), `big` an arbitrary-precision integer
(`typeof === "bigint"`). -/
inductive Json where
  | null
  | bool (b : Bool)
  | num (n : Int)
  | big (n : Int)
  | str (s : String)
  | arr (elems : List Json)
  | obj (members : List (String × Json))

/-- `Number.MAX_SAFE_INTEGER`. -/
def MAX_SAFE_INTEGER : Int := 9007199254740991

/-- Association-list lookup over object members, first match wins
(parsed objects have distinct keys). -/
def getField : List (String × Json) → String → Option Json
  | [], _ => none
  | (k', v) :: rest, k => if k' = k then some v else getField rest k

/-- JavaScript property access `json.k`: defined on objects, `undefined`
(`none`) on arrays and primitives. -/
def Json.get : Json → String → Option Json
  | .obj members, k => getField members k
  | _, _ => none

/-- JavaScript truthiness of a value (`0`, `0n`, `""`, `false`, `null` are
falsy; objects and arrays are truthy). -/
def truthy : Json → Bool
  | .null => false
  | .bool b => b
  | .num n => decide (n ≠ 0)
  | .big n => decide (n ≠ 0)
  | .str s => decide (s ≠ "")
  | .arr _ => true
  | .obj _ => true

/-- `typeof v === "number" ? BigInt(v) : v` — the conversion applied at every
sanitation site. -/
def bigify : Json → Json
  | .num n => .big n
  | v => v

/-! ### The external serializer and parser (`@cardanosolutions/json-bigint`)

The dependency is modelled at the token level: a wire text is a list of
JSON tokens.  This captures everything `safe-json.mjs` observes about it —
bare numeric literals for both numbers and big integers, the safe-integer
threshold on parsing, and the `SyntaxError` raised on an object member
literally named `constructor`. -/

/-- One lexical token of a JSON text. -/
inductive Tok where
  | lbrace | rbrace | lbrack | rbrack | colon | comma
  | litNull | litTrue | litFalse
  | tstr (s : String)
  | tint (n : Int)
deriving Repr, DecidableEq

/-- A JavaScript error as observed by the catch block of `Json.parse`:
its `name` and its `message`. -/
structure JsError where
  name : String
  message : String
deriving Repr, DecidableEq

/-- How the parser classifies an integer literal: an ordinary number within
the safe range, an arbitrary-precision integer beyond it
(`useNativeBigInt: true`). -/
def intLiteral (n : Int) : Json :=
  if -MAX_SAFE_INTEGER ≤ n ∧ n ≤ MAX_SAFE_INTEGER then .num n else .big n

mutual
/-- `$.stringify`: serializes a value to tokens; an arbitrary-precision
integer becomes a bare numeric literal, exactly like an ordinary number. -/
def stringifyToks : Json → List Tok
  | .null => [.litNull]
  | .bool true => [.litTrue]
  | .bool false => [.litFalse]
  | .num n => [.tint n]
  | .big n => [.tint n]
  | .str s => [.tstr s]
  | .arr es => .lbrack :: (stringifyElems es ++ [.rbrack])
  | .obj ms => .lbrace :: (stringifyMembers ms ++ [.rbrace])
def stringifyElems : List Json → List Tok
  | [] => []
  | [e] => stringifyToks e
  | e :: es => stringifyToks e ++ .comma :: stringifyElems es
def stringifyMembers : List (String × Json) → List Tok
  | [] => []
  | [(k, v)] => .tstr k :: .colon :: stringifyToks v
  | (k, v) :: ms => .tstr k :: .colon :: stringifyToks v ++ .comma :: stringifyMembers ms
end

/-- The `SyntaxError` the parser raises on a member named `constructor`. -/
def forbiddenCtorError : JsError :=
  ⟨"SyntaxError", "Object contains forbidden constructor property"⟩

/-- A generic parse failure (malformed payload). -/
def badJson (msg : String) : JsError := ⟨"SyntaxError", msg⟩

mutual
/-- `$.parse`, value level: recursive descent over tokens.  The fuel counter
only ensures totality; `rawParse` supplies more fuel than any input can
consume. -/
def parseVal : Nat → List Tok → Except JsError (Json × List Tok)
  | 0, _ => .error (badJson "Bad JSON: out of fuel")
  | fuel + 1, toks =>
    match toks with
    | .litNull :: r => .ok (.null, r)
    | .litTrue :: r => .ok (.bool true, r)
    | .litFalse :: r => .ok (.bool false, r)
    | .tstr s :: r => .ok (.str s, r)
    | .tint n :: r => .ok (intLiteral n, r)
    | .lbrack :: .rbrack :: r => .ok (.arr [], r)
    | .lbrack :: r =>
      match parseElems fuel r with
      | .ok (es, r2) => .ok (.arr es, r2)
      | .error e => .error e
    | .lbrace :: .rbrace :: r => .ok (.obj [], r)
    | .lbrace :: r =>
      match parseMembers fuel r with
      | .ok (ms, r2) => .ok (.obj ms, r2)
      | .error e => .error e
    | _ => .error (badJson "Bad JSON: unexpected token")
/-- One-or-more comma-separated array elements, up to the closing bracket. -/
def parseElems : Nat → List Tok → Except JsError (List Json × List Tok)
  | 0, _ => .error (badJson "Bad JSON: out of fuel")
  | fuel + 1, toks =>
    match parseVal fuel toks with
    | .error e => .error e
    | .ok (v, r) =>
      match r with
      | .comma :: r2 =>
        match parseElems fuel r2 with
        | .ok (vs, r3) => .ok (v :: vs, r3)
        | .error e => .error e
      | .rbrack :: r2 => .ok ([v], r2)
      | _ => .error (badJson "Bad JSON: expected comma or closing bracket")
/-- One-or-more comma-separated object members, up to the closing brace; a
member literally named `constructor` raises the forbidden-constructor
`SyntaxError`. -/
def parseMembers : Nat → List Tok → Except JsError (List (String × Json) × List Tok)
  | 0, _ => .error (badJson "Bad JSON: out of fuel")
  | fuel + 1, toks =>
    match toks with
    | .tstr k :: .colon :: r =>
      if k = "constructor" then .error forbiddenCtorError
      else
        match parseVal fuel r with
        | .error e => .error e
        | .ok (v, r2) =>
          match r2 with
          | .comma :: r3 =>
            match parseMembers fuel r3 with
            | .ok (ms, r4) => .ok ((k, v) :: ms, r4)
            | .error e => .error e
          | .rbrace :: r3 => .ok ([(k, v)], r3)
          | _ => .error (badJson "Bad JSON: expected comma or closing brace")
    | _ => .error (badJson "Bad JSON: expected a string key")
end

/-- `$.parse`, document level. -/
def rawParse (toks : List Tok) : Except JsError Json :=
  match parseVal (2 * toks.length + 2) toks with
  | .error e => .error e
  | .ok (v, r) => if r.isEmpty then .ok v else .error (badJson "Bad JSON: trailing tokens")

mutual
/-- The tree-level effect of serializing and re-parsing a value: every
arbitrary-precision integer within the safe range comes back as an
ordinary number; everything else is unchanged. -/
def demote : Json → Json
  | .null => .null
  | .bool b => .bool b
  | .num n => .num n
  | .big n => intLiteral n
  | .str s => .str s
  | .arr es => .arr (demoteList es)
  | .obj ms => .obj (demoteMembers ms)
def demoteList : List Json → List Json
  | [] => []
  | e :: es => demote e :: demoteList es
def demoteMembers : List (String × Json) → List (String × Json)
  | [] => []
  | (k, v) :: ms => (k, demote v) :: demoteMembers ms
end

mutual
/-- Every ordinary number lies within the safe range and every
arbitrary-precision integer outside it — the invariant of freshly parsed
values — and no object member is named `constructor` (the parser rejects
those). -/
def rawShaped : Json → Bool
  | .null => true
  | .bool _ => true
  | .num n => decide (-MAX_SAFE_INTEGER ≤ n ∧ n ≤ MAX_SAFE_INTEGER)
  | .big n => decide (¬(-MAX_SAFE_INTEGER ≤ n ∧ n ≤ MAX_SAFE_INTEGER))
  | .str _ => true
  | .arr es => rawShapedList es
  | .obj ms => rawShapedMembers ms
def rawShapedList : List Json → Bool
  | [] => true
  | e :: es => rawShaped e && rawShapedList es
def rawShapedMembers : List (String × Json) → Bool
  | [] => true
  | (k, v) :: ms => decide (k ≠ "constructor") && rawShaped v && rawShapedMembers ms
end

/-! ### The sanitation pass (src/lib/safe-json.mjs)

`sanitize` and its helpers mutate the parsed tree in place and also return a
value; the two coincide except in the multi-signature-clause branch, which
returns `sanitize(json.from, "from")` — the sanitized `from` sub-tree —
while the mutation keeps the clause object.  The model therefore has two
functions, `sanitizeMut` (the state of the argument after the call) and
`sanitizeRet` (the value the call returns, `none` standing for the
JavaScript `undefined` returned when the clause object has no `from`
member).  The clause branch sanitizes the `from` member once through
`sanitizeFields` and then a second time through the explicit
`sanitize(json.from, "from")` call, so the recursion is not structural; a
fuel counter (any amount at least `sizeOf` of the argument suffices, since
sanitation preserves sizes) makes it total. -/

mutual
/-- `sanitizeAdditionalFields(json, depth)`: below a quantity-map trigger,
recurse while `depth > 1`, and convert numeric members at the final level.
`for..in` over a primitive visits no keys (header note). -/
def sanitizeAdditionalFields : Json → Nat → Json
  | .arr es, depth => .arr (sanitizeAdditionalList es depth)
  | .obj ms, depth => .obj (sanitizeAdditionalMembers ms depth)
  | j, _ => j
def sanitizeAdditionalList : List Json → Nat → List Json
  | [], _ => []
  | v :: es, depth =>
    (if 1 < depth then sanitizeAdditionalFields v (depth - 1) else bigify v) ::
      sanitizeAdditionalList es depth
def sanitizeAdditionalMembers : List (String × Json) → Nat → List (String × Json)
  | [], _ => []
  | (k, v) :: ms, depth =>
    (k, if 1 < depth then sanitizeAdditionalFields v (depth - 1) else bigify v) ::
      sanitizeAdditionalMembers ms depth
end

mutual
/-- `sanitizeMetadatum`: under a `labels` parent, every numeric leaf at any
depth becomes arbitrary-precision. -/
def sanitizeMetadatum : Json → Json
  | .arr es => .arr (sanitizeMetadatumList es)
  | .obj ms => .obj (sanitizeMetadatumMembers ms)
  | j => j
def sanitizeMetadatumList : List Json → List Json
  | [] => []
  | v :: es =>
    (match v with
     | .num n => .big n
     | v => sanitizeMetadatum v) :: sanitizeMetadatumList es
def sanitizeMetadatumMembers : List (String × Json) → List (String × Json)
  | [] => []
  | (k, v) :: ms =>
    (k, match v with
        | .num n => .big n
        | v => sanitizeMetadatum v) :: sanitizeMetadatumMembers ms
end

/-- `json.clause === "some" && json.atLeast !== undefined`. -/
def isSomeClause (ms : List (String × Json)) : Bool :=
  (match getField ms "clause" with
   | some (.str s) => decide (s = "some")
   | _ => false) && (getField ms "atLeast").isSome

mutual
/-- The state of `json` after `sanitize(json, parentKey)` returns; the
function mutates its argument in place. -/
def sanitizeMut : Nat → Json → Option String → Json
  | 0, j, _ => j
  | fuel + 1, j, parentKey =>
    match j with
    | .obj ms =>
      if (getField ms "lovelace").isSome then
        .obj (sanitizeFieldsMut fuel ms ["lovelace"])
      else if (getField ms "ada").isSome || parentKey = some "mint" ||
          parentKey = some "value" then
        sanitizeAdditionalFields (.obj ms) 2
      else if isSomeClause ms then
        .obj (sanitizeFromMember fuel (sanitizeFieldsMut fuel ms ["atLeast"]))
      else if parentKey = some "labels" then
        sanitizeMetadatum (.obj ms)
      else
        .obj (sanitizeEachMember fuel ms)
    | .arr es =>
      if parentKey = some "mint" || parentKey = some "value" then
        sanitizeAdditionalFields (.arr es) 2
      else if parentKey = some "labels" then
        sanitizeMetadatum (.arr es)
      else
        .arr (sanitizeEachElem fuel es 0)
    | j => j
/-- The value `sanitize(json, parentKey)` returns: the mutated argument,
except for a multi-signature clause, where it is the return of
`sanitize(json.from, "from")` (and `undefined` when `from` is absent). -/
def sanitizeRet : Nat → Json → Option String → Option Json
  | 0, j, _ => some j
  | fuel + 1, j, parentKey =>
    match j with
    | .obj ms =>
      if (getField ms "lovelace").isSome then
        some (.obj (sanitizeFieldsMut fuel ms ["lovelace"]))
      else if (getField ms "ada").isSome || parentKey = some "mint" ||
          parentKey = some "value" then
        some (sanitizeAdditionalFields (.obj ms) 2)
      else if isSomeClause ms then
        match getField (sanitizeFieldsMut fuel ms ["atLeast"]) "from" with
        | none => none
        | some f1 => sanitizeRet fuel f1 (some "from")
      else if parentKey = some "labels" then
        some (sanitizeMetadatum (.obj ms))
      else
        some (.obj (sanitizeEachMember fuel ms))
    | .arr es =>
      if parentKey = some "mint" || parentKey = some "value" then
        some (sanitizeAdditionalFields (.arr es) 2)
      else if parentKey = some "labels" then
        some (sanitizeMetadatum (.arr es))
      else
        some (.arr (sanitizeEachElem fuel es 0))
    | j => some j
/-- `sanitizeFields(json, fields)`: members in `fields` get the numeric
conversion, every other member is sanitized (in place) with its key as the
parent key. -/
def sanitizeFieldsMut : Nat → List (String × Json) → List String → List (String × Json)
  | 0, ms, _ => ms
  | _ + 1, [], _ => []
  | fuel + 1, (k, v) :: ms, fields =>
    (k, if fields.contains k then bigify v else sanitizeMut fuel v (some k)) ::
      sanitizeFieldsMut fuel ms fields
/-- The second mutation of the clause branch: `sanitize(json.from, "from")`
re-sanitizes the (already sanitized) `from` member in place. -/
def sanitizeFromMember : Nat → List (String × Json) → List (String × Json)
  | 0, ms => ms
  | _ + 1, [] => []
  | fuel + 1, (k, v) :: ms =>
    (if k = "from" then (k, sanitizeMut fuel v (some "from")) else (k, v)) ::
      sanitizeFromMember fuel ms
/-- The default branch: `for (const k in json) sanitize(json[k], k)`. -/
def sanitizeEachMember : Nat → List (String × Json) → List (String × Json)
  | 0, ms => ms
  | _ + 1, [] => []
  | fuel + 1, (k, v) :: ms =>
    (k, sanitizeMut fuel v (some k)) :: sanitizeEachMember fuel ms
/-- The default branch over an array: the keys are the index strings. -/
def sanitizeEachElem : Nat → List Json → Nat → List Json
  | 0, es, _ => es
  | _ + 1, [], _ => []
  | fuel + 1, v :: es, i =>
    sanitizeMut fuel v (some (toString i)) :: sanitizeEachElem fuel es (i + 1)
end

mutual
/-- Structural size of a value, used only to supply sufficient fuel. -/
def jsize : Json → Nat
  | .null => 1
  | .bool _ => 1
  | .num _ => 1
  | .big _ => 1
  | .str _ => 1
  | .arr es => 1 + jsizeList es
  | .obj ms => 1 + jsizeMembers ms
def jsizeList : List Json → Nat
  | [] => 1
  | e :: es => 1 + jsize e + jsizeList es
def jsizeMembers : List (String × Json) → Nat
  | [] => 1
  | (_, v) :: ms => 2 + jsize v + jsizeMembers ms
end

/-- `sanitize(parsed)` as called by `Json.parse`: no parent key; the fuel
`jsize v` is always sufficient. -/
def sanitizeTop (v : Json) : Option Json := sanitizeRet (jsize v) v none

/-- The textual workaround: `str.replace(/"constructor"/g, '"constr"')`,
at the token level. -/
def substituteCtor (toks : List Tok) : List Tok :=
  toks.map fun t =>
    match t with
    | .tstr "constructor" => .tstr "constr"
    | t => t

/-- `needle` starts `hay`. -/
def listStarts : List Char → List Char → Bool
  | [], _ => true
  | _ :: _, [] => false
  | a :: as, b :: bs => a = b && listStarts as bs

/-- `needle` occurs contiguously in `hay` (`String.includes`). -/
def listHasSub (hay needle : List Char) : Bool :=
  match hay with
  | [] => needle.isEmpty
  | _ :: t => listStarts needle hay || listHasSub t needle

/-- The guard of the catch block:
`e.name === "SyntaxError" && typeof e.message === "string" &&
e.message.includes("forbidden constructor")`. -/
def msgIncludesForbiddenCtor (e : JsError) : Bool :=
  decide (e.name = "SyntaxError") &&
    listHasSub e.message.toList "forbidden constructor".toList

/-- `Json.parse` (src/lib/safe-json.mjs): parse and sanitize; if parsing
fails with the forbidden-constructor `SyntaxError`, substitute the token
`"constructor"` by `"constr"` and retry once; any other failure is
rethrown unchanged. -/
def jsonParse (toks : List Tok) : Except JsError (Option Json) :=
  match rawParse toks with
  | .ok v => .ok (sanitizeTop v)
  | .error e =>
    if msgIncludesForbiddenCtor e then
      match rawParse (substituteCtor toks) with
      | .ok v => .ok (sanitizeTop v)
      | .error e2 => .error e2
    else .error e

/-- `Json.stringify` delegates to the serializer. -/
def jsonStringify : Json → List Tok := stringifyToks

/-! ### The RPC request builder (src/lib/index.mjs, `newRpcRequest`) -/

/-- The object literal built by `newRpcRequest`:
`{ jsonrpc: "2.0", method, params, ...(id && { id }) }`.  Spreading a falsy
value adds no member, so the `id` member exists exactly when `id` is
truthy. -/
def rpcRequestObj (method : String) (params : Json) (id : Option Json) : Json :=
  .obj ([("jsonrpc", .str "2.0"), ("method", .str method), ("params", params)] ++
    (match id with
     | some v => if truthy v then [("id", v)] else []
     | none => []))

/-- `newRpcRequest(method, params, id)`: the serialized request. -/
def newRpcRequest (method : String) (params : Json) (id : Option Json) : List Tok :=
  jsonStringify (rpcRequestObj method params id)

/-! ### The chain follower (src/lib/index.mjs, `newChainFollower`)

The follower is driven by a scripted channel: `script` lists the inbound
messages, already decoded (each entry is what `Json.parse(data)` yields for
one `"message"` event), in arrival order.  Outbound traffic is recorded as
the list of RPC method names sent.  Promises and the task queue are
represented by their observable content: signals form a queue of refill
flags (newest first, `unshift` at the head, `pop` from the tail), and each
resolution appends its `{ direction, block }` payload to `resolvedEvents`;
because both queues move in lockstep, the k-th created task resolves with
the k-th entry of `resolvedEvents`. -/

/-- An argument as passed from JavaScript: a value, or `undefined`. -/
inductive JsArg where
  | undef
  | val (v : Json)

/-- Loose equality against `undefined` (`x == undefined`), true for
`undefined` and `null`. -/
def looseUndefined : JsArg → Bool
  | .undef => true
  | .val .null => true
  | _ => false

/-- `typeof x === "number"` (arbitrary-precision integers are `"bigint"`). -/
def isNumberArg : JsArg → Bool
  | .val (.num _) => true
  | _ => false

/-- `Array.isArray(x)`. -/
def isArrayArg : JsArg → Bool
  | .val (.arr _) => true
  | _ => false

/-- `Number.isInteger(x)`: false on every non-number; numeric literals are
modelled as integers (header note), so on numbers it holds. -/
def isIntegerArg : JsArg → Bool
  | .val (.num _) => true
  | _ => false

/-- The validated and normalized arguments of `newChainFollower`. -/
structure FollowerArgs where
  start : Option (List Json)
  count : Option Int

/-- The points array carried by a validated `start` argument. -/
def pointsOf : JsArg → Option (List Json)
  | .val (.arr es) => some es
  | _ => none

/-- The integer carried by a validated `count` argument. -/
def countOf : JsArg → Option Int
  | .val (.num n) => some n
  | _ => none

/-- The input sanitation of `newChainFollower`: the single-number shorthand
re-binds `count := start`, then `start` must be an array (when not
null/undefined) and `count` must satisfy `Number.isInteger` (when not
null/undefined). -/
def newChainFollowerValidate (start0 count0 : JsArg) : Except JsError FollowerArgs :=
  let p :=
    if isNumberArg start0 && looseUndefined count0 then (JsArg.undef, start0)
    else (start0, count0)
  let start := p.1
  let count := p.2
  if !looseUndefined start && !isArrayArg start then
    .error ⟨"Error", "expected an Array to start 'start', got something else"⟩
  else if !looseUndefined count && !isIntegerArg count then
    .error ⟨"Error", "expected an Integer 'count', got something else"⟩
  else
    .ok ⟨pointsOf start, countOf count⟩

/-- `INITIAL_PIPELINE_BURST`. -/
def INITIAL_PIPELINE_BURST : Int := 100

/-- The observable state of a running follower. -/
structure ChainState where
  /-- the mutable `n` captured by the `again` closure of `requestBlocks` -/
  counter : Int
  /-- pending signals, newest first; each entry records whether its
  `notify` re-enqueues (the result `again()` returned at creation) -/
  signals : List Bool
  /-- how many `nextBlock` requests have been sent -/
  sent : Nat
  /-- the `{ direction, block }` payloads delivered to signals, in
  resolution order (the k-th task resolves with the k-th entry) -/
  resolvedEvents : List (Option Json × Option Json)
  ignoredFirstRollBack : Bool
  /-- a `TypeError` escaped (popping an empty queue, or destructuring a
  missing `result`) -/
  crashed : Bool

/-- `enqueue(tasks, signals, again)`: evaluate `again()` (increment the
shared counter, compare against `count ?? Number.MAX_SAFE_INTEGER`), unshift
the signal, send one `nextBlock`. -/
def enqueue (count : Option Int) (st : ChainState) : ChainState :=
  let n := st.counter + 1
  { st with
    counter := n
    signals := decide (n ≤ count.getD MAX_SAFE_INTEGER) :: st.signals
    sent := st.sent + 1 }

/-- `k` successive `enqueue` calls. -/
def enqueueN (count : Option Int) : Nat → ChainState → ChainState
  | 0, st => st
  | k + 1, st => enqueueN count k (enqueue count st)

/-- `requestBlocks`: set the shared counter to
`pipelined = Math.min(count ?? INITIAL_PIPELINE_BURST, INITIAL_PIPELINE_BURST)`
and run the loop `for (let i = 0; i <= pipelined; i += 1) enqueue(...)` —
`pipelined + 1` iterations. -/
def requestBlocks (count : Option Int) (st : ChainState) : ChainState :=
  let pipelined : Int := min (count.getD INITIAL_PIPELINE_BURST) INITIAL_PIPELINE_BURST
  enqueueN count (pipelined + 1).toNat { st with counter := pipelined }

/-- `signals.pop()`: the oldest entry (the queue is unshifted at the head),
and the remaining queue. -/
def popOldest (l : List Bool) : Option (Bool × List Bool) :=
  match l.getLast? with
  | none => none
  | some x => some (x, l.dropLast)

/-- `direction === "backward"`. -/
def isBackwardDir : Option Json → Bool
  | some (.str s) => decide (s = "backward")
  | _ => false

/-- The block listener installed by `addBlockListener`, for one inbound
message: read `{ direction, block } = Json.parse(data).result`, discard the
first backward event, otherwise resolve the oldest pending signal (which
re-enqueues when its refill flag is set). -/
def deliver (count : Option Int) (st : ChainState) (msg : Json) : ChainState :=
  if st.crashed then st
  else
    match msg.get "result" with
    | none => { st with crashed := true }
    | some .null => { st with crashed := true }
    | some res =>
      let direction := res.get "direction"
      let block := res.get "block"
      if isBackwardDir direction && !st.ignoredFirstRollBack then
        { st with ignoredFirstRollBack := true }
      else
        match popOldest st.signals with
        | none => { st with crashed := true }
        | some (flag, rest) =>
          let st1 := { st with
            signals := rest
            resolvedEvents := st.resolvedEvents ++ [(direction, block)] }
          if flag then enqueue count st1 else st1

/-- Deliver a whole scripted message sequence. -/
def deliverAll (count : Option Int) (st : ChainState) (msgs : List Json) : ChainState :=
  msgs.foldl (deliver count) st

/-- The outcome of a follower run against a finite script. -/
inductive FollowerOutcome where
  /-- the finite generator yielded `yielded` and returned -/
  | terminated (yielded : List (Option Json × Option Json)) (final : ChainState)
  /-- the unbounded generator yielded everything resolved so far and is
  awaiting the next message -/
  | streaming (yielded : List (Option Json × Option Json)) (final : ChainState)
  /-- synchronous throw before any channel interaction -/
  | invalidArgument (e : JsError)
  /-- `reject(error)` from intersection negotiation -/
  | rejected (e : Json)
  /-- an await that no scripted message resolves -/
  | hung
  /-- an escaped `TypeError` -/
  | crashed

/-- A follower run: the RPC methods sent, in order, and the outcome. -/
structure FollowerRun where
  requests : List String
  outcome : FollowerOutcome

/-- The `nextBlock` requests of a state. -/
def nextBlocks (n : Nat) : List String := List.replicate n "nextBlock"

/-- The generator returned for a finite `count`: yield `count` tasks, then
`signals.pop().notify()` (which re-enqueues when the drained signal carries
a refill flag) and await the task it resolved. -/
def finiteGenerator (count : Int) (st : ChainState) (reqs : List String) : FollowerRun :=
  let c := count.toNat
  if st.resolvedEvents.length < c then ⟨reqs ++ nextBlocks st.sent, .hung⟩
  else
    match popOldest st.signals with
    | none => ⟨reqs ++ nextBlocks st.sent, .crashed⟩
    | some (flag, rest) =>
      let st2 := { st with signals := rest }
      let st3 := if flag then enqueue (some count) st2 else st2
      ⟨reqs ++ nextBlocks st3.sent, .terminated (st.resolvedEvents.take c) st3⟩

/-- The state right after `addBlockListener` is installed: empty queues,
nothing sent, first rollback not yet seen. -/
def initialChainState : ChainState :=
  { counter := 0, signals := [], sent := 0, resolvedEvents := []
    ignoredFirstRollBack := false, crashed := false }

/-- The follower after successful negotiation: install the listener, fill
the window, deliver the script, then run the generator. -/
def runFollower (count : Option Int) (msgs : List Json) (reqs : List String) : FollowerRun :=
  let st1 := requestBlocks count initialChainState
  let st2 := deliverAll count st1 msgs
  if st2.crashed then ⟨reqs ++ nextBlocks st2.sent, .crashed⟩
  else
    match count with
    | some c => finiteGenerator c st2 reqs
    | none => ⟨reqs ++ nextBlocks st2.sent, .streaming st2.resolvedEvents st2⟩

/-- `newChainFollower(start, count)` driven by a scripted channel. -/
def newChainFollower (start0 count0 : JsArg) (script : List Json) : FollowerRun :=
  match newChainFollowerValidate start0 count0 with
  | .error e => ⟨[], .invalidArgument e⟩
  | .ok args =>
    match args.start with
    | some _pts =>
      -- explicit intersection: reject if the response carries an error
      match script with
      | [] => ⟨["findIntersection"], .hung⟩
      | m :: rest =>
        match m with
        | .null => ⟨["findIntersection"], .crashed⟩
        | _ =>
          match m.get "error" with
          | some e => ⟨["findIntersection"], .rejected e⟩
          | none => runFollower args.count rest ["findIntersection"]
    | none =>
      -- tip-derived intersection: `nextBlock`, read the tip, then
      -- `findIntersection` whose response is not inspected
      match script with
      | [] => ⟨["nextBlock"], .hung⟩
      | m1 :: rest1 =>
        match m1.get "result" with
        | none => ⟨["nextBlock"], .crashed⟩
        | some .null => ⟨["nextBlock"], .crashed⟩
        | some _res =>
          match rest1 with
          | [] => ⟨["nextBlock", "findIntersection"], .hung⟩
          | _ :: rest2 => runFollower args.count rest2 ["nextBlock", "findIntersection"]

end Mdk



namespace Mdk

/-! ## Claim C10: falsy request ids are omitted from the wire message -/

/-- C10: for every call to `newRpcRequest(method, params, id)` in which the
supplied `id` is falsy (`0`, `""`, `false`, `null`, and likewise `0n`), the
serialized request omits the `id` member entirely, exactly as if no id had
been given; a truthy `id` is included as the final member. -/
theorem newRpcRequest_falsy_id_omitted (method : String) (params : Json) (id : Json) :
    (truthy id = false →
      newRpcRequest method params (some id) = newRpcRequest method params none) ∧
    (truthy id = true →
      rpcRequestObj method params (some id) =
        .obj [("jsonrpc", .str "2.0"), ("method", .str method), ("params", params),
              ("id", id)]) := by
  constructor <;> intro h <;>
    simp [newRpcRequest, rpcRequestObj, jsonStringify, h]

/-- Witness for C10 at `id = 0` (falsy) and `id = "x"` (truthy). -/
theorem newRpcRequest_falsy_id_omitted_witness :
    truthy (.num 0) = false ∧
    newRpcRequest "queryNetwork/tip" (.obj []) (some (.num 0)) =
      newRpcRequest "queryNetwork/tip" (.obj []) none ∧
    rpcRequestObj "f" .null (some (.str "x")) =
      .obj [("jsonrpc", .str "2.0"), ("method", .str "f"), ("params", .null),
            ("id", .str "x")] :=
  ⟨rfl,
   (newRpcRequest_falsy_id_omitted "queryNetwork/tip" (.obj []) (.num 0)).1 rfl,
   (newRpcRequest_falsy_id_omitted "f" .null (.str "x")).2 rfl⟩

/-! ## Claim C7: input validation of `newChainFollower` -/

/-- C7 counterexample: the claim says a negative integer `count` is rejected
with `InvalidArgument`; the code only checks `Number.isInteger(count)`, so
`newChainFollower(-1)` (the single-number shorthand) passes validation with
`count = -1`. -/
theorem newChainFollower_negative_count_accepted :
    newChainFollowerValidate (.val (.num (-1))) .undef = .ok ⟨none, some (-1)⟩ ∧
    (-1 : Int) < 0 :=
  ⟨rfl, by decide⟩

/-- C7 (amended): `newChainFollower` fails synchronously — before writing
anything to the channel — if and only if, after applying the single-number
shorthand, `points` is provided (not null/undefined) and is not an array,
or `count` is provided and is not an integer (`Number.isInteger`; negative
integers are accepted).  The single-number shorthand always validates, with
the number becoming `count` and no points. -/
theorem newChainFollower_validation (start0 count0 : JsArg) (script : List Json) :
    ((∃ e, newChainFollowerValidate start0 count0 = .error e) ↔
      ((isNumberArg start0 && looseUndefined count0) = false ∧
        ((looseUndefined start0 = false ∧ isArrayArg start0 = false) ∨
         (looseUndefined start0 = true ∨ isArrayArg start0 = true) ∧
           looseUndefined count0 = false ∧ isIntegerArg count0 = false))) ∧
    (∀ e, newChainFollowerValidate start0 count0 = .error e →
      newChainFollower start0 count0 script = ⟨[], .invalidArgument e⟩) ∧
    (∀ n : Int, newChainFollowerValidate (.val (.num n)) .undef = .ok ⟨none, some n⟩) := by
  refine ⟨?_, ?_, fun n => rfl⟩
  · rcases start0 with _ | v
    · rcases count0 with _ | w
      · simp [newChainFollowerValidate, isNumberArg, looseUndefined, isArrayArg,
              isIntegerArg]
      · cases w <;>
          simp [newChainFollowerValidate, isNumberArg, looseUndefined, isArrayArg,
                isIntegerArg]
    · rcases count0 with _ | w
      · cases v <;>
          simp [newChainFollowerValidate, isNumberArg, looseUndefined, isArrayArg,
                isIntegerArg]
      · cases v <;> cases w <;>
          simp [newChainFollowerValidate, isNumberArg, looseUndefined, isArrayArg,
                isIntegerArg]
  · intro e he
    unfold newChainFollower
    rw [he]

end Mdk

namespace Mdk

/-- Witness for C7: a non-array `points` argument fails synchronously with
the `InvalidArgument` error and nothing is written to the channel. -/
theorem newChainFollower_validation_witness :
    newChainFollower (.val (.str "foo")) (.val (.num 42)) [] =
      ⟨[], .invalidArgument
        ⟨"Error", "expected an Array to start 'start', got something else"⟩⟩ :=
  (newChainFollower_validation (.val (.str "foo")) (.val (.num 42)) []).2.1 _ rfl

/-! ## Claim C8: a rejected intersection negotiation -/

/-- C8: when the `findIntersection` response carries an `error` member, the
follower fails with that peer-supplied error (`RemoteRejection`), sends no
`nextBlock` request at all (the only request on the wire is the
negotiation), never installs the block listener, and the returned sequence
never yields an event. -/
theorem newChainFollower_remote_rejection (pts : List Json) (count0 : JsArg)
    (hcount : looseUndefined count0 = true ∨ isIntegerArg count0 = true)
    (m : Json) (rest : List Json) (e : Json) (he : m.get "error" = some e) :
    newChainFollower (.val (.arr pts)) count0 (m :: rest) =
      ⟨["findIntersection"], .rejected e⟩ := by
  have hv : newChainFollowerValidate (.val (.arr pts)) count0 =
      .ok ⟨some pts, countOf count0⟩ := by
    rcases hcount with h | h <;>
      · unfold newChainFollowerValidate
        simp_all [isNumberArg, looseUndefined, isArrayArg, isIntegerArg, pointsOf]
  cases m with
  | obj ms =>
    unfold newChainFollower
    rw [hv]
    simp only
    rw [he]
  | null => exact absurd he (by simp [Json.get])
  | bool b => exact absurd he (by simp [Json.get])
  | num n => exact absurd he (by simp [Json.get])
  | big n => exact absurd he (by simp [Json.get])
  | str s => exact absurd he (by simp [Json.get])
  | arr es => exact absurd he (by simp [Json.get])

/-- Witness for C8: negotiating an unknown point fails with the peer's
error object and only the negotiation request is ever sent. -/
theorem newChainFollower_remote_rejection_witness :
    newChainFollower (.val (.arr [.obj [("id", .str "0000"), ("slot", .num 0)]])) .undef
      [.obj [("error", .obj [("code", .num (-32602)),
                             ("message", .str "Invalid request")])]] =
      ⟨["findIntersection"],
       .rejected (.obj [("code", .num (-32602)), ("message", .str "Invalid request")])⟩ :=
  newChainFollower_remote_rejection [.obj [("id", .str "0000"), ("slot", .num 0)]] .undef
    (Or.inl rfl) _ [] _ rfl

end Mdk

namespace Mdk

/-! ## The window invariant of the delivery loop

After the first backward event is discarded, the pending-signal queue always
consists of the refill flags of a contiguous range of enqueue ordinals: if
`a` is the ordinal of the oldest pending request and `b` the queue length,
the queue holds the flags of ordinals `a, …, a+b-1`, newest first, and the
shared counter reads `p + (a+b) - 1` where `p` is the `pipelined` base the
counter started from.  `windowState` packages this shape; the lemmas below
show `enqueue` and `deliver` preserve it. -/

/-- The refill flags of enqueue ordinals `a, …, a+b-1` (relative to the
counter base `p`), newest first — exactly the shape of the signal queue. -/
def signalQueue (count : Option Int) (p : Int) (a b : Nat) : List Bool :=
  match b with
  | 0 => []
  | b + 1 => decide ((p + ((a + b : Nat) : Int)) ≤ count.getD MAX_SAFE_INTEGER) ::
      signalQueue count p a b

/-- How many enqueue ordinals from `a` onward still carry a refill flag:
ordinal `j` is flagged iff `p + j ≤ count ?? MAX_SAFE_INTEGER`. -/
def availRefills (count : Option Int) (p : Int) (a : Nat) : Nat :=
  (count.getD MAX_SAFE_INTEGER - p - (a : Int) + 1).toNat

/-- A follower state whose queue has the window shape. -/
def windowState (count : Option Int) (p : Int) (a b : Nat) (sent : Nat)
    (resolved : List (Option Json × Option Json)) (ign : Bool) : ChainState :=
  { counter := p + ((a + b : Nat) : Int) - 1
    signals := signalQueue count p a b
    sent := sent
    resolvedEvents := resolved
    ignoredFirstRollBack := ign
    crashed := false }

theorem signalQueue_length (count : Option Int) (p : Int) (a : Nat) :
    ∀ b, (signalQueue count p a b).length = b := by
  intro b; induction b with
  | zero => rfl
  | succ b ih => simp [signalQueue, ih]

theorem signalQueue_getLast? (count : Option Int) (p : Int) (a : Nat) :
    ∀ b, (signalQueue count p a (b + 1)).getLast? =
      some (decide ((p + (a : Int)) ≤ count.getD MAX_SAFE_INTEGER)) := by
  intro b; induction b with
  | zero => simp [signalQueue]
  | succ b ih =>
    rw [signalQueue]
    rw [List.getLast?_cons, ih]
    simp [signalQueue]

theorem signalQueue_dropLast (count : Option Int) (p : Int) :
    ∀ b a, (signalQueue count p a (b + 1)).dropLast = signalQueue count p (a + 1) b := by
  intro b; induction b with
  | zero => intro a; simp [signalQueue]
  | succ b ih =>
    intro a
    rw [signalQueue]
    rw [List.dropLast_cons_of_ne_nil (by simp [signalQueue])]
    rw [ih a, signalQueue]
    have : a + 1 + b = a + (b + 1) := by omega
    rw [this]

theorem popOldest_signalQueue (count : Option Int) (p : Int) (a b : Nat) :
    popOldest (signalQueue count p a (b + 1)) =
      some (decide ((p + (a : Int)) ≤ count.getD MAX_SAFE_INTEGER),
            signalQueue count p (a + 1) b) := by
  rw [popOldest, signalQueue_getLast?, signalQueue_dropLast]

theorem enqueue_windowState (count : Option Int) (p : Int) (a b sent : Nat)
    (resolved : List (Option Json × Option Json)) (ign : Bool) :
    enqueue count (windowState count p a b sent resolved ign) =
      windowState count p a (b + 1) (sent + 1) resolved ign := by
  unfold enqueue windowState
  have hc : p + ((a + b : Nat) : Int) - 1 + 1 = p + ((a + b : Nat) : Int) := by ring
  have hc2 : p + ((a + (b + 1) : Nat) : Int) - 1 = p + ((a + b : Nat) : Int) := by
    push_cast; ring
  simp only [hc, hc2]
  rw [signalQueue]

theorem enqueueN_windowState (count : Option Int) (p : Int) :
    ∀ (k : Nat) (a b sent : Nat) (resolved : List (Option Json × Option Json)) (ign : Bool),
      enqueueN count k (windowState count p a b sent resolved ign) =
        windowState count p a (b + k) (sent + k) resolved ign := by
  intro k; induction k with
  | zero => intro a b sent resolved ign; rfl
  | succ k ih =>
    intro a b sent resolved ign
    rw [enqueueN, enqueue_windowState, ih]
    have h1 : b + 1 + k = b + (k + 1) := by omega
    have h2 : sent + 1 + k = sent + (k + 1) := by omega
    rw [h1, h2]

/-- After `requestBlocks`, the window has `pipelined + 1` fresh requests. -/
theorem requestBlocks_windowState (count : Option Int) :
    requestBlocks count initialChainState =
      windowState count (min (count.getD INITIAL_PIPELINE_BURST) INITIAL_PIPELINE_BURST)
        1 ((min (count.getD INITIAL_PIPELINE_BURST) INITIAL_PIPELINE_BURST) + 1).toNat
        ((min (count.getD INITIAL_PIPELINE_BURST) INITIAL_PIPELINE_BURST) + 1).toNat
        [] false := by
  have hinit : ({ initialChainState with
      counter := min (count.getD INITIAL_PIPELINE_BURST) INITIAL_PIPELINE_BURST } : ChainState) =
      windowState count (min (count.getD INITIAL_PIPELINE_BURST) INITIAL_PIPELINE_BURST)
        1 0 0 [] false := by
    unfold initialChainState windowState signalQueue
    simp
  show enqueueN count
      ((min (count.getD INITIAL_PIPELINE_BURST) INITIAL_PIPELINE_BURST) + 1).toNat
      { initialChainState with
        counter := min (count.getD INITIAL_PIPELINE_BURST) INITIAL_PIPELINE_BURST } = _
  rw [hinit, enqueueN_windowState]
  simp

end Mdk

namespace Mdk

/-- A message whose `result` member destructures without throwing. -/
def GoodMsg (m : Json) : Prop := ∃ res, m.get "result" = some res ∧ res ≠ Json.null

/-- The `{ direction, block }` payload of an inbound message. -/
def extractEvent (m : Json) : Option Json × Option Json :=
  match m.get "result" with
  | some res => (res.get "direction", res.get "block")
  | none => (none, none)

/-- `deliver`, rewritten for a well-formed message on an uncrashed state. -/
theorem deliver_good (count : Option Int) (st : ChainState) (m : Json)
    (hm : GoodMsg m) (hcr : st.crashed = false) :
    deliver count st m =
      if isBackwardDir (extractEvent m).1 && !st.ignoredFirstRollBack then
        { st with ignoredFirstRollBack := true }
      else
        match popOldest st.signals with
        | none => { st with crashed := true }
        | some (flag, rest) =>
          let st1 := { st with
            signals := rest
            resolvedEvents := st.resolvedEvents ++ [extractEvent m] }
          if flag then enqueue count st1 else st1 := by
  rcases hm with ⟨res, hres, hnull⟩
  unfold deliver extractEvent
  rw [hcr, hres]
  cases res <;> simp_all

/-- Discarding the first backward event only sets the flag. -/
theorem deliver_first_backward (count : Option Int) (st : ChainState) (m : Json)
    (hm : GoodMsg m) (hcr : st.crashed = false)
    (hdir : isBackwardDir (extractEvent m).1 = true)
    (hign : st.ignoredFirstRollBack = false) :
    deliver count st m = { st with ignoredFirstRollBack := true } := by
  rw [deliver_good count st m hm hcr, hdir, hign]
  simp

/-- One steady-state delivery: the oldest pending signal is consumed, the
event is appended to the resolution log, and one refill is enqueued exactly
when the consumed signal carried a refill flag. -/
theorem deliver_windowState (count : Option Int) (p : Int) (a b sent : Nat)
    (resolved : List (Option Json × Option Json)) (m : Json) (hm : GoodMsg m) :
    deliver count (windowState count p a (b + 1) sent resolved true) m =
      if (p + (a : Int)) ≤ count.getD MAX_SAFE_INTEGER then
        windowState count p (a + 1) (b + 1) (sent + 1)
          (resolved ++ [extractEvent m]) true
      else
        windowState count p (a + 1) b sent (resolved ++ [extractEvent m]) true := by
  rw [deliver_good count _ m hm rfl]
  have hsig : (windowState count p a (b + 1) sent resolved true).signals =
      signalQueue count p a (b + 1) := rfl
  simp only [windowState, Bool.not_true, Bool.and_false, if_false, Bool.false_eq_true,
    popOldest_signalQueue]
  split
  · next hflag =>
    rw [if_pos (by simpa using hflag)]
    show enqueue count _ = _
    have h1 : ({ counter := p + ((a + (b + 1) : Nat) : Int) - 1
                 signals := signalQueue count p (a + 1) b
                 sent := sent
                 resolvedEvents := resolved ++ [extractEvent m]
                 ignoredFirstRollBack := true
                 crashed := false } : ChainState) =
        windowState count p (a + 1) b sent (resolved ++ [extractEvent m]) true := by
      unfold windowState
      have : p + ((a + (b + 1) : Nat) : Int) - 1 = p + (((a + 1) + b : Nat) : Int) - 1 := by
        push_cast; ring
      rw [this]
    rw [h1, enqueue_windowState]
    rfl
  · next hflag =>
    rw [if_neg (by simpa using hflag)]
    have hctr : p + ((a + (b + 1) : Nat) : Int) - 1 = p + (((a + 1) + b : Nat) : Int) - 1 := by
      push_cast; ring
    rw [hctr]

end Mdk

namespace Mdk

theorem deliverAll_nil (count : Option Int) (st : ChainState) :
    deliverAll count st [] = st := rfl

theorem deliverAll_cons (count : Option Int) (st : ChainState) (m : Json) (rest : List Json) :
    deliverAll count st (m :: rest) = deliverAll count (deliver count st m) rest := rfl

/-- The master delivery lemma: delivering `msgs` well-formed messages to a
window of `b` pending requests (oldest ordinal `a`) resolves them strictly
in arrival order, appending `msgs.map extractEvent` to the resolution log,
and re-enqueues one request per delivery while refill flags last. -/
theorem deliverAll_windowState (count : Option Int) (p : Int) :
    ∀ (msgs : List Json) (a b sent : Nat) (resolved : List (Option Json × Option Json)),
      (∀ m ∈ msgs, GoodMsg m) →
      msgs.length ≤ b + availRefills count p a →
      (msgs = [] ∨ 1 ≤ b) →
      deliverAll count (windowState count p a b sent resolved true) msgs =
        windowState count p (a + msgs.length)
          ((b + min msgs.length (availRefills count p a)) - msgs.length)
          (sent + min msgs.length (availRefills count p a))
          (resolved ++ msgs.map extractEvent) true := by
  intro msgs
  induction msgs with
  | nil => intro a b sent resolved _ _ _; simp [deliverAll_nil]
  | cons m rest ih =>
    intro a b sent resolved hgood hlen hb
    have hb1 : 1 ≤ b := by
      rcases hb with h | h
      · exact absurd h (by simp)
      · exact h
    obtain ⟨b', rfl⟩ : ∃ b', b = b' + 1 := ⟨b - 1, by omega⟩
    rw [deliverAll_cons,
      deliver_windowState count p a b' sent resolved m (hgood m (by simp))]
    have havail : availRefills count p (a + 1) = availRefills count p a - 1 := by
      unfold availRefills
      push_cast
      omega
    split_ifs with hflag
    · have hav1 : 1 ≤ availRefills count p a := by
        unfold availRefills
        omega
      rw [ih (a + 1) (b' + 1) (sent + 1) (resolved ++ [extractEvent m])
        (fun x hx => hgood x (by simp [hx]))
        (by simp only [List.length_cons] at hlen; omega)
        (Or.inr (by omega))]
      have e1 : a + 1 + rest.length = a + (m :: rest).length := by simp; omega
      have e2 : (b' + 1 + min rest.length (availRefills count p (a + 1))) - rest.length =
          (b' + 1 + min (m :: rest).length (availRefills count p a)) - (m :: rest).length := by
        simp only [List.length_cons]
        omega
      have e3 : sent + 1 + min rest.length (availRefills count p (a + 1)) =
          sent + min (m :: rest).length (availRefills count p a) := by
        simp only [List.length_cons]
        omega
      have e4 : (resolved ++ [extractEvent m]) ++ rest.map extractEvent =
          resolved ++ (m :: rest).map extractEvent := by
        simp
      rw [e1, e2, e3, e4]
    · have hav0 : availRefills count p a = 0 := by
        unfold availRefills
        omega
      have hrl : rest.length ≤ b' := by
        simp only [List.length_cons] at hlen
        omega
      rw [ih (a + 1) b' sent (resolved ++ [extractEvent m])
        (fun x hx => hgood x (by simp [hx]))
        (by rw [havail, hav0]; omega)
        (by
          rcases rest with _ | ⟨x, xs⟩
          · exact Or.inl rfl
          · exact Or.inr (by simp at hrl; omega))]
      have e1 : a + 1 + rest.length = a + (m :: rest).length := by simp; omega
      have e2 : (b' + min rest.length (availRefills count p (a + 1))) - rest.length =
          (b' + 1 + min (m :: rest).length (availRefills count p a)) - (m :: rest).length := by
        rw [havail, hav0]
        simp only [List.length_cons]
        omega
      have e3 : sent + min rest.length (availRefills count p (a + 1)) =
          sent + min (m :: rest).length (availRefills count p a) := by
        rw [havail, hav0]
        simp only [List.length_cons]
        omega
      have e4 : (resolved ++ [extractEvent m]) ++ rest.map extractEvent =
          resolved ++ (m :: rest).map extractEvent := by
        simp
      rw [e1, e2, e3, e4]

end Mdk

namespace Mdk

/-- Setting the rollback flag on a window state. -/
theorem windowState_set_ign (count : Option Int) (p : Int) (a b sent : Nat)
    (resolved : List (Option Json × Option Json)) :
    ({ windowState count p a b sent resolved false with ignoredFirstRollBack := true }
      : ChainState) = windowState count p a b sent resolved true := rfl

/-! ## Claim C2: strict FIFO correlation of follower events -/

/-- C2: after the discarded initial backward event, each delivered event
resolves the oldest still-pending window entry: delivering the script
`m0 :: rest` (first backward, then any well-formed messages) to a freshly
filled window logs exactly `rest.map extractEvent` — the channel arrival
order, with no request id involved; and at every single step, the consumed
signal is the oldest pending one (`signals.pop()`), with at most one refill
unshifted in its place. -/
theorem followerEvents_fifo (count : Option Int) (m0 : Json) (rest : List Json)
    (hp : 0 ≤ min (count.getD INITIAL_PIPELINE_BURST) INITIAL_PIPELINE_BURST)
    (hm0 : GoodMsg m0) (hdir : isBackwardDir (extractEvent m0).1 = true)
    (hrest : ∀ m ∈ rest, GoodMsg m)
    (hlen : rest.length ≤
      (min (count.getD INITIAL_PIPELINE_BURST) INITIAL_PIPELINE_BURST + 1).toNat +
        availRefills count (min (count.getD INITIAL_PIPELINE_BURST) INITIAL_PIPELINE_BURST) 1) :
    (deliverAll count (requestBlocks count initialChainState) (m0 :: rest)).resolvedEvents
      = rest.map extractEvent ∧
    (∀ (st : ChainState) (m : Json), GoodMsg m → st.crashed = false →
      st.ignoredFirstRollBack = true →
      ∀ f tail, popOldest st.signals = some (f, tail) →
        (deliver count st m).resolvedEvents = st.resolvedEvents ++ [extractEvent m] ∧
        ∃ pushed, (deliver count st m).signals = pushed ++ tail ∧ pushed.length ≤ 1) := by
  constructor
  · rw [requestBlocks_windowState, deliverAll_cons,
      deliver_first_backward count _ m0 hm0 rfl hdir rfl, windowState_set_ign,
      deliverAll_windowState count _ rest 1 _ _ [] hrest hlen (Or.inr (by omega))]
    simp [windowState]
  · intro st m hm hcr hign f tail hpop
    rw [deliver_good count st m hm hcr, hign]
    simp only [Bool.not_true, Bool.and_false, Bool.false_eq_true, if_false, hpop]
    constructor
    · split_ifs <;> simp [enqueue]
    · split_ifs with hf
      · exact ⟨[decide (st.counter + 1 ≤ count.getD MAX_SAFE_INTEGER)], rfl, by simp⟩
      · exact ⟨[], rfl, by simp⟩

/-- Witness for C2: a two-message script (backward then one forward) against
an unbounded follower resolves exactly the forward event, in order. -/
theorem followerEvents_fifo_witness :
    (deliverAll none (requestBlocks none initialChainState)
        [.obj [("result", .obj [("direction", .str "backward")])],
         .obj [("result", .obj [("direction", .str "forward"), ("block", .num 7)])]]
      ).resolvedEvents = [(some (.str "forward"), some (.num 7))] :=
  (followerEvents_fifo none
    (.obj [("result", .obj [("direction", .str "backward")])])
    [.obj [("result", .obj [("direction", .str "forward"), ("block", .num 7)])]]
    (by decide)
    ⟨.obj [("direction", .str "backward")], rfl, by simp⟩
    rfl
    (by
      intro m hm
      simp only [List.mem_singleton] at hm
      exact ⟨.obj [("direction", .str "forward"), ("block", .num 7)],
        by subst hm; rfl, by subst hm; simp⟩)
    (by decide)).1

/-! ## Claim C3: the size of the pipelined window -/

/-- C3 counterexample: the claim says the engine issues exactly
`min(count ?? burst, burst)` initial fetch requests and never has more than
`burst` outstanding; with `count = 1` the loop
`for (let i = 0; i <= pipelined; i += 1)` issues `2` requests, not
`min(1, 100) = 1`, and with no count it issues `101 > 100`. -/
theorem requestBlocks_initial_burst_counterexample :
    (requestBlocks (some 1) initialChainState).sent = 2 ∧
    (min ((some (1 : Int)).getD INITIAL_PIPELINE_BURST) INITIAL_PIPELINE_BURST).toNat = 1 ∧
    (requestBlocks none initialChainState).sent = 101 ∧
    INITIAL_PIPELINE_BURST = 100 :=
  ⟨rfl, rfl, rfl, rfl⟩

theorem deliver_sent_le (count : Option Int) (st : ChainState) (m : Json) :
    (deliver count st m).sent ≤ st.sent + 1 := by
  unfold deliver
  repeat' split
  all_goals first
    | omega
    | (simp [enqueue]; done)
    | (simp [enqueue]; omega)
    | (simp [enqueue]; split <;> simp [enqueue])

theorem deliverAll_sent_le (count : Option Int) :
    ∀ (msgs : List Json) (st : ChainState),
      (deliverAll count st msgs).sent ≤ st.sent + msgs.length := by
  intro msgs
  induction msgs with
  | nil => intro st; simp [deliverAll_nil]
  | cons m rest ih =>
    intro st
    rw [deliverAll_cons]
    calc (deliverAll count (deliver count st m) rest).sent
        ≤ (deliver count st m).sent + rest.length := ih _
      _ ≤ st.sent + 1 + rest.length := by
          have := deliver_sent_le count st m
          omega
      _ = st.sent + (m :: rest).length := by simp; omega

/-- C3 (amended): at follower start the engine issues exactly
`min(count ?? burst, burst) + 1` fetch requests (one more than the claim
states — the loop bound is inclusive), and at every later point the number
of outstanding fetch requests — requests sent minus responses delivered —
never exceeds `burst + 1` (101), again one more than the claimed `burst`. -/
theorem window_burst_bound (count : Option Int) (msgs : List Json) :
    (requestBlocks count initialChainState).sent =
      (min (count.getD INITIAL_PIPELINE_BURST) INITIAL_PIPELINE_BURST + 1).toNat ∧
    (deliverAll count (requestBlocks count initialChainState) msgs).sent ≤
      (min (count.getD INITIAL_PIPELINE_BURST) INITIAL_PIPELINE_BURST + 1).toNat +
        msgs.length ∧
    (min (count.getD INITIAL_PIPELINE_BURST) INITIAL_PIPELINE_BURST + 1).toNat ≤ 101 := by
  refine ⟨?_, ?_, ?_⟩
  · rw [requestBlocks_windowState]
    rfl
  · calc (deliverAll count (requestBlocks count initialChainState) msgs).sent
        ≤ (requestBlocks count initialChainState).sent + msgs.length :=
          deliverAll_sent_le count msgs _
      _ = _ := by
          rw [requestBlocks_windowState]
          rfl
  · unfold INITIAL_PIPELINE_BURST
    omega

/-- Witness for C3's amended bound at `count = 1` with a two-message
script. -/
theorem window_burst_bound_witness :
    (requestBlocks (some 1) initialChainState).sent =
      (min ((some (1 : Int)).getD INITIAL_PIPELINE_BURST) INITIAL_PIPELINE_BURST + 1).toNat ∧
    (deliverAll (some 1) (requestBlocks (some 1) initialChainState)
        [.obj [("result", .obj [("direction", .str "backward")])]]).sent ≤
      (min ((some (1 : Int)).getD INITIAL_PIPELINE_BURST) INITIAL_PIPELINE_BURST + 1).toNat + 1 :=
  ⟨(window_burst_bound (some 1) []).1,
   (window_burst_bound (some 1) [.obj [("result", .obj [("direction", .str "backward")])]]).2.1⟩

end Mdk

namespace Mdk

/-! ## Claim C1: a finite follower yields exactly `n` events and drains one
extra continuation -/

theorem windowState_crashed (count : Option Int) (p : Int) (a b sent : Nat)
    (resolved : List (Option Json × Option Json)) (ign : Bool) :
    (windowState count p a b sent resolved ign).crashed = false := rfl

theorem windowState_sent_eq (count : Option Int) (p : Int) (a b sent : Nat)
    (resolved : List (Option Json × Option Json)) (ign : Bool) :
    (windowState count p a b sent resolved ign).sent = sent := rfl

theorem windowState_resolved_eq (count : Option Int) (p : Int) (a b sent : Nat)
    (resolved : List (Option Json × Option Json)) (ign : Bool) :
    (windowState count p a b sent resolved ign).resolvedEvents = resolved := rfl

theorem windowState_signals_eq (count : Option Int) (p : Int) (a b sent : Nat)
    (resolved : List (Option Json × Option Json)) (ign : Bool) :
    (windowState count p a b sent resolved ign).signals = signalQueue count p a b := rfl

/-- The delivery phase of a finite follower over the standard script: the
initial backward is discarded, the `n` following events resolve in order,
and exactly one pending signal (the window's surplus slot, not
refill-flagged) remains. -/
theorem finiteFollower_delivery (n : Nat) (hn : 1 ≤ n) (m0 : Json) (fwds : List Json)
    (hm0 : GoodMsg m0) (hm0dir : isBackwardDir (extractEvent m0).1 = true)
    (hf : ∀ m ∈ fwds, GoodMsg m) (hlen : fwds.length = n) :
    deliverAll (some (n : Int)) (requestBlocks (some (n : Int)) initialChainState)
        (m0 :: fwds) =
      windowState (some (n : Int)) (min (n : Int) INITIAL_PIPELINE_BURST)
        (1 + n) 1 (n + 1) (fwds.map extractEvent) true := by
  have hgd : (some (n : Int)).getD INITIAL_PIPELINE_BURST = (n : Int) := rfl
  have hp1 : (1 : Int) ≤ min (n : Int) INITIAL_PIPELINE_BURST := by
    unfold INITIAL_PIPELINE_BURST
    omega
  have hpn : min (n : Int) INITIAL_PIPELINE_BURST ≤ (n : Int) := by omega
  have havail : availRefills (some (n : Int)) (min (n : Int) INITIAL_PIPELINE_BURST) 1 =
      ((n : Int) - min (n : Int) INITIAL_PIPELINE_BURST).toNat := by
    unfold availRefills
    simp only [Option.getD]
    push_cast
    omega
  rw [requestBlocks_windowState, deliverAll_cons,
    deliver_first_backward _ _ m0 hm0 rfl hm0dir rfl, windowState_set_ign, hgd,
    deliverAll_windowState _ _ fwds 1 _ _ [] hf
      (by rw [havail, hlen]; omega)
      (Or.inr (by omega))]
  rw [havail, hlen]
  have e1 : 1 + n = 1 + n := rfl
  have e2 : ((min (n : Int) INITIAL_PIPELINE_BURST + 1).toNat +
      min n ((n : Int) - min (n : Int) INITIAL_PIPELINE_BURST).toNat) - n = 1 := by
    omega
  have e3 : (min (n : Int) INITIAL_PIPELINE_BURST + 1).toNat +
      min n ((n : Int) - min (n : Int) INITIAL_PIPELINE_BURST).toNat = n + 1 := by
    omega
  rw [e2, e3]
  simp

/-- C1: for every finite `count = n ≥ 1`, against the standard script (one
negotiation response without error, the handshake's backward event, then
`n` forward events), the follower's generator yields exactly the `n` events
in order and terminates; on the way out it drains exactly one outstanding
continuation — the pending-signal queue ends empty — having sent `n + 1`
fetch requests in total; for `n = 1` the single yielded event has
direction `"forward"`. -/
theorem finiteFollower_yields_exactly (n : Nat) (hn : 1 ≤ n) (pts : List Json)
    (mNeg m0 : Json) (fwds : List Json)
    (hNegNull : mNeg ≠ Json.null) (hNegErr : mNeg.get "error" = none)
    (hm0 : GoodMsg m0) (hm0dir : isBackwardDir (extractEvent m0).1 = true)
    (hf : ∀ m ∈ fwds, GoodMsg m)
    (hfdir : ∀ m ∈ fwds, (extractEvent m).1 = some (.str "forward"))
    (hlen : fwds.length = n) :
    newChainFollower (.val (.arr pts)) (.val (.num (n : Int))) (mNeg :: m0 :: fwds) =
      ⟨"findIntersection" :: nextBlocks (n + 1),
       .terminated (fwds.map extractEvent)
         (windowState (some (n : Int)) (min (n : Int) INITIAL_PIPELINE_BURST)
           (n + 2) 0 (n + 1) (fwds.map extractEvent) true)⟩ ∧
    (fwds.map extractEvent).length = n ∧
    (windowState (some (n : Int)) (min (n : Int) INITIAL_PIPELINE_BURST)
       (n + 2) 0 (n + 1) (fwds.map extractEvent) true).signals = [] ∧
    (∀ ev ∈ fwds.map extractEvent, ev.1 = some (.str "forward")) := by
  have hp1 : (1 : Int) ≤ min (n : Int) INITIAL_PIPELINE_BURST := by
    unfold INITIAL_PIPELINE_BURST
    omega
  have hrl : (fwds.map extractEvent).length = n := by simp [hlen]
  have hrun : runFollower (some (n : Int)) (m0 :: fwds) ["findIntersection"] =
      ⟨"findIntersection" :: nextBlocks (n + 1),
       .terminated (fwds.map extractEvent)
         (windowState (some (n : Int)) (min (n : Int) INITIAL_PIPELINE_BURST)
           (n + 2) 0 (n + 1) (fwds.map extractEvent) true)⟩ := by
    simp only [runFollower]
    rw [finiteFollower_delivery n hn m0 fwds hm0 hm0dir hf hlen]
    simp only [windowState_crashed, Bool.false_eq_true, if_false]
    show finiteGenerator (n : Int) _ _ = _
    unfold finiteGenerator
    have hc : ((n : Int)).toNat = n := by omega
    simp only [windowState_resolved_eq, windowState_signals_eq, windowState_sent_eq, hc, hrl]
    rw [if_neg (by omega)]
    have hq : signalQueue (some (n : Int)) (min (n : Int) INITIAL_PIPELINE_BURST)
        (1 + n) 1 =
        signalQueue (some (n : Int)) (min (n : Int) INITIAL_PIPELINE_BURST)
          (1 + n) (0 + 1) := rfl
    rw [hq, popOldest_signalQueue]
    have hflag : decide ((min (n : Int) INITIAL_PIPELINE_BURST + ((1 + n : Nat) : Int)) ≤
        (some (n : Int)).getD MAX_SAFE_INTEGER) = false := by
      simp only [Option.getD]
      rw [decide_eq_false_iff_not]
      push_cast
      omega
    simp only [hflag, Bool.false_eq_true, if_false]
    have htake : (fwds.map extractEvent).take n = fwds.map extractEvent := by
      rw [← hrl, List.take_length]
    rw [htake]
    simp only [windowState, signalQueue, FollowerRun.mk.injEq,
      FollowerOutcome.terminated.injEq, ChainState.mk.injEq]
    simp
    ring
  refine ⟨?_, hrl, rfl, ?_⟩
  · have hv : newChainFollowerValidate (.val (.arr pts)) (.val (.num (n : Int))) =
        .ok ⟨some pts, some (n : Int)⟩ := rfl
    cases mNeg with
    | null => exact absurd rfl hNegNull
    | obj ms =>
      show (match (Json.obj ms).get "error" with
        | some e => (⟨["findIntersection"], .rejected e⟩ : FollowerRun)
        | none => runFollower (some (n : Int)) (m0 :: fwds) ["findIntersection"]) = _
      rw [hNegErr, hrun]
    | bool b => exact hrun
    | num k => exact hrun
    | big k => exact hrun
    | str s => exact hrun
    | arr es => exact hrun
  · intro ev hev
    simp only [List.mem_map] at hev
    obtain ⟨m, hm, rfl⟩ := hev
    exact hfdir m hm

/-- Witness for C1 at `n = 1`: the follower yields exactly one forward
event, sends two fetch requests, and finishes with an empty signal queue. -/
theorem finiteFollower_yields_exactly_witness :
    newChainFollower (.val (.arr [.str "origin"])) (.val (.num 1))
        [.obj [("result", .obj [])],
         .obj [("result", .obj [("direction", .str "backward")])],
         .obj [("result", .obj [("direction", .str "forward"), ("block", .num 7)])]] =
      ⟨"findIntersection" :: nextBlocks 2,
       .terminated [(some (.str "forward"), some (.num 7))]
         (windowState (some 1) (min 1 INITIAL_PIPELINE_BURST) 3 0 2
           [(some (.str "forward"), some (.num 7))] true)⟩ :=
  ((finiteFollower_yields_exactly 1 (by omega) [.str "origin"]
    (.obj [("result", .obj [])])
    (.obj [("result", .obj [("direction", .str "backward")])])
    [.obj [("result", .obj [("direction", .str "forward"), ("block", .num 7)])]]
    (by intro h; cases h) rfl
    ⟨.obj [("direction", .str "backward")], rfl, by intro h; cases h⟩ rfl
    (by
      intro m hm
      simp only [List.mem_singleton] at hm
      exact ⟨.obj [("direction", .str "forward"), ("block", .num 7)],
        by subst hm; rfl, by subst hm; intro h; cases h⟩)
    (by
      intro m hm
      simp only [List.mem_singleton] at hm
      subst hm
      rfl)
    rfl).1)

end Mdk

namespace Mdk

/-! ## Size preservation of the sanitation pass

Sanitation only converts numeric leaves in place, so it preserves `jsize`;
this both feeds the fuel bookkeeping and shows no member is added or
dropped. -/

theorem jsize_bigify (v : Json) : jsize (bigify v) = jsize v := by
  cases v <;> rfl

theorem jsize_pos (j : Json) : 1 ≤ jsize j := by
  cases j <;> simp [jsize]

theorem jsizeMembers_pos (ms : List (String × Json)) : 1 ≤ jsizeMembers ms := by
  cases ms with
  | nil => simp [jsizeMembers]
  | cons kv ms => cases kv; simp [jsizeMembers]; omega

theorem jsizeList_pos (es : List Json) : 1 ≤ jsizeList es := by
  cases es with
  | nil => simp [jsizeList]
  | cons v es => simp [jsizeList]; omega

mutual
theorem jsize_sanitizeAdditionalFields :
    ∀ (j : Json) (d : Nat), jsize (sanitizeAdditionalFields j d) = jsize j
  | .null, _ => rfl
  | .bool _, _ => rfl
  | .num _, _ => rfl
  | .big _, _ => rfl
  | .str _, _ => rfl
  | .arr es, d => by
    rw [sanitizeAdditionalFields, jsize, jsize_sanitizeAdditionalList es d, jsize]
  | .obj ms, d => by
    rw [sanitizeAdditionalFields, jsize, jsize_sanitizeAdditionalMembers ms d, jsize]
theorem jsize_sanitizeAdditionalList :
    ∀ (es : List Json) (d : Nat), jsizeList (sanitizeAdditionalList es d) = jsizeList es
  | [], _ => rfl
  | v :: es, d => by
    rw [sanitizeAdditionalList, jsizeList, jsize_sanitizeAdditionalList es d, jsizeList]
    split
    · rw [jsize_sanitizeAdditionalFields v (d - 1)]
    · rw [jsize_bigify v]
theorem jsize_sanitizeAdditionalMembers :
    ∀ (ms : List (String × Json)) (d : Nat),
      jsizeMembers (sanitizeAdditionalMembers ms d) = jsizeMembers ms
  | [], _ => rfl
  | (k, v) :: ms, d => by
    rw [sanitizeAdditionalMembers, jsizeMembers, jsize_sanitizeAdditionalMembers ms d,
      jsizeMembers]
    split
    · rw [jsize_sanitizeAdditionalFields v (d - 1)]
    · rw [jsize_bigify v]
end

mutual
theorem jsize_sanitizeMetadatum :
    ∀ (j : Json), jsize (sanitizeMetadatum j) = jsize j
  | .null => rfl
  | .bool _ => rfl
  | .num _ => rfl
  | .big _ => rfl
  | .str _ => rfl
  | .arr es => by
    rw [sanitizeMetadatum, jsize, jsize_sanitizeMetadatumList es, jsize]
  | .obj ms => by
    rw [sanitizeMetadatum, jsize, jsize_sanitizeMetadatumMembers ms, jsize]
theorem jsize_sanitizeMetadatumList :
    ∀ (es : List Json), jsizeList (sanitizeMetadatumList es) = jsizeList es
  | [] => rfl
  | v :: es => by
    have hes := jsize_sanitizeMetadatumList es
    cases v with
    | num n =>
      show jsizeList (Json.big n :: sanitizeMetadatumList es) = _
      rw [jsizeList, jsizeList, hes]
      rfl
    | null =>
      show jsizeList (sanitizeMetadatum Json.null :: sanitizeMetadatumList es) = _
      rw [jsizeList, jsizeList, hes, jsize_sanitizeMetadatum]
    | bool b =>
      show jsizeList (sanitizeMetadatum (Json.bool b) :: sanitizeMetadatumList es) = _
      rw [jsizeList, jsizeList, hes, jsize_sanitizeMetadatum]
    | big n =>
      show jsizeList (sanitizeMetadatum (Json.big n) :: sanitizeMetadatumList es) = _
      rw [jsizeList, jsizeList, hes, jsize_sanitizeMetadatum]
    | str s =>
      show jsizeList (sanitizeMetadatum (Json.str s) :: sanitizeMetadatumList es) = _
      rw [jsizeList, jsizeList, hes, jsize_sanitizeMetadatum]
    | arr es2 =>
      show jsizeList (sanitizeMetadatum (Json.arr es2) :: sanitizeMetadatumList es) = _
      rw [jsizeList, jsizeList, hes, jsize_sanitizeMetadatum]
    | obj ms2 =>
      show jsizeList (sanitizeMetadatum (Json.obj ms2) :: sanitizeMetadatumList es) = _
      rw [jsizeList, jsizeList, hes, jsize_sanitizeMetadatum]
theorem jsize_sanitizeMetadatumMembers :
    ∀ (ms : List (String × Json)),
      jsizeMembers (sanitizeMetadatumMembers ms) = jsizeMembers ms
  | [] => rfl
  | (k, v) :: ms => by
    have hms := jsize_sanitizeMetadatumMembers ms
    cases v with
    | num n =>
      show jsizeMembers ((k, Json.big n) :: sanitizeMetadatumMembers ms) = _
      rw [jsizeMembers, jsizeMembers, hms]
      rfl
    | null =>
      show jsizeMembers ((k, sanitizeMetadatum Json.null) :: sanitizeMetadatumMembers ms) = _
      rw [jsizeMembers, jsizeMembers, hms, jsize_sanitizeMetadatum]
    | bool b =>
      show jsizeMembers ((k, sanitizeMetadatum (Json.bool b)) :: sanitizeMetadatumMembers ms) = _
      rw [jsizeMembers, jsizeMembers, hms, jsize_sanitizeMetadatum]
    | big n =>
      show jsizeMembers ((k, sanitizeMetadatum (Json.big n)) :: sanitizeMetadatumMembers ms) = _
      rw [jsizeMembers, jsizeMembers, hms, jsize_sanitizeMetadatum]
    | str s =>
      show jsizeMembers ((k, sanitizeMetadatum (Json.str s)) :: sanitizeMetadatumMembers ms) = _
      rw [jsizeMembers, jsizeMembers, hms, jsize_sanitizeMetadatum]
    | arr es2 =>
      show jsizeMembers ((k, sanitizeMetadatum (Json.arr es2)) :: sanitizeMetadatumMembers ms) = _
      rw [jsizeMembers, jsizeMembers, hms, jsize_sanitizeMetadatum]
    | obj ms2 =>
      show jsizeMembers ((k, sanitizeMetadatum (Json.obj ms2)) :: sanitizeMetadatumMembers ms) = _
      rw [jsizeMembers, jsizeMembers, hms, jsize_sanitizeMetadatum]
end

theorem jsize_sanitize_family : ∀ fuel : Nat,
    (∀ (j : Json) (pk : Option String), jsize (sanitizeMut fuel j pk) = jsize j) ∧
    (∀ (ms : List (String × Json)) (fields : List String),
      jsizeMembers (sanitizeFieldsMut fuel ms fields) = jsizeMembers ms) ∧
    (∀ ms : List (String × Json),
      jsizeMembers (sanitizeFromMember fuel ms) = jsizeMembers ms) ∧
    (∀ ms : List (String × Json),
      jsizeMembers (sanitizeEachMember fuel ms) = jsizeMembers ms) ∧
    (∀ (es : List Json) (i : Nat), jsizeList (sanitizeEachElem fuel es i) = jsizeList es) := by
  intro fuel
  induction fuel with
  | zero =>
    refine ⟨fun j pk => rfl, fun ms fields => rfl, fun ms => rfl, fun ms => rfl,
      fun es i => rfl⟩
  | succ fuel ih =>
    obtain ⟨ihMut, ihFields, ihFrom, ihEach, ihElem⟩ := ih
    refine ⟨?_, ?_, ?_, ?_, ?_⟩
    · intro j pk
      cases j with
      | obj ms =>
        rw [sanitizeMut]
        split
        · rw [jsize, jsize, ihFields]
        · split
          · rw [jsize_sanitizeAdditionalFields]
          · split
            · rw [jsize, jsize, ihFrom, ihFields]
            · split
              · rw [jsize_sanitizeMetadatum]
              · rw [jsize, jsize, ihEach]
      | arr es =>
        rw [sanitizeMut]
        split
        · rw [jsize_sanitizeAdditionalFields]
        · split
          · rw [jsize_sanitizeMetadatum]
          · rw [jsize, jsize, ihElem]
      | null => rfl
      | bool b => rfl
      | num n => rfl
      | big n => rfl
      | str s => rfl
    · intro ms fields
      cases ms with
      | nil => rfl
      | cons kv ms =>
        obtain ⟨k, v⟩ := kv
        rw [sanitizeFieldsMut, jsizeMembers, jsizeMembers, ihFields]
        split
        · rw [jsize_bigify]
        · rw [ihMut]
    · intro ms
      cases ms with
      | nil => rfl
      | cons kv ms =>
        obtain ⟨k, v⟩ := kv
        rw [sanitizeFromMember, jsizeMembers]
        split
        · rw [jsizeMembers, ihFrom, ihMut]
        · rw [jsizeMembers, ihFrom]
    · intro ms
      cases ms with
      | nil => rfl
      | cons kv ms =>
        obtain ⟨k, v⟩ := kv
        rw [sanitizeEachMember, jsizeMembers, jsizeMembers, ihEach, ihMut]
    · intro es i
      cases es with
      | nil => rfl
      | cons v es =>
        rw [sanitizeEachElem, jsizeList, jsizeList, ihElem, ihMut]

end Mdk

namespace Mdk

theorem getField_jsize {ms : List (String × Json)} {k : String} {v : Json}
    (h : getField ms k = some v) : jsize v + 2 ≤ jsizeMembers ms := by
  induction ms with
  | nil => cases h
  | cons kv ms ih =>
    obtain ⟨k', v'⟩ := kv
    rw [getField] at h
    split at h
    · cases h
      rw [jsizeMembers]
      have := jsizeMembers_pos ms
      omega
    · have h1 := ih h
      rw [jsizeMembers]
      have := jsize_pos v'
      omega

/-- Any two sufficient fuels compute the same sanitation; all later lemmas
can therefore use the canonical fuel `jsize`. -/
theorem sanitize_fuel_irrel : ∀ F1 : Nat,
    (∀ (F2 : Nat) (j : Json) (pk : Option String), jsize j ≤ F1 → jsize j ≤ F2 →
      sanitizeMut F1 j pk = sanitizeMut F2 j pk) ∧
    (∀ (F2 : Nat) (j : Json) (pk : Option String), jsize j ≤ F1 → jsize j ≤ F2 →
      sanitizeRet F1 j pk = sanitizeRet F2 j pk) ∧
    (∀ (F2 : Nat) (ms : List (String × Json)) (fields : List String),
      jsizeMembers ms ≤ F1 → jsizeMembers ms ≤ F2 →
      sanitizeFieldsMut F1 ms fields = sanitizeFieldsMut F2 ms fields) ∧
    (∀ (F2 : Nat) (ms : List (String × Json)),
      jsizeMembers ms ≤ F1 → jsizeMembers ms ≤ F2 →
      sanitizeFromMember F1 ms = sanitizeFromMember F2 ms) ∧
    (∀ (F2 : Nat) (ms : List (String × Json)),
      jsizeMembers ms ≤ F1 → jsizeMembers ms ≤ F2 →
      sanitizeEachMember F1 ms = sanitizeEachMember F2 ms) ∧
    (∀ (F2 : Nat) (es : List Json) (i : Nat), jsizeList es ≤ F1 → jsizeList es ≤ F2 →
      sanitizeEachElem F1 es i = sanitizeEachElem F2 es i) := by
  intro F1
  induction F1 using Nat.strong_induction_on with
  | _ F1 ih =>
    refine ⟨?_, ?_, ?_, ?_, ?_, ?_⟩
    · intro F2 j pk h1 h2
      obtain ⟨f, rfl⟩ : ∃ f, F1 = f + 1 := ⟨F1 - 1, by have := jsize_pos j; omega⟩
      obtain ⟨g, rfl⟩ : ∃ g, F2 = g + 1 := ⟨F2 - 1, by have := jsize_pos j; omega⟩
      have hf : f < f + 1 := by omega
      cases j with
      | obj ms =>
        have hms1 : jsizeMembers ms ≤ f := by rw [jsize] at h1; omega
        have hms2 : jsizeMembers ms ≤ g := by rw [jsize] at h2; omega
        rw [sanitizeMut, sanitizeMut]
        split_ifs with c1 c2 c3 c4
        · rw [(ih f hf).2.2.1 g ms ["lovelace"] hms1 hms2]
        · rfl
        · rw [(ih f hf).2.2.1 g ms ["atLeast"] hms1 hms2,
            (ih f hf).2.2.2.1 g (sanitizeFieldsMut g ms ["atLeast"])
              (by rw [(jsize_sanitize_family g).2.1]; exact hms1)
              (by rw [(jsize_sanitize_family g).2.1]; exact hms2)]
        · rfl
        · rw [(ih f hf).2.2.2.2.1 g ms hms1 hms2]
      | arr es =>
        have hes1 : jsizeList es ≤ f := by rw [jsize] at h1; omega
        have hes2 : jsizeList es ≤ g := by rw [jsize] at h2; omega
        rw [sanitizeMut, sanitizeMut]
        split_ifs with c1 c2
        · rfl
        · rfl
        · rw [(ih f hf).2.2.2.2.2 g es 0 hes1 hes2]
      | null => rfl
      | bool b => rfl
      | num n => rfl
      | big n => rfl
      | str s => rfl
    · intro F2 j pk h1 h2
      obtain ⟨f, rfl⟩ : ∃ f, F1 = f + 1 := ⟨F1 - 1, by have := jsize_pos j; omega⟩
      obtain ⟨g, rfl⟩ : ∃ g, F2 = g + 1 := ⟨F2 - 1, by have := jsize_pos j; omega⟩
      have hf : f < f + 1 := by omega
      cases j with
      | obj ms =>
        have hms1 : jsizeMembers ms ≤ f := by rw [jsize] at h1; omega
        have hms2 : jsizeMembers ms ≤ g := by rw [jsize] at h2; omega
        rw [sanitizeRet, sanitizeRet]
        split_ifs with c1 c2 c3 c4
        · rw [(ih f hf).2.2.1 g ms ["lovelace"] hms1 hms2]
        · rfl
        · rw [(ih f hf).2.2.1 g ms ["atLeast"] hms1 hms2]
          cases hfrom : getField (sanitizeFieldsMut g ms ["atLeast"]) "from" with
          | none => rfl
          | some f1 =>
            have hsz : jsize f1 + 2 ≤ jsizeMembers ms := by
              have := getField_jsize hfrom
              rwa [(jsize_sanitize_family g).2.1] at this
            exact (ih f hf).2.1 g f1 (some "from") (by omega) (by omega)
        · rfl
        · rw [(ih f hf).2.2.2.2.1 g ms hms1 hms2]
      | arr es =>
        have hes1 : jsizeList es ≤ f := by rw [jsize] at h1; omega
        have hes2 : jsizeList es ≤ g := by rw [jsize] at h2; omega
        rw [sanitizeRet, sanitizeRet]
        split_ifs with c1 c2
        · rfl
        · rfl
        · rw [(ih f hf).2.2.2.2.2 g es 0 hes1 hes2]
      | null => rfl
      | bool b => rfl
      | num n => rfl
      | big n => rfl
      | str s => rfl
    · intro F2 ms fields h1 h2
      obtain ⟨f, rfl⟩ : ∃ f, F1 = f + 1 := ⟨F1 - 1, by have := jsizeMembers_pos ms; omega⟩
      obtain ⟨g, rfl⟩ : ∃ g, F2 = g + 1 := ⟨F2 - 1, by have := jsizeMembers_pos ms; omega⟩
      have hf : f < f + 1 := by omega
      cases ms with
      | nil => rfl
      | cons kv ms =>
        obtain ⟨k, v⟩ := kv
        have hsz : jsizeMembers ((k, v) :: ms) = 2 + jsize v + jsizeMembers ms := rfl
        have hv1 : jsize v ≤ f := by rw [hsz] at h1; have := jsizeMembers_pos ms; omega
        have hv2 : jsize v ≤ g := by rw [hsz] at h2; have := jsizeMembers_pos ms; omega
        have hm1 : jsizeMembers ms ≤ f := by rw [hsz] at h1; have := jsize_pos v; omega
        have hm2 : jsizeMembers ms ≤ g := by rw [hsz] at h2; have := jsize_pos v; omega
        rw [sanitizeFieldsMut, sanitizeFieldsMut,
          (ih f hf).2.2.1 g ms fields hm1 hm2]
        split
        · rfl
        · rw [(ih f hf).1 g v (some k) hv1 hv2]
    · intro F2 ms h1 h2
      obtain ⟨f, rfl⟩ : ∃ f, F1 = f + 1 := ⟨F1 - 1, by have := jsizeMembers_pos ms; omega⟩
      obtain ⟨g, rfl⟩ : ∃ g, F2 = g + 1 := ⟨F2 - 1, by have := jsizeMembers_pos ms; omega⟩
      have hf : f < f + 1 := by omega
      cases ms with
      | nil => rfl
      | cons kv ms =>
        obtain ⟨k, v⟩ := kv
        have hsz : jsizeMembers ((k, v) :: ms) = 2 + jsize v + jsizeMembers ms := rfl
        have hv1 : jsize v ≤ f := by rw [hsz] at h1; have := jsizeMembers_pos ms; omega
        have hv2 : jsize v ≤ g := by rw [hsz] at h2; have := jsizeMembers_pos ms; omega
        have hm1 : jsizeMembers ms ≤ f := by rw [hsz] at h1; have := jsize_pos v; omega
        have hm2 : jsizeMembers ms ≤ g := by rw [hsz] at h2; have := jsize_pos v; omega
        rw [sanitizeFromMember, sanitizeFromMember,
          (ih f hf).2.2.2.1 g ms hm1 hm2]
        split
        · rw [(ih f hf).1 g v (some "from") hv1 hv2]
        · rfl
    · intro F2 ms h1 h2
      obtain ⟨f, rfl⟩ : ∃ f, F1 = f + 1 := ⟨F1 - 1, by have := jsizeMembers_pos ms; omega⟩
      obtain ⟨g, rfl⟩ : ∃ g, F2 = g + 1 := ⟨F2 - 1, by have := jsizeMembers_pos ms; omega⟩
      have hf : f < f + 1 := by omega
      cases ms with
      | nil => rfl
      | cons kv ms =>
        obtain ⟨k, v⟩ := kv
        have hsz : jsizeMembers ((k, v) :: ms) = 2 + jsize v + jsizeMembers ms := rfl
        have hv1 : jsize v ≤ f := by rw [hsz] at h1; have := jsizeMembers_pos ms; omega
        have hv2 : jsize v ≤ g := by rw [hsz] at h2; have := jsizeMembers_pos ms; omega
        have hm1 : jsizeMembers ms ≤ f := by rw [hsz] at h1; have := jsize_pos v; omega
        have hm2 : jsizeMembers ms ≤ g := by rw [hsz] at h2; have := jsize_pos v; omega
        rw [sanitizeEachMember, sanitizeEachMember,
          (ih f hf).2.2.2.2.1 g ms hm1 hm2, (ih f hf).1 g v (some k) hv1 hv2]
    · intro F2 es i h1 h2
      obtain ⟨f, rfl⟩ : ∃ f, F1 = f + 1 := ⟨F1 - 1, by have := jsizeList_pos es; omega⟩
      obtain ⟨g, rfl⟩ : ∃ g, F2 = g + 1 := ⟨F2 - 1, by have := jsizeList_pos es; omega⟩
      have hf : f < f + 1 := by omega
      cases es with
      | nil => rfl
      | cons v es =>
        have hsz : jsizeList (v :: es) = 1 + jsize v + jsizeList es := rfl
        have hv1 : jsize v ≤ f := by rw [hsz] at h1; have := jsizeList_pos es; omega
        have hv2 : jsize v ≤ g := by rw [hsz] at h2; have := jsizeList_pos es; omega
        have hm1 : jsizeList es ≤ f := by rw [hsz] at h1; have := jsize_pos v; omega
        have hm2 : jsizeList es ≤ g := by rw [hsz] at h2; have := jsize_pos v; omega
        rw [sanitizeEachElem, sanitizeEachElem,
          (ih f hf).2.2.2.2.2 g es (i + 1) hm1 hm2, (ih f hf).1 g v (some (toString i)) hv1 hv2]

end Mdk

namespace Mdk

/-! ## Canonical forms of the sanitation pass

With fuel irrelevance available, all reasoning can use the canonical fuel
`jsize`; the `…C` functions below are the fuel-free forms, and the
unfolding equations mirror the branch structure of the source. -/

/-- `sanitize(json, parentKey)`, mutation view, at the canonical fuel. -/
def sanitizeC (j : Json) (pk : Option String) : Json := sanitizeMut (jsize j) j pk

/-- `sanitize(json, parentKey)`, return view, at the canonical fuel. -/
def sanitizeRetC (j : Json) (pk : Option String) : Option Json := sanitizeRet (jsize j) j pk

theorem sanitizeMut_norm (fuel : Nat) (j : Json) (pk : Option String)
    (h : jsize j ≤ fuel) : sanitizeMut fuel j pk = sanitizeC j pk :=
  (sanitize_fuel_irrel fuel).1 (jsize j) j pk h (le_refl _)

theorem sanitizeRet_norm (fuel : Nat) (j : Json) (pk : Option String)
    (h : jsize j ≤ fuel) : sanitizeRet fuel j pk = sanitizeRetC j pk :=
  (sanitize_fuel_irrel fuel).2.1 (jsize j) j pk h (le_refl _)

theorem sanitizeTop_eq (v : Json) : sanitizeTop v = sanitizeRetC v none := rfl

/-- Canonical `sanitizeFields` mutation. -/
def sanitizeFieldsC (ms : List (String × Json)) (fields : List String) :
    List (String × Json) :=
  ms.map fun kv =>
    (kv.1, if fields.contains kv.1 then bigify kv.2 else sanitizeC kv.2 (some kv.1))

/-- Canonical default branch over members. -/
def sanitizeEachMemberC (ms : List (String × Json)) : List (String × Json) :=
  ms.map fun kv => (kv.1, sanitizeC kv.2 (some kv.1))

/-- Canonical second pass over the `from` member. -/
def sanitizeFromMemberC (ms : List (String × Json)) : List (String × Json) :=
  ms.map fun kv => if kv.1 = "from" then (kv.1, sanitizeC kv.2 (some "from")) else kv

/-- Canonical default branch over array elements (index strings as keys). -/
def sanitizeEachElemC : List Json → Nat → List Json
  | [], _ => []
  | v :: es, i => sanitizeC v (some (toString i)) :: sanitizeEachElemC es (i + 1)

theorem sanitizeFieldsMut_norm :
    ∀ (fuel : Nat) (ms : List (String × Json)) (fields : List String),
      jsizeMembers ms ≤ fuel → sanitizeFieldsMut fuel ms fields = sanitizeFieldsC ms fields := by
  intro fuel
  induction fuel with
  | zero => intro ms fields h; have := jsizeMembers_pos ms; omega
  | succ fuel ih =>
    intro ms fields h
    cases ms with
    | nil => rfl
    | cons kv ms =>
      obtain ⟨k, v⟩ := kv
      have hsz : jsizeMembers ((k, v) :: ms) = 2 + jsize v + jsizeMembers ms := rfl
      rw [sanitizeFieldsMut, sanitizeFieldsC, List.map_cons,
        ih ms fields (by rw [hsz] at h; have := jsize_pos v; omega)]
      rw [sanitizeMut_norm fuel v (some k)
        (by rw [hsz] at h; have := jsizeMembers_pos ms; omega)]
      rfl

theorem sanitizeEachMember_norm :
    ∀ (fuel : Nat) (ms : List (String × Json)),
      jsizeMembers ms ≤ fuel → sanitizeEachMember fuel ms = sanitizeEachMemberC ms := by
  intro fuel
  induction fuel with
  | zero => intro ms h; have := jsizeMembers_pos ms; omega
  | succ fuel ih =>
    intro ms h
    cases ms with
    | nil => rfl
    | cons kv ms =>
      obtain ⟨k, v⟩ := kv
      have hsz : jsizeMembers ((k, v) :: ms) = 2 + jsize v + jsizeMembers ms := rfl
      rw [sanitizeEachMember, sanitizeEachMemberC, List.map_cons,
        ih ms (by rw [hsz] at h; have := jsize_pos v; omega),
        sanitizeMut_norm fuel v (some k)
          (by rw [hsz] at h; have := jsizeMembers_pos ms; omega)]
      rfl

theorem sanitizeFromMember_norm :
    ∀ (fuel : Nat) (ms : List (String × Json)),
      jsizeMembers ms ≤ fuel → sanitizeFromMember fuel ms = sanitizeFromMemberC ms := by
  intro fuel
  induction fuel with
  | zero => intro ms h; have := jsizeMembers_pos ms; omega
  | succ fuel ih =>
    intro ms h
    cases ms with
    | nil => rfl
    | cons kv ms =>
      obtain ⟨k, v⟩ := kv
      have hsz : jsizeMembers ((k, v) :: ms) = 2 + jsize v + jsizeMembers ms := rfl
      rw [sanitizeFromMember, ih ms (by rw [hsz] at h; have := jsize_pos v; omega)]
      have hv : jsize v ≤ fuel := by
        rw [hsz] at h
        have := jsizeMembers_pos ms
        omega
      by_cases hk : k = "from"
      · rw [if_pos hk, sanitizeMut_norm fuel v (some "from") hv]
        show _ = sanitizeFromMemberC ((k, v) :: ms)
        unfold sanitizeFromMemberC
        rw [List.map_cons]
        simp [hk]
      · rw [if_neg hk]
        show _ = sanitizeFromMemberC ((k, v) :: ms)
        unfold sanitizeFromMemberC
        rw [List.map_cons]
        simp [hk]

theorem sanitizeEachElem_norm :
    ∀ (fuel : Nat) (es : List Json) (i : Nat),
      jsizeList es ≤ fuel → sanitizeEachElem fuel es i = sanitizeEachElemC es i := by
  intro fuel
  induction fuel with
  | zero => intro es i h; have := jsizeList_pos es; omega
  | succ fuel ih =>
    intro es i h
    cases es with
    | nil => rfl
    | cons v es =>
      have hsz : jsizeList (v :: es) = 1 + jsize v + jsizeList es := rfl
      rw [sanitizeEachElem, sanitizeEachElemC,
        ih es (i + 1) (by rw [hsz] at h; have := jsize_pos v; omega),
        sanitizeMut_norm fuel v (some (toString i))
          (by rw [hsz] at h; have := jsizeList_pos es; omega)]

theorem sanitizeC_obj (ms : List (String × Json)) (pk : Option String) :
    sanitizeC (.obj ms) pk =
      if (getField ms "lovelace").isSome then .obj (sanitizeFieldsC ms ["lovelace"])
      else if (getField ms "ada").isSome || pk = some "mint" || pk = some "value" then
        sanitizeAdditionalFields (.obj ms) 2
      else if isSomeClause ms then
        .obj (sanitizeFromMemberC (sanitizeFieldsC ms ["atLeast"]))
      else if pk = some "labels" then sanitizeMetadatum (.obj ms)
      else .obj (sanitizeEachMemberC ms) := by
  unfold sanitizeC
  obtain ⟨f, hf⟩ : ∃ f, jsize (Json.obj ms) = f + 1 :=
    ⟨jsize (Json.obj ms) - 1, by have := jsize_pos (Json.obj ms); omega⟩
  have hms : jsizeMembers ms ≤ f := by
    rw [jsize] at hf
    have := jsizeMembers_pos ms
    omega
  rw [hf, sanitizeMut]
  have hsz2 : jsizeMembers (sanitizeFieldsC ms ["atLeast"]) ≤ f := by
    rw [← sanitizeFieldsMut_norm f ms ["atLeast"] hms, (jsize_sanitize_family f).2.1]
    exact hms
  split_ifs with c1 c2 c3 c4
  · rw [sanitizeFieldsMut_norm f ms _ hms]
  · rfl
  · rw [sanitizeFieldsMut_norm f ms _ hms, sanitizeFromMember_norm f _ hsz2]
  · rfl
  · rw [sanitizeEachMember_norm f ms hms]

theorem sanitizeC_arr (es : List Json) (pk : Option String) :
    sanitizeC (.arr es) pk =
      if pk = some "mint" || pk = some "value" then
        sanitizeAdditionalFields (.arr es) 2
      else if pk = some "labels" then sanitizeMetadatum (.arr es)
      else .arr (sanitizeEachElemC es 0) := by
  unfold sanitizeC
  obtain ⟨f, hf⟩ : ∃ f, jsize (Json.arr es) = f + 1 :=
    ⟨jsize (Json.arr es) - 1, by have := jsize_pos (Json.arr es); omega⟩
  have hes : jsizeList es ≤ f := by
    rw [jsize] at hf
    have := jsizeList_pos es
    omega
  rw [hf, sanitizeMut]
  split_ifs <;> first
    | rfl
    | rw [sanitizeEachElem_norm f es 0 hes]

theorem sanitizeC_null (pk : Option String) : sanitizeC .null pk = .null := rfl
theorem sanitizeC_bool (b : Bool) (pk : Option String) : sanitizeC (.bool b) pk = .bool b := rfl
theorem sanitizeC_num (n : Int) (pk : Option String) : sanitizeC (.num n) pk = .num n := rfl
theorem sanitizeC_big (n : Int) (pk : Option String) : sanitizeC (.big n) pk = .big n := rfl
theorem sanitizeC_str (s : String) (pk : Option String) : sanitizeC (.str s) pk = .str s := rfl

theorem sanitizeRetC_obj (ms : List (String × Json)) (pk : Option String) :
    sanitizeRetC (.obj ms) pk =
      if (getField ms "lovelace").isSome then some (.obj (sanitizeFieldsC ms ["lovelace"]))
      else if (getField ms "ada").isSome || pk = some "mint" || pk = some "value" then
        some (sanitizeAdditionalFields (.obj ms) 2)
      else if isSomeClause ms then
        match getField (sanitizeFieldsC ms ["atLeast"]) "from" with
        | none => none
        | some f1 => sanitizeRetC f1 (some "from")
      else if pk = some "labels" then some (sanitizeMetadatum (.obj ms))
      else some (.obj (sanitizeEachMemberC ms)) := by
  unfold sanitizeRetC
  obtain ⟨f, hf⟩ : ∃ f, jsize (Json.obj ms) = f + 1 :=
    ⟨jsize (Json.obj ms) - 1, by have := jsize_pos (Json.obj ms); omega⟩
  have hms : jsizeMembers ms ≤ f := by
    rw [jsize] at hf
    have := jsizeMembers_pos ms
    omega
  rw [hf, sanitizeRet]
  split_ifs with c1 c2 c3 c4
  · rw [sanitizeFieldsMut_norm f ms _ hms]
  · rfl
  · rw [sanitizeFieldsMut_norm f ms _ hms]
    cases hfrom : getField (sanitizeFieldsC ms ["atLeast"]) "from" with
    | none => rfl
    | some f1 =>
      have hsz : jsize f1 + 2 ≤ jsizeMembers ms := by
        have h := getField_jsize hfrom
        rwa [← sanitizeFieldsMut_norm f ms _ hms, (jsize_sanitize_family f).2.1] at h
      exact sanitizeRet_norm f f1 (some "from") (by omega)
  · rfl
  · rw [sanitizeEachMember_norm f ms hms]

theorem sanitizeRetC_arr (es : List Json) (pk : Option String) :
    sanitizeRetC (.arr es) pk =
      if pk = some "mint" || pk = some "value" then
        some (sanitizeAdditionalFields (.arr es) 2)
      else if pk = some "labels" then some (sanitizeMetadatum (.arr es))
      else some (.arr (sanitizeEachElemC es 0)) := by
  unfold sanitizeRetC
  obtain ⟨f, hf⟩ : ∃ f, jsize (Json.arr es) = f + 1 :=
    ⟨jsize (Json.arr es) - 1, by have := jsize_pos (Json.arr es); omega⟩
  have hes : jsizeList es ≤ f := by
    rw [jsize] at hf
    have := jsizeList_pos es
    omega
  rw [hf, sanitizeRet]
  split_ifs <;> first
    | rfl
    | rw [sanitizeEachElem_norm f es 0 hes]

theorem sanitizeRetC_prim (j : Json) (pk : Option String)
    (h : ∀ es, j ≠ .arr es) (h2 : ∀ ms, j ≠ .obj ms) :
    sanitizeRetC j pk = some j := by
  cases j with
  | arr es => exact absurd rfl (h es)
  | obj ms => exact absurd rfl (h2 ms)
  | null => rfl
  | bool b => rfl
  | num n => rfl
  | big n => rfl
  | str s => rfl

end Mdk

namespace Mdk

/-! ## Claim C5: quantity-map conversion depth -/

/-- Conversion of the numeric leaves at depth exactly 1 below a value. -/
def bigifyChildren : Json → Json
  | .obj ms => .obj (ms.map fun kv => (kv.1, bigify kv.2))
  | .arr es => .arr (es.map bigify)
  | v => v

theorem sanitizeAdditionalList_one :
    ∀ es : List Json, sanitizeAdditionalList es 1 = es.map bigify := by
  intro es
  induction es with
  | nil => rfl
  | cons v es ih => rw [sanitizeAdditionalList, ih, if_neg (by omega), List.map_cons]

theorem sanitizeAdditionalMembers_one :
    ∀ ms : List (String × Json),
      sanitizeAdditionalMembers ms 1 = ms.map fun kv => (kv.1, bigify kv.2) := by
  intro ms
  induction ms with
  | nil => rfl
  | cons kv ms ih =>
    obtain ⟨k, v⟩ := kv
    rw [sanitizeAdditionalMembers, ih, if_neg (by omega), List.map_cons]

theorem sanitizeAdditionalFields_one (v : Json) :
    sanitizeAdditionalFields v 1 = bigifyChildren v := by
  cases v <;>
    simp [sanitizeAdditionalFields, bigifyChildren, sanitizeAdditionalList_one,
      sanitizeAdditionalMembers_one]

theorem sanitizeAdditionalMembers_two :
    ∀ ms : List (String × Json),
      sanitizeAdditionalMembers ms 2 = ms.map fun kv => (kv.1, bigifyChildren kv.2) := by
  intro ms
  induction ms with
  | nil => rfl
  | cons kv ms ih =>
    obtain ⟨k, v⟩ := kv
    rw [sanitizeAdditionalMembers, ih, if_pos (by omega), List.map_cons]
    rw [show (2 : Nat) - 1 = 1 from rfl, sanitizeAdditionalFields_one]

theorem sanitizeAdditionalList_two :
    ∀ es : List Json, sanitizeAdditionalList es 2 = es.map bigifyChildren := by
  intro es
  induction es with
  | nil => rfl
  | cons v es ih =>
    rw [sanitizeAdditionalList, ih, if_pos (by omega), List.map_cons]
    rw [show (2 : Nat) - 1 = 1 from rfl, sanitizeAdditionalFields_one]

/-- C5 counterexample: the claim says every numeric leaf up to two levels
below a quantity-map trigger is converted; decoding `{"ada": 7}` leaves the
depth-one leaf `7` an ordinary number, and a depth-three leaf is also left
alone. -/
theorem ada_depth_one_not_converted :
    jsonParse [.lbrace, .tstr "ada", .colon, .tint 7, .rbrace] =
      .ok (some (.obj [("ada", .num 7)])) ∧
    jsonParse [.lbrace, .tstr "ada", .colon, .lbrace, .tstr "x", .colon,
        .lbrace, .tstr "deep", .colon, .tint 5, .rbrace, .rbrace, .rbrace] =
      .ok (some (.obj [("ada", .obj [("x", .obj [("deep", .num 5)])])])) :=
  ⟨rfl, rfl⟩

/-- C5 (amended): in any object that contains an `ada` member (and no
`lovelace` member), and in any object or array reached through a parent
member literally named `mint` or `value`, the sanitation pass converts the
numeric leaves at structural depth exactly 2 below that object — numeric
leaves at depth 1 are left as ordinary numbers, and leaves deeper than 2
are untouched. -/
theorem quantityMap_converts_depth_two (ms : List (String × Json)) (es : List Json)
    (pk : Option String) :
    (sanitizeAdditionalFields (.obj ms) 2 =
      .obj (ms.map fun kv => (kv.1, bigifyChildren kv.2))) ∧
    (sanitizeAdditionalFields (.arr es) 2 = .arr (es.map bigifyChildren)) ∧
    (getField ms "lovelace" = none →
      ((getField ms "ada").isSome = true ∨ pk = some "mint" ∨ pk = some "value") →
      sanitizeC (.obj ms) pk = sanitizeAdditionalFields (.obj ms) 2) ∧
    ((pk = some "mint" ∨ pk = some "value") →
      sanitizeC (.arr es) pk = sanitizeAdditionalFields (.arr es) 2) ∧
    (∀ n : Int, bigifyChildren (.num n) = .num n) ∧
    (∀ v : Json, (∀ n : Int, v ≠ .num n) → bigify v = v) := by
  refine ⟨?_, ?_, ?_, ?_, fun n => rfl, ?_⟩
  · rw [sanitizeAdditionalFields, sanitizeAdditionalMembers_two]
  · rw [sanitizeAdditionalFields, sanitizeAdditionalList_two]
  · intro hlov htrig
    rw [sanitizeC_obj, if_neg (by rw [hlov]; simp), if_pos]
    rcases htrig with h | h | h <;> simp [h]
  · intro htrig
    rw [sanitizeC_arr, if_pos]
    rcases htrig with h | h <;> simp [h]
  · intro v hv
    cases v with
    | num n => exact absurd rfl (hv n)
    | null => rfl
    | bool b => rfl
    | big n => rfl
    | str s => rfl
    | arr es2 => rfl
    | obj ms2 => rfl

/-- Witness for C5's amended statement on a concrete quantity map. -/
theorem quantityMap_converts_depth_two_witness :
    sanitizeC (.obj [("ada", .num 1), ("p", .obj [("a", .num 2)])]) none =
      sanitizeAdditionalFields (.obj [("ada", .num 1), ("p", .obj [("a", .num 2)])]) 2 ∧
    sanitizeAdditionalFields (.obj [("ada", .num 1), ("p", .obj [("a", .num 2)])]) 2 =
      .obj [("ada", .num 1), ("p", .obj [("a", .big 2)])] :=
  ⟨(quantityMap_converts_depth_two [("ada", .num 1), ("p", .obj [("a", .num 2)])] [] none).2.2.1
      rfl (Or.inl rfl),
   rfl⟩

/-! ## Claim C6: multi-signature clause sanitation -/

theorem getField_map_value (f : String → Json → Json) :
    ∀ (ms : List (String × Json)) (k : String),
      getField (ms.map fun kv => (kv.1, f kv.1 kv.2)) k =
        Option.map (f k) (getField ms k) := by
  intro ms
  induction ms with
  | nil => intro k; rfl
  | cons kv ms ih =>
    obtain ⟨k', v⟩ := kv
    intro k
    rw [List.map_cons, getField, getField]
    split
    · next h => subst h; rfl
    · exact ih k

theorem sanitizeFromMemberC_as_map (ms : List (String × Json)) :
    sanitizeFromMemberC ms =
      ms.map fun kv =>
        (kv.1, if kv.1 = "from" then sanitizeC kv.2 (some "from") else kv.2) := by
  unfold sanitizeFromMemberC
  apply List.map_congr_left
  intro kv _
  obtain ⟨k, v⟩ := kv
  by_cases hk : k = "from" <;> simp [hk]

/-- C6 counterexample: the claim says decode returns the whole document
even when the multi-signature clause is the document root; decoding a
root-level clause returns only the sanitized `from` sub-tree, with the
`clause` and `atLeast` members gone. -/
theorem clause_root_returns_from_subtree :
    jsonParse [.lbrace, .tstr "clause", .colon, .tstr "some", .comma,
        .tstr "atLeast", .colon, .tint 1, .comma,
        .tstr "from", .colon, .lbrace, .tstr "lovelace", .colon, .tint 2, .rbrace,
        .rbrace] =
      .ok (some (.obj [("lovelace", .big 2)])) ∧
    Json.obj [("lovelace", .big 2)] ≠
      Json.obj [("clause", .str "some"), ("atLeast", .big 1),
                ("from", .obj [("lovelace", .big 2)])] :=
  ⟨rfl, by simp⟩

/-- C6 (amended): for an object shaped as a multi-signature clause
(`clause == "some"` with an `atLeast` member, not captured by an earlier
branch), the sanitation pass converts the numeric `atLeast` member to an
arbitrary-precision integer and recursively sanitizes the sub-tree under
`from` (twice — once through the member walk and once through the explicit
`sanitize(json.from, "from")` call); the in-place mutation keeps the clause
object, so a clause nested in a larger document stays in place, but the
*returned* value is the sanitized `from` sub-tree (`undefined` when `from`
is absent), so decode of a document whose root is the clause object yields
the `from` sub-tree, not the whole document. -/
theorem clause_sanitation (ms : List (String × Json)) (pk : Option String)
    (hlov : getField ms "lovelace" = none)
    (hada : getField ms "ada" = none)
    (hmint : pk ≠ some "mint") (hvalue : pk ≠ some "value")
    (hcl : isSomeClause ms = true) :
    (∃ ms2, sanitizeC (.obj ms) pk = .obj ms2 ∧
       getField ms2 "atLeast" = Option.map bigify (getField ms "atLeast") ∧
       getField ms2 "clause" = getField ms "clause" ∧
       getField ms2 "from" = Option.map
         (fun v => sanitizeC (sanitizeC v (some "from")) (some "from"))
         (getField ms "from")) ∧
    (getField ms "from" = none → sanitizeRetC (.obj ms) pk = none) ∧
    (∀ f0, getField ms "from" = some f0 →
      sanitizeRetC (.obj ms) pk =
        sanitizeRetC (sanitizeC f0 (some "from")) (some "from")) := by
  have hclause : ∃ s, getField ms "clause" = some (.str s) ∧ s = "some" := by
    unfold isSomeClause at hcl
    rw [Bool.and_eq_true] at hcl
    obtain ⟨h1, _⟩ := hcl
    cases hg : getField ms "clause" with
    | none => rw [hg] at h1; cases h1
    | some v =>
      cases v <;> rw [hg] at h1 <;> simp at h1
      exact ⟨_, rfl, h1⟩
  have hfieldsC : ∀ k, getField (sanitizeFieldsC ms ["atLeast"]) k =
      Option.map (fun v => if ["atLeast"].contains k then bigify v
        else sanitizeC v (some k)) (getField ms k) := by
    intro k
    unfold sanitizeFieldsC
    exact getField_map_value
      (fun k v => if ["atLeast"].contains k then bigify v else sanitizeC v (some k)) ms k
  have hfromC : ∀ (ns : List (String × Json)) (k : String),
      getField (sanitizeFromMemberC ns) k =
        Option.map (fun v => if k = "from" then sanitizeC v (some "from") else v)
          (getField ns k) := by
    intro ns k
    rw [sanitizeFromMemberC_as_map]
    exact getField_map_value
      (fun k v => if k = "from" then sanitizeC v (some "from") else v) ns k
  refine ⟨⟨sanitizeFromMemberC (sanitizeFieldsC ms ["atLeast"]), ?_, ?_, ?_, ?_⟩, ?_, ?_⟩
  · rw [sanitizeC_obj, if_neg (by rw [hlov]; simp),
      if_neg (by rw [hada]; simp [hmint, hvalue]), if_pos hcl]
  · rw [hfromC, hfieldsC]
    cases getField ms "atLeast" <;> simp
  · obtain ⟨s, hs, rfl⟩ := hclause
    rw [hfromC, hfieldsC, hs]
    simp [sanitizeC_str]
  · rw [hfromC, hfieldsC]
    cases getField ms "from" <;> simp
  · intro hfrom
    rw [sanitizeRetC_obj, if_neg (by rw [hlov]; simp),
      if_neg (by rw [hada]; simp [hmint, hvalue]), if_pos hcl]
    rw [hfieldsC, hfrom]
    rfl
  · intro f0 hfrom
    rw [sanitizeRetC_obj, if_neg (by rw [hlov]; simp),
      if_neg (by rw [hada]; simp [hmint, hvalue]), if_pos hcl]
    rw [hfieldsC, hfrom]
    rfl

/-- Witness for C6 on a concrete clause object. -/
theorem clause_sanitation_witness :
    sanitizeC (.obj [("clause", .str "some"), ("atLeast", .num 1),
        ("from", .obj [("lovelace", .num 2)])]) none =
      .obj [("clause", .str "some"), ("atLeast", .big 1),
            ("from", .obj [("lovelace", .big 2)])] ∧
    sanitizeRetC (.obj [("clause", .str "some"), ("atLeast", .num 1),
        ("from", .obj [("lovelace", .num 2)])]) none =
      some (.obj [("lovelace", .big 2)]) := by
  have h := clause_sanitation
    [("clause", .str "some"), ("atLeast", .num 1), ("from", .obj [("lovelace", .num 2)])]
    none rfl rfl (by intro h; cases h) (by intro h; cases h) rfl
  constructor
  · obtain ⟨⟨ms2, hm, _, _, _⟩, _, _⟩ := h
    rw [hm]
    revert hm
    show sanitizeC _ none = _ → _
    intro hm
    rw [show ms2 = sanitizeFromMemberC (sanitizeFieldsC
      [("clause", .str "some"), ("atLeast", .num 1), ("from", .obj [("lovelace", .num 2)])]
      ["atLeast"]) from by
        have : sanitizeC (.obj [("clause", .str "some"), ("atLeast", .num 1),
            ("from", .obj [("lovelace", .num 2)])]) none =
          .obj (sanitizeFromMemberC (sanitizeFieldsC
            [("clause", .str "some"), ("atLeast", .num 1),
             ("from", .obj [("lovelace", .num 2)])] ["atLeast"])) := by
          rw [sanitizeC_obj]
          rfl
        rw [hm] at this
        exact (Json.obj.injEq _ _).mp this.symm ▸ rfl]
    rfl
  · obtain ⟨_, _, hret⟩ := h
    rw [hret (.obj [("lovelace", .num 2)]) rfl]
    rfl

end Mdk

namespace Mdk

/-! ## Claim C9: the forbidden-constructor workaround -/

/-- C9: `Json.parse` applies the constructor-token workaround — substituting
every `"constructor"` string token by `"constr"` and reparsing, then
sanitizing — if and only if the initial parse throws a `SyntaxError` whose
message indicates the forbidden-constructor collision; every other parse
failure is rethrown unchanged, and a text that parses successfully is never
substituted. -/
theorem jsonParse_constructor_workaround (toks : List Tok) :
    (∀ v, rawParse toks = .ok v → jsonParse toks = .ok (sanitizeTop v)) ∧
    (∀ e, rawParse toks = .error e → msgIncludesForbiddenCtor e = false →
      jsonParse toks = .error e) ∧
    (∀ e, rawParse toks = .error e → msgIncludesForbiddenCtor e = true →
      jsonParse toks =
        (match rawParse (substituteCtor toks) with
         | .ok v => .ok (sanitizeTop v)
         | .error e2 => .error e2)) ∧
    rawParse [.lbrace, .tstr "constructor", .colon, .tint 1, .rbrace] =
      .error forbiddenCtorError ∧
    msgIncludesForbiddenCtor forbiddenCtorError = true ∧
    jsonParse [.lbrace, .tstr "constructor", .colon, .tint 1, .comma,
        .tstr "x", .colon, .tint 2, .rbrace] =
      .ok (some (.obj [("constr", .num 1), ("x", .num 2)])) := by
  refine ⟨?_, ?_, ?_, rfl, rfl, rfl⟩
  · intro v h
    unfold jsonParse
    rw [h]
  · intro e h hmsg
    unfold jsonParse
    rw [h]
    simp [hmsg]
  · intro e h hmsg
    unfold jsonParse
    rw [h]
    simp [hmsg]

/-- Witness for C9: a successful parse goes through without substitution,
and a malformed payload's error is rethrown verbatim. -/
theorem jsonParse_constructor_workaround_witness :
    jsonParse [.lbrace, .tstr "x", .colon, .tint 2, .rbrace] =
      .ok (sanitizeTop (.obj [("x", .num 2)])) ∧
    jsonParse [.lbrace] = .error (badJson "Bad JSON: expected a string key") :=
  ⟨(jsonParse_constructor_workaround [.lbrace, .tstr "x", .colon, .tint 2, .rbrace]).1
      (.obj [("x", .num 2)]) rfl,
   (jsonParse_constructor_workaround [.lbrace]).2.1
      (badJson "Bad JSON: expected a string key") rfl rfl⟩

end Mdk

namespace Mdk

/-! ## Claim C4, layer 1: shape predicates and `demote` basics -/

mutual
/-- Every ordinary number lies within the safe integer range. -/
def numsSafe : Json → Bool
  | .num n => decide (-MAX_SAFE_INTEGER ≤ n ∧ n ≤ MAX_SAFE_INTEGER)
  | .arr es => numsSafeList es
  | .obj ms => numsSafeMembers ms
  | _ => true
def numsSafeList : List Json → Bool
  | [] => true
  | e :: es => numsSafe e && numsSafeList es
def numsSafeMembers : List (String × Json) → Bool
  | [] => true
  | (_, v) :: ms => numsSafe v && numsSafeMembers ms
end

mutual
/-- No object member is named `constructor`. -/
def ctorFree : Json → Bool
  | .arr es => ctorFreeList es
  | .obj ms => ctorFreeMembers ms
  | _ => true
def ctorFreeList : List Json → Bool
  | [] => true
  | e :: es => ctorFree e && ctorFreeList es
def ctorFreeMembers : List (String × Json) → Bool
  | [] => true
  | (k, v) :: ms => decide (k ≠ "constructor") && ctorFree v && ctorFreeMembers ms
end

mutual
theorem rawShaped_numsSafe : ∀ j : Json, rawShaped j = true → numsSafe j = true
  | .null, _ => rfl
  | .bool _, _ => rfl
  | .num _, h => h
  | .big _, _ => rfl
  | .str _, _ => rfl
  | .arr es, h => rawShapedList_numsSafe es h
  | .obj ms, h => rawShapedMembers_numsSafe ms h
theorem rawShapedList_numsSafe :
    ∀ es : List Json, rawShapedList es = true → numsSafeList es = true
  | [], _ => rfl
  | e :: es, h => by
    rw [rawShapedList, Bool.and_eq_true] at h
    rw [numsSafeList, Bool.and_eq_true]
    exact ⟨rawShaped_numsSafe e h.1, rawShapedList_numsSafe es h.2⟩
theorem rawShapedMembers_numsSafe :
    ∀ ms : List (String × Json), rawShapedMembers ms = true → numsSafeMembers ms = true
  | [], _ => rfl
  | (k, v) :: ms, h => by
    rw [rawShapedMembers, Bool.and_eq_true, Bool.and_eq_true] at h
    rw [numsSafeMembers, Bool.and_eq_true]
    exact ⟨rawShaped_numsSafe v h.1.2, rawShapedMembers_numsSafe ms h.2⟩
end

mutual
theorem rawShaped_ctorFree : ∀ j : Json, rawShaped j = true → ctorFree j = true
  | .null, _ => rfl
  | .bool _, _ => rfl
  | .num _, _ => rfl
  | .big _, _ => rfl
  | .str _, _ => rfl
  | .arr es, h => rawShapedList_ctorFree es h
  | .obj ms, h => rawShapedMembers_ctorFree ms h
theorem rawShapedList_ctorFree :
    ∀ es : List Json, rawShapedList es = true → ctorFreeList es = true
  | [], _ => rfl
  | e :: es, h => by
    rw [rawShapedList, Bool.and_eq_true] at h
    rw [ctorFreeList, Bool.and_eq_true]
    exact ⟨rawShaped_ctorFree e h.1, rawShapedList_ctorFree es h.2⟩
theorem rawShapedMembers_ctorFree :
    ∀ ms : List (String × Json), rawShapedMembers ms = true → ctorFreeMembers ms = true
  | [], _ => rfl
  | (k, v) :: ms, h => by
    rw [rawShapedMembers, Bool.and_eq_true, Bool.and_eq_true] at h
    rw [ctorFreeMembers, Bool.and_eq_true, Bool.and_eq_true]
    exact ⟨⟨h.1.1, rawShaped_ctorFree v h.1.2⟩, rawShapedMembers_ctorFree ms h.2⟩
end

mutual
/-- On a freshly parsed (raw) value, serializing and re-parsing is the
identity: every `big` is outside the safe range, so none is demoted. -/
theorem rawShaped_demote : ∀ j : Json, rawShaped j = true → demote j = j
  | .null, _ => rfl
  | .bool _, _ => rfl
  | .num _, _ => rfl
  | .big n, h => by
    rw [demote, intLiteral, if_neg]
    rw [rawShaped, decide_eq_true_iff] at h
    exact h
  | .str _, _ => rfl
  | .arr es, h => by rw [demote, rawShapedList_demote es h]
  | .obj ms, h => by rw [demote, rawShapedMembers_demote ms h]
theorem rawShapedList_demote :
    ∀ es : List Json, rawShapedList es = true → demoteList es = es
  | [], _ => rfl
  | e :: es, h => by
    rw [rawShapedList, Bool.and_eq_true] at h
    rw [demoteList, rawShaped_demote e h.1, rawShapedList_demote es h.2]
theorem rawShapedMembers_demote :
    ∀ ms : List (String × Json), rawShapedMembers ms = true → demoteMembers ms = ms
  | [], _ => rfl
  | (k, v) :: ms, h => by
    rw [rawShapedMembers, Bool.and_eq_true, Bool.and_eq_true] at h
    rw [demoteMembers, rawShaped_demote v h.1.2, rawShapedMembers_demote ms h.2]
end

theorem demoteMembers_map (ms : List (String × Json)) :
    demoteMembers ms = ms.map fun kv => (kv.1, demote kv.2) := by
  induction ms with
  | nil => rfl
  | cons kv ms ih =>
    obtain ⟨k, v⟩ := kv
    rw [demoteMembers, ih, List.map_cons]

theorem demoteList_map (es : List Json) : demoteList es = es.map demote := by
  induction es with
  | nil => rfl
  | cons e es ih => rw [demoteList, ih, List.map_cons]

end Mdk


namespace Mdk

/-! ## Claim C4, layer 2: the serializer/parser round trip -/

theorem parseVal_lbrack_cons (fuel : Nat) (t : Tok) (ts : List Tok) (h : t ≠ Tok.rbrack) :
    parseVal (fuel + 1) (.lbrack :: t :: ts) =
      (match parseElems fuel (t :: ts) with
       | .ok (es, r2) => .ok (.arr es, r2)
       | .error e => .error e) := by
  cases t <;> first
    | rfl
    | exact absurd rfl h

theorem parseVal_lbrace_cons (fuel : Nat) (t : Tok) (ts : List Tok) (h : t ≠ Tok.rbrace) :
    parseVal (fuel + 1) (.lbrace :: t :: ts) =
      (match parseMembers fuel (t :: ts) with
       | .ok (ms, r2) => .ok (.obj ms, r2)
       | .error e => .error e) := by
  cases t <;> first
    | rfl
    | exact absurd rfl h

theorem stringifyElems_cons_cons (e e2 : Json) (es : List Json) :
    stringifyElems (e :: e2 :: es) =
      stringifyToks e ++ .comma :: stringifyElems (e2 :: es) := rfl

theorem stringifyMembers_cons_cons (kv kv2 : String × Json) (ms : List (String × Json)) :
    stringifyMembers (kv :: kv2 :: ms) =
      .tstr kv.1 :: .colon :: stringifyToks kv.2 ++ .comma :: stringifyMembers (kv2 :: ms) := by
  obtain ⟨k, v⟩ := kv
  rfl

theorem stringifyToks_head (v : Json) :
    ∃ t ts, stringifyToks v = t :: ts ∧ t ≠ Tok.rbrack ∧ t ≠ Tok.rbrace := by
  cases v with
  | null => refine ⟨.litNull, [], rfl, ?_, ?_⟩ <;> (intro h; cases h)
  | bool b =>
    cases b with
    | true => refine ⟨.litTrue, [], rfl, ?_, ?_⟩ <;> (intro h; cases h)
    | false => refine ⟨.litFalse, [], rfl, ?_, ?_⟩ <;> (intro h; cases h)
  | num n => refine ⟨.tint n, [], rfl, ?_, ?_⟩ <;> (intro h; cases h)
  | big n => refine ⟨.tint n, [], rfl, ?_, ?_⟩ <;> (intro h; cases h)
  | str s => refine ⟨.tstr s, [], rfl, ?_, ?_⟩ <;> (intro h; cases h)
  | arr es =>
    refine ⟨.lbrack, stringifyElems es ++ [.rbrack], ?_, ?_, ?_⟩
    · rfl
    · intro h; cases h
    · intro h; cases h
  | obj ms =>
    refine ⟨.lbrace, stringifyMembers ms ++ [.rbrace], ?_, ?_, ?_⟩
    · rfl
    · intro h; cases h
    · intro h; cases h

theorem stringifyElems_head (e : Json) (es : List Json) :
    ∃ t ts, stringifyElems (e :: es) = t :: ts ∧ t ≠ Tok.rbrack := by
  obtain ⟨t, ts, hts, h1, _⟩ := stringifyToks_head e
  cases es with
  | nil => exact ⟨t, ts, by rw [stringifyElems, hts], h1⟩
  | cons e2 es =>
    refine ⟨t, ts ++ .comma :: stringifyElems (e2 :: es), ?_, h1⟩
    rw [stringifyElems_cons_cons, hts]
    rfl

theorem stringifyToks_length_pos (v : Json) : 1 ≤ (stringifyToks v).length := by
  obtain ⟨t, ts, hts, _, _⟩ := stringifyToks_head v
  rw [hts]
  simp

mutual
theorem parse_stringify_val :
    ∀ (v : Json) (fuel : Nat) (rest : List Tok), numsSafe v = true → ctorFree v = true →
      2 * (stringifyToks v).length ≤ fuel →
      parseVal fuel (stringifyToks v ++ rest) = .ok (demote v, rest)
  | .null, fuel, rest, _, _, hf => by
    obtain ⟨f, rfl⟩ : ∃ f, fuel = f + 1 := ⟨fuel - 1, by simp [stringifyToks] at hf; omega⟩
    rfl
  | .bool true, fuel, rest, _, _, hf => by
    obtain ⟨f, rfl⟩ : ∃ f, fuel = f + 1 := ⟨fuel - 1, by simp [stringifyToks] at hf; omega⟩
    rfl
  | .bool false, fuel, rest, _, _, hf => by
    obtain ⟨f, rfl⟩ : ∃ f, fuel = f + 1 := ⟨fuel - 1, by simp [stringifyToks] at hf; omega⟩
    rfl
  | .str s, fuel, rest, _, _, hf => by
    obtain ⟨f, rfl⟩ : ∃ f, fuel = f + 1 := ⟨fuel - 1, by simp [stringifyToks] at hf; omega⟩
    rfl
  | .num n, fuel, rest, hn, _, hf => by
    obtain ⟨f, rfl⟩ : ∃ f, fuel = f + 1 := ⟨fuel - 1, by simp [stringifyToks] at hf; omega⟩
    show Except.ok (intLiteral n, rest) = .ok (demote (.num n), rest)
    rw [numsSafe, decide_eq_true_iff] at hn
    rw [intLiteral, if_pos hn]
    rfl
  | .big n, fuel, rest, _, _, hf => by
    obtain ⟨f, rfl⟩ : ∃ f, fuel = f + 1 := ⟨fuel - 1, by simp [stringifyToks] at hf; omega⟩
    rfl
  | .arr [], fuel, rest, _, _, hf => by
    obtain ⟨f, rfl⟩ : ∃ f, fuel = f + 1 := ⟨fuel - 1, by simp [stringifyToks] at hf; omega⟩
    rfl
  | .arr (e :: es), fuel, rest, hn, hc, hf => by
    obtain ⟨f, rfl⟩ : ∃ f, fuel = f + 1 := ⟨fuel - 1, by
      have := stringifyToks_length_pos (.arr (e :: es))
      omega⟩
    obtain ⟨t, ts, hts, htb⟩ := stringifyElems_head e es
    have hsplit : stringifyToks (.arr (e :: es)) ++ rest =
        Tok.lbrack :: t :: (ts ++ Tok.rbrack :: rest) := by
      rw [stringifyToks, hts]
      simp
    rw [hsplit, parseVal_lbrack_cons f t _ htb]
    have helems : parseElems f (t :: (ts ++ Tok.rbrack :: rest)) =
        .ok (demoteList (e :: es), rest) := by
      have h1 : t :: (ts ++ Tok.rbrack :: rest) =
          stringifyElems (e :: es) ++ Tok.rbrack :: rest := by rw [hts]; simp
      rw [h1]
      apply parse_stringify_elems e es f rest hn hc
      rw [show stringifyToks (.arr (e :: es)) =
        .lbrack :: (stringifyElems (e :: es) ++ [.rbrack]) from rfl] at hf
      simp at hf
      omega
    rw [helems]
    rfl
  | .obj [], fuel, rest, _, _, hf => by
    obtain ⟨f, rfl⟩ : ∃ f, fuel = f + 1 := ⟨fuel - 1, by simp [stringifyToks] at hf; omega⟩
    rfl
  | .obj (kv :: ms), fuel, rest, hn, hc, hf => by
    obtain ⟨f, rfl⟩ : ∃ f, fuel = f + 1 := ⟨fuel - 1, by
      have := stringifyToks_length_pos (.obj (kv :: ms))
      omega⟩
    obtain ⟨k, v⟩ := kv
    have hhead : ∃ us, stringifyMembers ((k, v) :: ms) = Tok.tstr k :: us := by
      cases ms with
      | nil => exact ⟨_, rfl⟩
      | cons kv2 ms => exact ⟨_, by rw [stringifyMembers_cons_cons]; rfl⟩
    obtain ⟨us, hus⟩ := hhead
    have hsplit : stringifyToks (.obj ((k, v) :: ms)) ++ rest =
        Tok.lbrace :: Tok.tstr k :: (us ++ Tok.rbrace :: rest) := by
      rw [show stringifyToks (.obj ((k, v) :: ms)) =
        .lbrace :: (stringifyMembers ((k, v) :: ms) ++ [.rbrace]) from rfl, hus]
      simp
    rw [hsplit, parseVal_lbrace_cons f (Tok.tstr k) _ (by intro h; cases h)]
    have hmembs : parseMembers f (Tok.tstr k :: (us ++ Tok.rbrace :: rest)) =
        .ok (demoteMembers ((k, v) :: ms), rest) := by
      have h1 : Tok.tstr k :: (us ++ Tok.rbrace :: rest) =
          stringifyMembers ((k, v) :: ms) ++ Tok.rbrace :: rest := by rw [hus]; simp
      rw [h1]
      apply parse_stringify_membs (k, v) ms f rest hn hc
      rw [show stringifyToks (.obj ((k, v) :: ms)) =
        .lbrace :: (stringifyMembers ((k, v) :: ms) ++ [.rbrace]) from rfl] at hf
      simp at hf
      omega
    rw [hmembs]
    rfl
theorem parse_stringify_elems :
    ∀ (e : Json) (es : List Json) (fuel : Nat) (rest : List Tok),
      numsSafeList (e :: es) = true → ctorFreeList (e :: es) = true →
      2 * (stringifyElems (e :: es)).length + 1 ≤ fuel →
      parseElems fuel (stringifyElems (e :: es) ++ .rbrack :: rest) =
        .ok (demoteList (e :: es), rest)
  | e, [], fuel, rest, hn, hc, hf => by
    obtain ⟨f, rfl⟩ : ∃ f, fuel = f + 1 := ⟨fuel - 1, by omega⟩
    rw [numsSafeList, Bool.and_eq_true] at hn
    rw [ctorFreeList, Bool.and_eq_true] at hc
    rw [stringifyElems] at hf ⊢
    rw [parseElems,
      parse_stringify_val e f (Tok.rbrack :: rest) hn.1 hc.1 (by omega)]
    rfl
  | e, e2 :: es, fuel, rest, hn, hc, hf => by
    obtain ⟨f, rfl⟩ : ∃ f, fuel = f + 1 := ⟨fuel - 1, by omega⟩
    rw [numsSafeList, Bool.and_eq_true] at hn
    rw [ctorFreeList, Bool.and_eq_true] at hc
    rw [stringifyElems_cons_cons] at hf ⊢
    have hlen : 2 * (stringifyToks e).length ≤ f ∧
        2 * (stringifyElems (e2 :: es)).length + 1 ≤ f := by
      simp at hf
      constructor <;> omega
    rw [parseElems]
    have hassoc : (stringifyToks e ++ Tok.comma :: stringifyElems (e2 :: es)) ++
        Tok.rbrack :: rest =
        stringifyToks e ++
          (Tok.comma :: (stringifyElems (e2 :: es) ++ Tok.rbrack :: rest)) := by
      simp
    rw [hassoc, parse_stringify_val e f _ hn.1 hc.1 hlen.1]
    show (match parseElems f (stringifyElems (e2 :: es) ++ Tok.rbrack :: rest) with
      | Except.ok (vs, r3) => Except.ok (demote e :: vs, r3)
      | Except.error err => Except.error err) =
        Except.ok (demoteList (e :: e2 :: es), rest)
    rw [parse_stringify_elems e2 es f rest hn.2 hc.2 hlen.2]
    rfl
theorem parse_stringify_membs :
    ∀ (kv : String × Json) (ms : List (String × Json)) (fuel : Nat) (rest : List Tok),
      numsSafeMembers (kv :: ms) = true → ctorFreeMembers (kv :: ms) = true →
      2 * (stringifyMembers (kv :: ms)).length + 1 ≤ fuel →
      parseMembers fuel (stringifyMembers (kv :: ms) ++ .rbrace :: rest) =
        .ok (demoteMembers (kv :: ms), rest)
  | (k, v), [], fuel, rest, hn, hc, hf => by
    obtain ⟨f, rfl⟩ : ∃ f, fuel = f + 1 := ⟨fuel - 1, by omega⟩
    rw [numsSafeMembers, Bool.and_eq_true] at hn
    rw [ctorFreeMembers, Bool.and_eq_true, Bool.and_eq_true] at hc
    rw [show stringifyMembers [(k, v)] = .tstr k :: .colon :: stringifyToks v from rfl] at hf ⊢
    show parseMembers (f + 1)
      (Tok.tstr k :: Tok.colon :: (stringifyToks v ++ Tok.rbrace :: rest)) = _
    rw [parseMembers, if_neg (by simpa using hc.1.1),
      parse_stringify_val v f (Tok.rbrace :: rest) hn.1 hc.1.2 (by simp at hf; omega)]
    rfl
  | (k, v), kv2 :: ms, fuel, rest, hn, hc, hf => by
    obtain ⟨f, rfl⟩ : ∃ f, fuel = f + 1 := ⟨fuel - 1, by omega⟩
    rw [numsSafeMembers, Bool.and_eq_true] at hn
    rw [ctorFreeMembers, Bool.and_eq_true, Bool.and_eq_true] at hc
    rw [stringifyMembers_cons_cons] at hf ⊢
    have hlen : 2 * (stringifyToks v).length ≤ f ∧
        2 * (stringifyMembers (kv2 :: ms)).length + 1 ≤ f := by
      simp at hf
      constructor <;> omega
    show parseMembers (f + 1) (Tok.tstr k :: Tok.colon :: ((stringifyToks v ++
      Tok.comma :: stringifyMembers (kv2 :: ms)) ++ Tok.rbrace :: rest)) = _
    have hassoc : (stringifyToks v ++ Tok.comma :: stringifyMembers (kv2 :: ms)) ++
        Tok.rbrace :: rest =
        stringifyToks v ++
          (Tok.comma :: (stringifyMembers (kv2 :: ms) ++ Tok.rbrace :: rest)) := by
      simp
    rw [parseMembers, if_neg (by simpa using hc.1.1), hassoc,
      parse_stringify_val v f _ hn.1 hc.1.2 hlen.1]
    show (match parseMembers f (stringifyMembers (kv2 :: ms) ++ Tok.rbrace :: rest) with
      | Except.ok (ms2, r4) => Except.ok ((k, demote v) :: ms2, r4)
      | Except.error err => Except.error err) =
        Except.ok (demoteMembers ((k, v) :: kv2 :: ms), rest)
    rw [parse_stringify_membs kv2 ms f rest hn.2 hc.2 hlen.2]
    rfl
end

/-- Serializing a value whose numbers are safe and whose members avoid
`constructor` and re-parsing it yields exactly its demotion. -/
theorem rawParse_stringify (v : Json) (hn : numsSafe v = true) (hc : ctorFree v = true) :
    rawParse (stringifyToks v) = .ok (demote v) := by
  unfold rawParse
  rw [show parseVal (2 * (stringifyToks v).length + 2) (stringifyToks v) =
      parseVal (2 * (stringifyToks v).length + 2) (stringifyToks v ++ []) from by simp,
    parse_stringify_val v (2 * (stringifyToks v).length + 2) [] hn hc (by omega)]
  rfl

end Mdk

namespace Mdk

/-! ## Claim C4, layer 3: every successful parse is raw-shaped -/

theorem rawShaped_intLiteral (n : Int) : rawShaped (intLiteral n) = true := by
  by_cases h : -MAX_SAFE_INTEGER ≤ n ∧ n ≤ MAX_SAFE_INTEGER
  · rw [intLiteral, if_pos h, rawShaped]
    exact decide_eq_true h
  · rw [intLiteral, if_neg h, rawShaped]
    exact decide_eq_true h

theorem parseVal_nil_ne (fuel : Nat) (v : Json) (r : List Tok) :
    parseVal fuel [] ≠ .ok (v, r) := by
  cases fuel with
  | zero => exact fun h => nomatch h
  | succ f => exact fun h => nomatch h

theorem parseElems_nil_ne (fuel : Nat) (es : List Json) (r : List Tok) :
    parseElems fuel [] ≠ .ok (es, r) := by
  cases fuel with
  | zero => exact fun h => nomatch h
  | succ f =>
    intro h
    rw [parseElems] at h
    rcases hpv : parseVal f [] with e | vr
    · rw [hpv] at h
      exact nomatch h
    · obtain ⟨v, r2⟩ := vr
      exact parseVal_nil_ne f v r2 hpv

mutual
theorem parseVal_rawShaped :
    ∀ (fuel : Nat) (toks : List Tok) (v : Json) (r : List Tok),
      parseVal fuel toks = .ok (v, r) → rawShaped v = true
  | 0, _, _, _, h => nomatch h
  | _ + 1, [], _, _, h => nomatch h
  | _ + 1, .rbrack :: _, _, _, h => nomatch h
  | _ + 1, .rbrace :: _, _, _, h => nomatch h
  | _ + 1, .colon :: _, _, _, h => nomatch h
  | _ + 1, .comma :: _, _, _, h => nomatch h
  | _ + 1, .litNull :: _, v, r, h => by
    injection h with h1
    injection h1 with h2 h3
    subst h2
    rfl
  | _ + 1, .litTrue :: _, v, r, h => by
    injection h with h1
    injection h1 with h2 h3
    subst h2
    rfl
  | _ + 1, .litFalse :: _, v, r, h => by
    injection h with h1
    injection h1 with h2 h3
    subst h2
    rfl
  | _ + 1, .tstr s :: _, v, r, h => by
    injection h with h1
    injection h1 with h2 h3
    subst h2
    rfl
  | _ + 1, .tint n :: _, v, r, h => by
    injection h with h1
    injection h1 with h2 h3
    subst h2
    exact rawShaped_intLiteral n
  | f + 1, .lbrack :: r2, v, r, h => by
    cases r2 with
    | nil =>
      have h2 : (match parseElems f [] with
        | Except.ok (es, r3) => (Except.ok (Json.arr es, r3) : Except JsError (Json × List Tok))
        | Except.error e => Except.error e) = Except.ok (v, r) := h
      rcases hpe : parseElems f [] with e | ⟨es, r3⟩
      · rw [hpe] at h2
        exact nomatch h2
      · exact absurd hpe (parseElems_nil_ne f es r3)
    | cons t r3 =>
      by_cases ht : t = Tok.rbrack
      · subst ht
        injection h with h1
        injection h1 with h2 h3
        subst h2
        rfl
      · rw [parseVal_lbrack_cons f t r3 ht] at h
        rcases hpe : parseElems f (t :: r3) with e | ⟨es, r4⟩
        · rw [hpe] at h
          exact nomatch h
        · rw [hpe] at h
          injection h with h1
          injection h1 with h2 h3
          subst h2
          exact parseElems_rawShaped f (t :: r3) es r4 hpe
  | f + 1, .lbrace :: r2, v, r, h => by
    cases r2 with
    | nil =>
      have h2 : (match parseMembers f [] with
        | Except.ok (ms, r3) => (Except.ok (Json.obj ms, r3) : Except JsError (Json × List Tok))
        | Except.error e => Except.error e) = Except.ok (v, r) := h
      rcases hpm : parseMembers f [] with e | ⟨ms, r3⟩
      · rw [hpm] at h2
        exact nomatch h2
      · rw [hpm] at h2
        injection h2 with h1
        injection h1 with h3 h4
        subst h3
        exact parseMembers_rawShaped f [] ms r3 hpm
    | cons t r3 =>
      by_cases ht : t = Tok.rbrace
      · subst ht
        injection h with h1
        injection h1 with h2 h3
        subst h2
        rfl
      · rw [parseVal_lbrace_cons f t r3 ht] at h
        rcases hpm : parseMembers f (t :: r3) with e | ⟨ms, r4⟩
        · rw [hpm] at h
          exact nomatch h
        · rw [hpm] at h
          injection h with h1
          injection h1 with h2 h3
          subst h2
          exact parseMembers_rawShaped f (t :: r3) ms r4 hpm
theorem parseElems_rawShaped :
    ∀ (fuel : Nat) (toks : List Tok) (es : List Json) (r : List Tok),
      parseElems fuel toks = .ok (es, r) → rawShapedList es = true
  | 0, _, _, _, h => nomatch h
  | f + 1, toks, es, r, h => by
    rw [parseElems] at h
    rcases hpv : parseVal f toks with e | ⟨v, r2⟩
    · rw [hpv] at h
      exact nomatch h
    · rw [hpv] at h
      have hv := parseVal_rawShaped f toks v r2 hpv
      cases r2 with
      | nil => exact nomatch h
      | cons t r3 =>
        cases t
        case comma =>
          have h2 : (match parseElems f r3 with
            | Except.ok (vs, r4) =>
                (Except.ok (v :: vs, r4) : Except JsError (List Json × List Tok))
            | Except.error e => Except.error e) = Except.ok (es, r) := h
          rcases hpe : parseElems f r3 with e | ⟨vs, r4⟩
          · rw [hpe] at h2
            exact nomatch h2
          · rw [hpe] at h2
            injection h2 with h1
            injection h1 with h3 h4
            subst h3
            rw [rawShapedList, Bool.and_eq_true]
            exact ⟨hv, parseElems_rawShaped f r3 vs r4 hpe⟩
        case rbrack =>
          injection h with h1
          injection h1 with h3 h4
          subst h3
          rw [rawShapedList, Bool.and_eq_true]
          exact ⟨hv, rfl⟩
        all_goals exact nomatch h
theorem parseMembers_rawShaped :
    ∀ (fuel : Nat) (toks : List Tok) (ms : List (String × Json)) (r : List Tok),
      parseMembers fuel toks = .ok (ms, r) → rawShapedMembers ms = true
  | 0, _, _, _, h => nomatch h
  | f + 1, toks, ms, r, h => by
    cases toks with
    | nil => exact nomatch h
    | cons t r2 =>
      cases t
      case tstr k =>
        cases r2 with
        | nil => exact nomatch h
        | cons t2 r3 =>
          cases t2
          case colon =>
            have h2 : (if k = "constructor" then
                  (Except.error forbiddenCtorError :
                    Except JsError (List (String × Json) × List Tok))
                else
                  match parseVal f r3 with
                  | Except.error e => Except.error e
                  | Except.ok (v, r4) =>
                    match r4 with
                    | Tok.comma :: r5 =>
                      (match parseMembers f r5 with
                       | Except.ok (ms2, r6) => Except.ok ((k, v) :: ms2, r6)
                       | Except.error e => Except.error e)
                    | Tok.rbrace :: r5 => Except.ok ([(k, v)], r5)
                    | _ => Except.error (badJson "Bad JSON: expected comma or closing brace")) =
                Except.ok (ms, r) := h
            by_cases hk : k = "constructor"
            · rw [if_pos hk] at h2
              exact nomatch h2
            · rw [if_neg hk] at h2
              rcases hpv : parseVal f r3 with e | ⟨v, r4⟩
              · rw [hpv] at h2
                exact nomatch h2
              · rw [hpv] at h2
                have hv := parseVal_rawShaped f r3 v r4 hpv
                cases r4 with
                | nil => exact nomatch h2
                | cons t3 r5 =>
                  cases t3
                  · exact nomatch h2
                  · injection h2 with h4
                    injection h4 with h5 h6
                    subst h5
                    rw [rawShapedMembers, Bool.and_eq_true, Bool.and_eq_true]
                    exact ⟨⟨decide_eq_true hk, hv⟩, rfl⟩
                  · exact nomatch h2
                  · exact nomatch h2
                  · exact nomatch h2
                  · have h3 : (match parseMembers f r5 with
                      | Except.ok (ms2, r6) =>
                          (Except.ok ((k, v) :: ms2, r6) :
                            Except JsError (List (String × Json) × List Tok))
                      | Except.error e => Except.error e) = Except.ok (ms, r) := h2
                    rcases hpm : parseMembers f r5 with e | ⟨ms2, r6⟩
                    · rw [hpm] at h3
                      exact nomatch h3
                    · rw [hpm] at h3
                      injection h3 with h4
                      injection h4 with h5 h6
                      subst h5
                      rw [rawShapedMembers, Bool.and_eq_true, Bool.and_eq_true]
                      exact ⟨⟨decide_eq_true hk, hv⟩,
                        parseMembers_rawShaped f r5 ms2 r6 hpm⟩
                  · exact nomatch h2
                  · exact nomatch h2
                  · exact nomatch h2
                  · exact nomatch h2
                  · exact nomatch h2
          all_goals exact nomatch h
      all_goals exact nomatch h
end

/-- Whatever `$.parse` accepts is raw-shaped: safe numbers, out-of-range
arbitrary-precision integers, no `constructor` member. -/
theorem rawParse_rawShaped (toks : List Tok) (v : Json) (h : rawParse toks = .ok v) :
    rawShaped v = true := by
  unfold rawParse at h
  rcases hpv : parseVal (2 * toks.length + 2) toks with e | ⟨u, r⟩
  · rw [hpv] at h
    exact nomatch h
  · rw [hpv] at h
    have h2 : (if r.isEmpty then (Except.ok u : Except JsError Json)
        else Except.error (badJson "Bad JSON: trailing tokens")) = Except.ok v := h
    by_cases hr : r.isEmpty
    · rw [if_pos hr] at h2
      injection h2 with h3
      subst h3
      exact parseVal_rawShaped _ toks _ r hpv
    · rw [if_neg hr] at h2
      exact nomatch h2

end Mdk

namespace Mdk

/-! ## Claim C4, layer 4: stability of the sanitation pass

Decoding sanitizes the raw parse; encoding writes every integer as a bare
literal, so re-parsing demotes the in-range arbitrary-precision integers
back to ordinary numbers.  The lemmas of this section show that
re-sanitizing the demoted value restores it exactly. -/

theorem bigify_idem (v : Json) : bigify (bigify v) = bigify v := by
  cases v <;> rfl

theorem bigify_demote_bigify (v : Json) (h : rawShaped v = true) :
    bigify (demote (bigify v)) = bigify v := by
  cases v with
  | num n =>
    show bigify (intLiteral n) = Json.big n
    rw [intLiteral]
    split <;> rfl
  | big n =>
    show bigify (intLiteral n) = Json.big n
    rw [intLiteral]
    split <;> rfl
  | null => rfl
  | bool b => rfl
  | str s => rfl
  | arr es =>
    show bigify (demote (Json.arr es)) = Json.arr es
    rw [rawShaped_demote _ h]
    rfl
  | obj ms =>
    show bigify (demote (Json.obj ms)) = Json.obj ms
    rw [rawShaped_demote _ h]
    rfl

theorem numsSafe_bigify (v : Json) (h : numsSafe v = true) : numsSafe (bigify v) = true := by
  cases v <;> first
    | rfl
    | exact h

theorem ctorFree_bigify (v : Json) (h : ctorFree v = true) : ctorFree (bigify v) = true := by
  cases v <;> first
    | rfl
    | exact h

theorem rawShapedMembers_mem :
    ∀ ms : List (String × Json), rawShapedMembers ms = true →
      ∀ kv ∈ ms, kv.1 ≠ "constructor" ∧ rawShaped kv.2 = true
  | [], _, kv, hkv => absurd hkv (List.not_mem_nil kv)
  | (k, v) :: ms, h, kv, hkv => by
    rw [rawShapedMembers, Bool.and_eq_true, Bool.and_eq_true] at h
    rcases List.mem_cons.mp hkv with rfl | hm
    · exact ⟨by simpa using h.1.1, h.1.2⟩
    · exact rawShapedMembers_mem ms h.2 kv hm

theorem rawShapedList_mem :
    ∀ es : List Json, rawShapedList es = true → ∀ v ∈ es, rawShaped v = true
  | [], _, v, hv => absurd hv (List.not_mem_nil v)
  | e :: es, h, v, hv => by
    rw [rawShapedList, Bool.and_eq_true] at h
    rcases List.mem_cons.mp hv with rfl | hm
    · exact h.1
    · exact rawShapedList_mem es h.2 v hm

theorem getField_mem :
    ∀ (ms : List (String × Json)) (k : String) (v : Json),
      getField ms k = some v → (k, v) ∈ ms
  | [], _, _, h => nomatch h
  | (k', v') :: ms, k, v, h => by
    rw [getField] at h
    split at h
    · next heq =>
      injection h with h1
      subst heq h1
      exact List.mem_cons_self _ _
    · exact List.mem_cons_of_mem _ (getField_mem ms k v h)

/-- The first-match lookup after a key-preserving member map. -/
theorem isSome_getField_map (f : String → Json → Json) (ms : List (String × Json))
    (k : String) :
    (getField (ms.map fun kv => (kv.1, f kv.1 kv.2)) k).isSome = (getField ms k).isSome := by
  rw [getField_map_value]
  cases getField ms k <;> rfl

/-- Composing two key-preserving member maps. -/
theorem map_member_comp (f g : String → Json → Json) (ms : List (String × Json)) :
    ((ms.map fun kv => (kv.1, f kv.1 kv.2)).map fun kv => (kv.1, g kv.1 kv.2)) =
      ms.map fun kv => (kv.1, g kv.1 (f kv.1 kv.2)) := by
  rw [List.map_map]
  apply List.map_congr_left
  intro kv _
  rfl

theorem demoteMembers_map_comp (f : String → Json → Json) (ms : List (String × Json)) :
    demoteMembers (ms.map fun kv => (kv.1, f kv.1 kv.2)) =
      ms.map fun kv => (kv.1, demote (f kv.1 kv.2)) := by
  rw [demoteMembers_map, List.map_map]
  apply List.map_congr_left
  intro kv _
  rfl

end Mdk

namespace Mdk

/-- The `json.clause === "some"` test on the member value (proof helper). -/
def clauseSome : Json → Bool
  | .str s => decide (s = "some")
  | _ => false

theorem isSomeClause_eq (ms : List (String × Json)) :
    isSomeClause ms =
      ((match getField ms "clause" with
        | some v => clauseSome v
        | none => false) && (getField ms "atLeast").isSome) := by
  unfold isSomeClause
  cases getField ms "clause" with
  | none => rfl
  | some v => cases v <;> rfl

theorem isSomeClause_map (f : String → Json → Json) (ms : List (String × Json))
    (hcl : ∀ v, clauseSome (f "clause" v) = clauseSome v) :
    isSomeClause (ms.map fun kv => (kv.1, f kv.1 kv.2)) = isSomeClause ms := by
  rw [isSomeClause_eq, isSomeClause_eq, getField_map_value, getField_map_value]
  cases getField ms "clause" with
  | none =>
    cases getField ms "atLeast" <;> rfl
  | some v =>
    rw [Option.map_some']
    show (clauseSome (f "clause" v) &&
        (Option.map (f "atLeast") (getField ms "atLeast")).isSome) =
      (clauseSome v && (getField ms "atLeast").isSome)
    rw [hcl]
    cases getField ms "atLeast" <;> rfl

theorem isSomeClause_demoteMembers (ms : List (String × Json)) :
    isSomeClause (demoteMembers ms) = isSomeClause ms := by
  rw [demoteMembers_map]
  refine isSomeClause_map (fun _ v => demote v) ms ?_
  intro v
  cases v with
  | big n =>
    show clauseSome (intLiteral n) = false
    rw [intLiteral]
    split <;> rfl
  | null => rfl
  | bool b => rfl
  | num n => rfl
  | str s => rfl
  | arr es => rfl
  | obj ms2 => rfl

theorem getField_isSome_demoteMembers (ms : List (String × Json)) (k : String) :
    (getField (demoteMembers ms) k).isSome = (getField ms k).isSome := by
  rw [demoteMembers_map]
  exact isSome_getField_map (fun _ v => demote v) ms k

end Mdk

namespace Mdk

/-- The per-value conversion of the metadatum pass (proof helper). -/
def metaVal : Json → Json
  | .num n => .big n
  | v => sanitizeMetadatum v

theorem sanitizeMetadatumList_cons (v : Json) (es : List Json) :
    sanitizeMetadatumList (v :: es) = metaVal v :: sanitizeMetadatumList es := by
  cases v <;> rfl

theorem sanitizeMetadatumMembers_cons (k : String) (v : Json) (ms : List (String × Json)) :
    sanitizeMetadatumMembers ((k, v) :: ms) = (k, metaVal v) :: sanitizeMetadatumMembers ms := by
  cases v <;> rfl

theorem sanitizeMetadatumList_as_map :
    ∀ es : List Json, sanitizeMetadatumList es = es.map metaVal
  | [] => rfl
  | v :: es => by
    rw [sanitizeMetadatumList_cons, sanitizeMetadatumList_as_map es, List.map_cons]

theorem sanitizeMetadatumMembers_as_map :
    ∀ ms : List (String × Json),
      sanitizeMetadatumMembers ms = ms.map fun kv => (kv.1, metaVal kv.2)
  | [] => rfl
  | (k, v) :: ms => by
    rw [sanitizeMetadatumMembers_cons, sanitizeMetadatumMembers_as_map ms, List.map_cons]

mutual
theorem metaVal_idem : ∀ v : Json, metaVal (metaVal v) = metaVal v
  | .null => rfl
  | .bool _ => rfl
  | .num _ => rfl
  | .big _ => rfl
  | .str _ => rfl
  | .arr es => by
    show metaVal (Json.arr (sanitizeMetadatumList es)) = Json.arr (sanitizeMetadatumList es)
    show Json.arr (sanitizeMetadatumList (sanitizeMetadatumList es)) =
      Json.arr (sanitizeMetadatumList es)
    rw [sMetaList_idem es]
  | .obj ms => by
    show metaVal (Json.obj (sanitizeMetadatumMembers ms)) =
      Json.obj (sanitizeMetadatumMembers ms)
    show Json.obj (sanitizeMetadatumMembers (sanitizeMetadatumMembers ms)) =
      Json.obj (sanitizeMetadatumMembers ms)
    rw [sMetaMembers_idem ms]
theorem sMetaList_idem :
    ∀ es : List Json, sanitizeMetadatumList (sanitizeMetadatumList es) = sanitizeMetadatumList es
  | [] => rfl
  | v :: es => by
    rw [sanitizeMetadatumList_cons, sanitizeMetadatumList_cons,
      metaVal_idem v, sMetaList_idem es]
theorem sMetaMembers_idem :
    ∀ ms : List (String × Json),
      sanitizeMetadatumMembers (sanitizeMetadatumMembers ms) = sanitizeMetadatumMembers ms
  | [] => rfl
  | (k, v) :: ms => by
    rw [sanitizeMetadatumMembers_cons, sanitizeMetadatumMembers_cons,
      metaVal_idem v, sMetaMembers_idem ms]
end

mutual
theorem metaVal_demote_stable : ∀ v : Json, metaVal (demote (metaVal v)) = metaVal v
  | .null => rfl
  | .bool _ => rfl
  | .num n => by
    show metaVal (intLiteral n) = Json.big n
    rw [intLiteral]
    split <;> rfl
  | .big n => by
    show metaVal (intLiteral n) = Json.big n
    rw [intLiteral]
    split <;> rfl
  | .str _ => rfl
  | .arr es => by
    show metaVal (demote (Json.arr (sanitizeMetadatumList es))) =
      Json.arr (sanitizeMetadatumList es)
    show Json.arr (sanitizeMetadatumList (demoteList (sanitizeMetadatumList es))) =
      Json.arr (sanitizeMetadatumList es)
    rw [sMetaList_demote_stable es]
  | .obj ms => by
    show metaVal (demote (Json.obj (sanitizeMetadatumMembers ms))) =
      Json.obj (sanitizeMetadatumMembers ms)
    show Json.obj (sanitizeMetadatumMembers (demoteMembers (sanitizeMetadatumMembers ms))) =
      Json.obj (sanitizeMetadatumMembers ms)
    rw [sMetaMembers_demote_stable ms]
theorem sMetaList_demote_stable :
    ∀ es : List Json,
      sanitizeMetadatumList (demoteList (sanitizeMetadatumList es)) = sanitizeMetadatumList es
  | [] => rfl
  | v :: es => by
    rw [sanitizeMetadatumList_cons, demoteList, sanitizeMetadatumList_cons,
      metaVal_demote_stable v, sMetaList_demote_stable es]
theorem sMetaMembers_demote_stable :
    ∀ ms : List (String × Json),
      sanitizeMetadatumMembers (demoteMembers (sanitizeMetadatumMembers ms)) =
        sanitizeMetadatumMembers ms
  | [] => rfl
  | (k, v) :: ms => by
    rw [sanitizeMetadatumMembers_cons, demoteMembers, sanitizeMetadatumMembers_cons,
      metaVal_demote_stable v, sMetaMembers_demote_stable ms]
end

mutual
theorem numsSafe_metaVal : ∀ v : Json, numsSafe (metaVal v) = true
  | .null => rfl
  | .bool _ => rfl
  | .num _ => rfl
  | .big _ => rfl
  | .str _ => rfl
  | .arr es => by
    show numsSafe (Json.arr (sanitizeMetadatumList es)) = true
    show numsSafeList (sanitizeMetadatumList es) = true
    exact numsSafeList_sMeta es
  | .obj ms => by
    show numsSafe (Json.obj (sanitizeMetadatumMembers ms)) = true
    show numsSafeMembers (sanitizeMetadatumMembers ms) = true
    exact numsSafeMembers_sMeta ms
theorem numsSafeList_sMeta : ∀ es : List Json, numsSafeList (sanitizeMetadatumList es) = true
  | [] => rfl
  | v :: es => by
    rw [sanitizeMetadatumList_cons, numsSafeList, Bool.and_eq_true]
    exact ⟨numsSafe_metaVal v, numsSafeList_sMeta es⟩
theorem numsSafeMembers_sMeta :
    ∀ ms : List (String × Json), numsSafeMembers (sanitizeMetadatumMembers ms) = true
  | [] => rfl
  | (k, v) :: ms => by
    rw [sanitizeMetadatumMembers_cons, numsSafeMembers, Bool.and_eq_true]
    exact ⟨numsSafe_metaVal v, numsSafeMembers_sMeta ms⟩
end

mutual
theorem ctorFree_metaVal : ∀ v : Json, ctorFree v = true → ctorFree (metaVal v) = true
  | .null, _ => rfl
  | .bool _, _ => rfl
  | .num _, _ => rfl
  | .big _, _ => rfl
  | .str _, _ => rfl
  | .arr es, h => by
    show ctorFree (Json.arr (sanitizeMetadatumList es)) = true
    show ctorFreeList (sanitizeMetadatumList es) = true
    exact ctorFreeList_sMeta es h
  | .obj ms, h => by
    show ctorFree (Json.obj (sanitizeMetadatumMembers ms)) = true
    show ctorFreeMembers (sanitizeMetadatumMembers ms) = true
    exact ctorFreeMembers_sMeta ms h
theorem ctorFreeList_sMeta :
    ∀ es : List Json, ctorFreeList es = true → ctorFreeList (sanitizeMetadatumList es) = true
  | [], _ => rfl
  | v :: es, h => by
    rw [ctorFreeList, Bool.and_eq_true] at h
    rw [sanitizeMetadatumList_cons, ctorFreeList, Bool.and_eq_true]
    exact ⟨ctorFree_metaVal v h.1, ctorFreeList_sMeta es h.2⟩
theorem ctorFreeMembers_sMeta :
    ∀ ms : List (String × Json),
      ctorFreeMembers ms = true → ctorFreeMembers (sanitizeMetadatumMembers ms) = true
  | [], _ => rfl
  | (k, v) :: ms, h => by
    rw [ctorFreeMembers, Bool.and_eq_true, Bool.and_eq_true] at h
    rw [sanitizeMetadatumMembers_cons, ctorFreeMembers, Bool.and_eq_true,
      Bool.and_eq_true]
    exact ⟨⟨h.1.1, ctorFree_metaVal v h.1.2⟩, ctorFreeMembers_sMeta ms h.2⟩
end

theorem clauseSome_metaVal (v : Json) : clauseSome (metaVal v) = clauseSome v := by
  cases v <;> rfl

end Mdk

namespace Mdk

theorem membersBigify_idem :
    ∀ ms : List (String × Json),
      ((ms.map fun kv => (kv.1, bigify kv.2)).map fun kv => (kv.1, bigify kv.2)) =
        ms.map fun kv => (kv.1, bigify kv.2)
  | [] => rfl
  | (k, v) :: ms => by
    show (k, bigify (bigify v)) ::
        ((ms.map fun kv => (kv.1, bigify kv.2)).map fun kv => (kv.1, bigify kv.2)) =
      (k, bigify v) :: ms.map fun kv => (kv.1, bigify kv.2)
    rw [bigify_idem, membersBigify_idem ms]

theorem listBigify_idem :
    ∀ es : List Json, (es.map bigify).map bigify = es.map bigify
  | [] => rfl
  | v :: es => by
    show bigify (bigify v) :: (es.map bigify).map bigify = bigify v :: es.map bigify
    rw [bigify_idem, listBigify_idem es]

theorem membersBigify_demote_stable :
    ∀ ms : List (String × Json), rawShapedMembers ms = true →
      ((demoteMembers (ms.map fun kv => (kv.1, bigify kv.2))).map
          fun kv => (kv.1, bigify kv.2)) =
        ms.map fun kv => (kv.1, bigify kv.2)
  | [], _ => rfl
  | (k, v) :: ms, h => by
    rw [rawShapedMembers, Bool.and_eq_true, Bool.and_eq_true] at h
    show (k, bigify (demote (bigify v))) ::
        ((demoteMembers (ms.map fun kv => (kv.1, bigify kv.2))).map
          fun kv => (kv.1, bigify kv.2)) =
      (k, bigify v) :: ms.map fun kv => (kv.1, bigify kv.2)
    rw [bigify_demote_bigify v h.1.2, membersBigify_demote_stable ms h.2]

theorem listBigify_demote_stable :
    ∀ es : List Json, rawShapedList es = true →
      (demoteList (es.map bigify)).map bigify = es.map bigify
  | [], _ => rfl
  | v :: es, h => by
    rw [rawShapedList, Bool.and_eq_true] at h
    show bigify (demote (bigify v)) :: (demoteList (es.map bigify)).map bigify =
      bigify v :: es.map bigify
    rw [bigify_demote_bigify v h.1, listBigify_demote_stable es h.2]

theorem numsSafeMembers_map_bigify :
    ∀ ms : List (String × Json), numsSafeMembers ms = true →
      numsSafeMembers (ms.map fun kv => (kv.1, bigify kv.2)) = true
  | [], _ => rfl
  | (k, v) :: ms, h => by
    rw [numsSafeMembers, Bool.and_eq_true] at h
    show numsSafeMembers ((k, bigify v) :: ms.map fun kv => (kv.1, bigify kv.2)) = true
    rw [numsSafeMembers, Bool.and_eq_true]
    exact ⟨numsSafe_bigify v h.1, numsSafeMembers_map_bigify ms h.2⟩

theorem numsSafeList_map_bigify :
    ∀ es : List Json, numsSafeList es = true → numsSafeList (es.map bigify) = true
  | [], _ => rfl
  | v :: es, h => by
    rw [numsSafeList, Bool.and_eq_true] at h
    show numsSafeList (bigify v :: es.map bigify) = true
    rw [numsSafeList, Bool.and_eq_true]
    exact ⟨numsSafe_bigify v h.1, numsSafeList_map_bigify es h.2⟩

theorem ctorFreeMembers_map_bigify :
    ∀ ms : List (String × Json), ctorFreeMembers ms = true →
      ctorFreeMembers (ms.map fun kv => (kv.1, bigify kv.2)) = true
  | [], _ => rfl
  | (k, v) :: ms, h => by
    rw [ctorFreeMembers, Bool.and_eq_true, Bool.and_eq_true] at h
    show ctorFreeMembers ((k, bigify v) :: ms.map fun kv => (kv.1, bigify kv.2)) = true
    rw [ctorFreeMembers, Bool.and_eq_true, Bool.and_eq_true]
    exact ⟨⟨h.1.1, ctorFree_bigify v h.1.2⟩, ctorFreeMembers_map_bigify ms h.2⟩

theorem ctorFreeList_map_bigify :
    ∀ es : List Json, ctorFreeList es = true → ctorFreeList (es.map bigify) = true
  | [], _ => rfl
  | v :: es, h => by
    rw [ctorFreeList, Bool.and_eq_true] at h
    show ctorFreeList (bigify v :: es.map bigify) = true
    rw [ctorFreeList, Bool.and_eq_true]
    exact ⟨ctorFree_bigify v h.1, ctorFreeList_map_bigify es h.2⟩

theorem bigifyChildren_idem (v : Json) :
    bigifyChildren (bigifyChildren v) = bigifyChildren v := by
  cases v with
  | obj ms =>
    show Json.obj ((ms.map fun kv => (kv.1, bigify kv.2)).map fun kv => (kv.1, bigify kv.2)) =
      Json.obj (ms.map fun kv => (kv.1, bigify kv.2))
    rw [membersBigify_idem ms]
  | arr es =>
    show Json.arr ((es.map bigify).map bigify) = Json.arr (es.map bigify)
    rw [listBigify_idem es]
  | null => rfl
  | bool b => rfl
  | num n => rfl
  | big n => rfl
  | str s => rfl

theorem bigifyChildren_demote_stable (v : Json) (h : rawShaped v = true) :
    bigifyChildren (demote (bigifyChildren v)) = bigifyChildren v := by
  cases v with
  | obj ms =>
    show Json.obj ((demoteMembers (ms.map fun kv => (kv.1, bigify kv.2))).map
        fun kv => (kv.1, bigify kv.2)) =
      Json.obj (ms.map fun kv => (kv.1, bigify kv.2))
    rw [membersBigify_demote_stable ms h]
  | arr es =>
    show Json.arr ((demoteList (es.map bigify)).map bigify) = Json.arr (es.map bigify)
    rw [listBigify_demote_stable es h]
  | null => rfl
  | bool b => rfl
  | num n => rfl
  | big n =>
    show bigifyChildren (demote (Json.big n)) = Json.big n
    rw [rawShaped_demote _ h]
    rfl
  | str s => rfl

theorem numsSafe_bigifyChildren (v : Json) (h : numsSafe v = true) :
    numsSafe (bigifyChildren v) = true := by
  cases v with
  | obj ms =>
    show numsSafeMembers (ms.map fun kv => (kv.1, bigify kv.2)) = true
    exact numsSafeMembers_map_bigify ms h
  | arr es =>
    show numsSafeList (es.map bigify) = true
    exact numsSafeList_map_bigify es h
  | null => rfl
  | bool b => rfl
  | num n => exact h
  | big n => rfl
  | str s => rfl

theorem ctorFree_bigifyChildren (v : Json) (h : ctorFree v = true) :
    ctorFree (bigifyChildren v) = true := by
  cases v with
  | obj ms =>
    show ctorFreeMembers (ms.map fun kv => (kv.1, bigify kv.2)) = true
    exact ctorFreeMembers_map_bigify ms h
  | arr es =>
    show ctorFreeList (es.map bigify) = true
    exact ctorFreeList_map_bigify es h
  | null => rfl
  | bool b => rfl
  | num n => rfl
  | big n => rfl
  | str s => rfl

theorem clauseSome_bigify (v : Json) : clauseSome (bigify v) = clauseSome v := by
  cases v <;> rfl

theorem clauseSome_bigifyChildren (v : Json) :
    clauseSome (bigifyChildren v) = clauseSome v := by
  cases v <;> rfl

theorem clauseSome_sanitizeC (v : Json) (pk : Option String) :
    clauseSome (sanitizeC v pk) = clauseSome v := by
  cases v with
  | obj ms =>
    rw [sanitizeC_obj]
    split_ifs <;> rfl
  | arr es =>
    rw [sanitizeC_arr]
    split_ifs <;> rfl
  | null => rfl
  | bool b => rfl
  | num n => rfl
  | big n => rfl
  | str s => rfl

end Mdk

namespace Mdk

theorem getField_isSome_fieldsC (ms : List (String × Json)) (fields : List String)
    (k : String) :
    (getField (sanitizeFieldsC ms fields) k).isSome = (getField ms k).isSome :=
  isSome_getField_map
    (fun k v => if fields.contains k then bigify v else sanitizeC v (some k)) ms k

theorem isSomeClause_fieldsC (ms : List (String × Json)) (fields : List String) :
    isSomeClause (sanitizeFieldsC ms fields) = isSomeClause ms := by
  have h : ∀ v, clauseSome
      ((fun k v => if fields.contains k then bigify v else sanitizeC v (some k)) "clause" v) =
      clauseSome v := by
    intro v
    show clauseSome
      (if fields.contains "clause" then bigify v else sanitizeC v (some "clause")) =
      clauseSome v
    by_cases hc : fields.contains "clause" = true
    · rw [if_pos hc]
      exact clauseSome_bigify v
    · rw [if_neg hc]
      exact clauseSome_sanitizeC v (some "clause")
  exact isSomeClause_map
    (fun k v => if fields.contains k then bigify v else sanitizeC v (some k)) ms h

theorem getField_isSome_eachC (ms : List (String × Json)) (k : String) :
    (getField (sanitizeEachMemberC ms) k).isSome = (getField ms k).isSome :=
  isSome_getField_map (fun k v => sanitizeC v (some k)) ms k

theorem isSomeClause_eachC (ms : List (String × Json)) :
    isSomeClause (sanitizeEachMemberC ms) = isSomeClause ms :=
  isSomeClause_map (fun k v => sanitizeC v (some k)) ms
    (fun v => clauseSome_sanitizeC v (some "clause"))

theorem getField_isSome_additional2 (ms : List (String × Json)) (k : String) :
    (getField (sanitizeAdditionalMembers ms 2) k).isSome = (getField ms k).isSome := by
  rw [sanitizeAdditionalMembers_two]
  exact isSome_getField_map (fun _ v => bigifyChildren v) ms k

theorem isSomeClause_additional2 (ms : List (String × Json)) :
    isSomeClause (sanitizeAdditionalMembers ms 2) = isSomeClause ms := by
  rw [sanitizeAdditionalMembers_two]
  exact isSomeClause_map (fun _ v => bigifyChildren v) ms
    (fun v => clauseSome_bigifyChildren v)

theorem getField_isSome_sMetaMembers (ms : List (String × Json)) (k : String) :
    (getField (sanitizeMetadatumMembers ms) k).isSome = (getField ms k).isSome := by
  rw [sanitizeMetadatumMembers_as_map]
  exact isSome_getField_map (fun _ v => metaVal v) ms k

theorem isSomeClause_sMetaMembers (ms : List (String × Json)) :
    isSomeClause (sanitizeMetadatumMembers ms) = isSomeClause ms := by
  rw [sanitizeMetadatumMembers_as_map]
  exact isSomeClause_map (fun _ v => metaVal v) ms (fun v => clauseSome_metaVal v)

theorem getField_isSome_fromC (ms : List (String × Json)) (k : String) :
    (getField (sanitizeFromMemberC ms) k).isSome = (getField ms k).isSome := by
  rw [sanitizeFromMemberC_as_map]
  exact isSome_getField_map
    (fun k v => if k = "from" then sanitizeC v (some "from") else v) ms k

theorem isSomeClause_fromC (ms : List (String × Json)) :
    isSomeClause (sanitizeFromMemberC ms) = isSomeClause ms := by
  rw [sanitizeFromMemberC_as_map]
  have h : ∀ v, clauseSome
      ((fun k v => if k = "from" then sanitizeC v (some "from") else v) "clause" v) =
      clauseSome v := by
    intro v
    show clauseSome (if "clause" = "from" then sanitizeC v (some "from") else v) = clauseSome v
    rw [if_neg (by decide)]
  exact isSomeClause_map
    (fun k v => if k = "from" then sanitizeC v (some "from") else v) ms h

/-- Sanitizing an object yields an object with the same key set (up to
lookup success) and the same clause shape. -/
theorem sanitizeC_obj_members (ms : List (String × Json)) (pk : Option String) :
    ∃ ms2, sanitizeC (.obj ms) pk = .obj ms2 ∧
      (∀ k, (getField ms2 k).isSome = (getField ms k).isSome) ∧
      isSomeClause ms2 = isSomeClause ms := by
  rw [sanitizeC_obj]
  split_ifs with c1 c2 c3 c4
  · exact ⟨_, rfl, fun k => getField_isSome_fieldsC ms _ k, isSomeClause_fieldsC ms _⟩
  · refine ⟨sanitizeAdditionalMembers ms 2, rfl, ?_, ?_⟩
    · exact fun k => getField_isSome_additional2 ms k
    · exact isSomeClause_additional2 ms
  · refine ⟨sanitizeFromMemberC (sanitizeFieldsC ms ["atLeast"]), rfl, ?_, ?_⟩
    · intro k
      rw [getField_isSome_fromC, getField_isSome_fieldsC]
    · rw [isSomeClause_fromC, isSomeClause_fieldsC]
  · refine ⟨sanitizeMetadatumMembers ms, rfl, ?_, ?_⟩
    · exact fun k => getField_isSome_sMetaMembers ms k
    · exact isSomeClause_sMetaMembers ms
  · exact ⟨_, rfl, fun k => getField_isSome_eachC ms k, isSomeClause_eachC ms⟩

/-- Sanitizing an array yields an array. -/
theorem sanitizeC_arr_is_arr (es : List Json) (pk : Option String) :
    ∃ es2, sanitizeC (.arr es) pk = .arr es2 := by
  rw [sanitizeC_arr]
  split_ifs
  · exact ⟨sanitizeAdditionalList es 2, rfl⟩
  · exact ⟨sanitizeMetadatumList es, rfl⟩
  · exact ⟨_, rfl⟩

/-- Demoting an object gives an object with the same lookups and clause
shape. -/
theorem demote_obj_members (ms : List (String × Json)) :
    demote (.obj ms) = .obj (demoteMembers ms) := rfl

end Mdk

namespace Mdk

theorem sanitizeAdditionalFields_obj (ms : List (String × Json)) (depth : Nat) :
    sanitizeAdditionalFields (.obj ms) depth = .obj (sanitizeAdditionalMembers ms depth) := rfl

theorem sanitizeAdditionalFields_arr (es : List Json) (depth : Nat) :
    sanitizeAdditionalFields (.arr es) depth = .arr (sanitizeAdditionalList es depth) := rfl

theorem sanitizeMetadatum_obj (ms : List (String × Json)) :
    sanitizeMetadatum (.obj ms) = .obj (sanitizeMetadatumMembers ms) := rfl

theorem sanitizeMetadatum_arr (es : List Json) :
    sanitizeMetadatum (.arr es) = .arr (sanitizeMetadatumList es) := rfl

theorem demote_arr_elems (es : List Json) : demote (.arr es) = .arr (demoteList es) := rfl

theorem additionalMembers2_idem :
    ∀ ms : List (String × Json),
      sanitizeAdditionalMembers (sanitizeAdditionalMembers ms 2) 2 =
        sanitizeAdditionalMembers ms 2
  | [] => rfl
  | (k, v) :: ms => by
    show (k, sanitizeAdditionalFields (sanitizeAdditionalFields v 1) 1) ::
        sanitizeAdditionalMembers (sanitizeAdditionalMembers ms 2) 2 =
      (k, sanitizeAdditionalFields v 1) :: sanitizeAdditionalMembers ms 2
    rw [sanitizeAdditionalFields_one v, sanitizeAdditionalFields_one (bigifyChildren v),
      bigifyChildren_idem v, additionalMembers2_idem ms]

theorem additionalList2_idem :
    ∀ es : List Json,
      sanitizeAdditionalList (sanitizeAdditionalList es 2) 2 = sanitizeAdditionalList es 2
  | [] => rfl
  | v :: es => by
    show sanitizeAdditionalFields (sanitizeAdditionalFields v 1) 1 ::
        sanitizeAdditionalList (sanitizeAdditionalList es 2) 2 =
      sanitizeAdditionalFields v 1 :: sanitizeAdditionalList es 2
    rw [sanitizeAdditionalFields_one v, sanitizeAdditionalFields_one (bigifyChildren v),
      bigifyChildren_idem v, additionalList2_idem es]

theorem additionalMembers2_demote_stable :
    ∀ ms : List (String × Json), rawShapedMembers ms = true →
      sanitizeAdditionalMembers (demoteMembers (sanitizeAdditionalMembers ms 2)) 2 =
        sanitizeAdditionalMembers ms 2
  | [], _ => rfl
  | (k, v) :: ms, h => by
    rw [rawShapedMembers, Bool.and_eq_true, Bool.and_eq_true] at h
    show (k, sanitizeAdditionalFields (demote (sanitizeAdditionalFields v 1)) 1) ::
        sanitizeAdditionalMembers (demoteMembers (sanitizeAdditionalMembers ms 2)) 2 =
      (k, sanitizeAdditionalFields v 1) :: sanitizeAdditionalMembers ms 2
    rw [sanitizeAdditionalFields_one v,
      sanitizeAdditionalFields_one (demote (bigifyChildren v)),
      bigifyChildren_demote_stable v h.1.2, additionalMembers2_demote_stable ms h.2]

theorem additionalList2_demote_stable :
    ∀ es : List Json, rawShapedList es = true →
      sanitizeAdditionalList (demoteList (sanitizeAdditionalList es 2)) 2 =
        sanitizeAdditionalList es 2
  | [], _ => rfl
  | v :: es, h => by
    rw [rawShapedList, Bool.and_eq_true] at h
    show sanitizeAdditionalFields (demote (sanitizeAdditionalFields v 1)) 1 ::
        sanitizeAdditionalList (demoteList (sanitizeAdditionalList es 2)) 2 =
      sanitizeAdditionalFields v 1 :: sanitizeAdditionalList es 2
    rw [sanitizeAdditionalFields_one v,
      sanitizeAdditionalFields_one (demote (bigifyChildren v)),
      bigifyChildren_demote_stable v h.1, additionalList2_demote_stable es h.2]

theorem numsSafeMembers_additional2 :
    ∀ ms : List (String × Json), rawShapedMembers ms = true →
      numsSafeMembers (sanitizeAdditionalMembers ms 2) = true
  | [], _ => rfl
  | (k, v) :: ms, h => by
    rw [rawShapedMembers, Bool.and_eq_true, Bool.and_eq_true] at h
    show numsSafeMembers ((k, sanitizeAdditionalFields v 1) ::
      sanitizeAdditionalMembers ms 2) = true
    rw [numsSafeMembers, Bool.and_eq_true, sanitizeAdditionalFields_one v]
    exact ⟨numsSafe_bigifyChildren v (rawShaped_numsSafe v h.1.2),
      numsSafeMembers_additional2 ms h.2⟩

theorem numsSafeList_additional2 :
    ∀ es : List Json, rawShapedList es = true →
      numsSafeList (sanitizeAdditionalList es 2) = true
  | [], _ => rfl
  | v :: es, h => by
    rw [rawShapedList, Bool.and_eq_true] at h
    show numsSafeList (sanitizeAdditionalFields v 1 :: sanitizeAdditionalList es 2) = true
    rw [numsSafeList, Bool.and_eq_true, sanitizeAdditionalFields_one v]
    exact ⟨numsSafe_bigifyChildren v (rawShaped_numsSafe v h.1),
      numsSafeList_additional2 es h.2⟩

theorem ctorFreeMembers_additional2 :
    ∀ ms : List (String × Json), rawShapedMembers ms = true →
      ctorFreeMembers (sanitizeAdditionalMembers ms 2) = true
  | [], _ => rfl
  | (k, v) :: ms, h => by
    rw [rawShapedMembers, Bool.and_eq_true, Bool.and_eq_true] at h
    show ctorFreeMembers ((k, sanitizeAdditionalFields v 1) ::
      sanitizeAdditionalMembers ms 2) = true
    rw [ctorFreeMembers, Bool.and_eq_true, Bool.and_eq_true, sanitizeAdditionalFields_one v]
    exact ⟨⟨h.1.1, ctorFree_bigifyChildren v (rawShaped_ctorFree v h.1.2)⟩,
      ctorFreeMembers_additional2 ms h.2⟩

theorem ctorFreeList_additional2 :
    ∀ es : List Json, rawShapedList es = true →
      ctorFreeList (sanitizeAdditionalList es 2) = true
  | [], _ => rfl
  | v :: es, h => by
    rw [rawShapedList, Bool.and_eq_true] at h
    show ctorFreeList (sanitizeAdditionalFields v 1 :: sanitizeAdditionalList es 2) = true
    rw [ctorFreeList, Bool.and_eq_true, sanitizeAdditionalFields_one v]
    exact ⟨ctorFree_bigifyChildren v (rawShaped_ctorFree v h.1),
      ctorFreeList_additional2 es h.2⟩

theorem sanitizeFieldsC_cons (k : String) (v : Json) (ms : List (String × Json))
    (fields : List String) :
    sanitizeFieldsC ((k, v) :: ms) fields =
      (k, if fields.contains k then bigify v else sanitizeC v (some k)) ::
        sanitizeFieldsC ms fields := rfl

theorem sanitizeEachMemberC_cons (k : String) (v : Json) (ms : List (String × Json)) :
    sanitizeEachMemberC ((k, v) :: ms) =
      (k, sanitizeC v (some k)) :: sanitizeEachMemberC ms := rfl

theorem sanitizeFromMemberC_cons (k : String) (v : Json) (ms : List (String × Json)) :
    sanitizeFromMemberC ((k, v) :: ms) =
      (if k = "from" then (k, sanitizeC v (some "from")) else (k, v)) ::
        sanitizeFromMemberC ms := rfl

end Mdk

namespace Mdk

/-- Stability of the sanitation pass on raw parses: sanitizing is
idempotent, survives a serialize/re-parse demotion, and produces values
whose ordinary numbers are safe and whose members avoid `constructor`. -/
theorem sanitize_stable : ∀ N : Nat,
    (∀ u pk, jsize u ≤ N → rawShaped u = true →
      sanitizeC (sanitizeC u pk) pk = sanitizeC u pk ∧
      sanitizeC (demote (sanitizeC u pk)) pk = sanitizeC u pk ∧
      numsSafe (sanitizeC u pk) = true ∧ ctorFree (sanitizeC u pk) = true) ∧
    (∀ ms fields, jsizeMembers ms ≤ N → rawShapedMembers ms = true →
      sanitizeFieldsC (sanitizeFieldsC ms fields) fields = sanitizeFieldsC ms fields ∧
      sanitizeFieldsC (demoteMembers (sanitizeFieldsC ms fields)) fields =
        sanitizeFieldsC ms fields ∧
      numsSafeMembers (sanitizeFieldsC ms fields) = true ∧
      ctorFreeMembers (sanitizeFieldsC ms fields) = true) ∧
    (∀ ms, jsizeMembers ms ≤ N → rawShapedMembers ms = true →
      sanitizeEachMemberC (sanitizeEachMemberC ms) = sanitizeEachMemberC ms ∧
      sanitizeEachMemberC (demoteMembers (sanitizeEachMemberC ms)) =
        sanitizeEachMemberC ms ∧
      numsSafeMembers (sanitizeEachMemberC ms) = true ∧
      ctorFreeMembers (sanitizeEachMemberC ms) = true) ∧
    (∀ es i, jsizeList es ≤ N → rawShapedList es = true →
      sanitizeEachElemC (sanitizeEachElemC es i) i = sanitizeEachElemC es i ∧
      sanitizeEachElemC (demoteList (sanitizeEachElemC es i)) i = sanitizeEachElemC es i ∧
      numsSafeList (sanitizeEachElemC es i) = true ∧
      ctorFreeList (sanitizeEachElemC es i) = true) ∧
    (∀ ms, jsizeMembers ms ≤ N → rawShapedMembers ms = true →
      sanitizeFromMemberC (sanitizeFieldsC ms ["atLeast"]) =
        sanitizeFieldsC ms ["atLeast"]) := by
  intro N
  induction N with
  | zero =>
    refine ⟨?_, ?_, ?_, ?_, ?_⟩
    · intro u pk h _
      have := jsize_pos u
      omega
    · intro ms fields h _
      have := jsizeMembers_pos ms
      omega
    · intro ms h _
      have := jsizeMembers_pos ms
      omega
    · intro es i h _
      have := jsizeList_pos es
      omega
    · intro ms h _
      have := jsizeMembers_pos ms
      omega
  | succ N ih =>
    obtain ⟨ihM, ihF, ihE, ihL, ihFRM⟩ := ih
    refine ⟨?_, ?_, ?_, ?_, ?_⟩
    · -- the value level
      intro u pk hsz hraw
      cases u with
      | null => exact ⟨rfl, rfl, rfl, rfl⟩
      | bool b => exact ⟨rfl, rfl, rfl, rfl⟩
      | str s => exact ⟨rfl, rfl, rfl, rfl⟩
      | num n => exact ⟨rfl, rfl, hraw, rfl⟩
      | big n =>
        refine ⟨rfl, ?_, rfl, rfl⟩
        rw [sanitizeC_big n pk, rawShaped_demote _ hraw]
        exact sanitizeC_big n pk
      | obj ms =>
        have hrawm : rawShapedMembers ms = true := hraw
        have hszeq : jsize (Json.obj ms) = 1 + jsizeMembers ms := rfl
        have hms : jsizeMembers ms ≤ N := by omega
        rw [sanitizeC_obj]
        split_ifs with c1 c2 c3 c4
        · obtain ⟨f1, f2, f3, f4⟩ := ihF ms ["lovelace"] hms hrawm
          refine ⟨?_, ?_, f3, f4⟩
          · rw [sanitizeC_obj]
            simp only [getField_isSome_fieldsC]
            rw [if_pos c1, f1]
          · rw [demote_obj_members, sanitizeC_obj]
            simp only [getField_isSome_demoteMembers, getField_isSome_fieldsC]
            rw [if_pos c1, f2]
        · refine ⟨?_, ?_, ?_, ?_⟩
          · rw [sanitizeAdditionalFields_obj, sanitizeC_obj]
            simp only [getField_isSome_additional2]
            rw [if_neg c1, if_pos c2, sanitizeAdditionalFields_obj, additionalMembers2_idem]
          · rw [sanitizeAdditionalFields_obj, demote_obj_members, sanitizeC_obj]
            simp only [getField_isSome_demoteMembers, getField_isSome_additional2]
            rw [if_neg c1, if_pos c2, sanitizeAdditionalFields_obj,
              additionalMembers2_demote_stable ms hrawm]
          · rw [sanitizeAdditionalFields_obj]
            exact numsSafeMembers_additional2 ms hrawm
          · rw [sanitizeAdditionalFields_obj]
            exact ctorFreeMembers_additional2 ms hrawm
        · obtain ⟨f1, f2, f3, f4⟩ := ihF ms ["atLeast"] hms hrawm
          have hFRM := ihFRM ms hms hrawm
          rw [hFRM]
          refine ⟨?_, ?_, f3, f4⟩
          · rw [sanitizeC_obj]
            simp only [getField_isSome_fieldsC, isSomeClause_fieldsC]
            rw [if_neg c1, if_neg c2, if_pos c3, f1, hFRM]
          · rw [demote_obj_members, sanitizeC_obj]
            simp only [getField_isSome_demoteMembers, getField_isSome_fieldsC,
              isSomeClause_demoteMembers, isSomeClause_fieldsC]
            rw [if_neg c1, if_neg c2, if_pos c3, f2, hFRM]
        · refine ⟨?_, ?_, ?_, ?_⟩
          · rw [sanitizeMetadatum_obj, sanitizeC_obj]
            simp only [getField_isSome_sMetaMembers, isSomeClause_sMetaMembers]
            rw [if_neg c1, if_neg c2, if_neg c3, if_pos c4, sanitizeMetadatum_obj,
              sMetaMembers_idem]
          · rw [sanitizeMetadatum_obj, demote_obj_members, sanitizeC_obj]
            simp only [getField_isSome_demoteMembers, getField_isSome_sMetaMembers,
              isSomeClause_demoteMembers, isSomeClause_sMetaMembers]
            rw [if_neg c1, if_neg c2, if_neg c3, if_pos c4, sanitizeMetadatum_obj,
              sMetaMembers_demote_stable]
          · rw [sanitizeMetadatum_obj]
            exact numsSafeMembers_sMeta ms
          · rw [sanitizeMetadatum_obj]
            exact ctorFreeMembers_sMeta ms (rawShapedMembers_ctorFree ms hrawm)
        · obtain ⟨e1, e2, e3, e4⟩ := ihE ms hms hrawm
          refine ⟨?_, ?_, e3, e4⟩
          · rw [sanitizeC_obj]
            simp only [getField_isSome_eachC, isSomeClause_eachC]
            rw [if_neg c1, if_neg c2, if_neg c3, if_neg c4, e1]
          · rw [demote_obj_members, sanitizeC_obj]
            simp only [getField_isSome_demoteMembers, getField_isSome_eachC,
              isSomeClause_demoteMembers, isSomeClause_eachC]
            rw [if_neg c1, if_neg c2, if_neg c3, if_neg c4, e2]
      | arr es =>
        have hrawl : rawShapedList es = true := hraw
        have hszeq : jsize (Json.arr es) = 1 + jsizeList es := rfl
        have hes : jsizeList es ≤ N := by omega
        rw [sanitizeC_arr]
        split_ifs with d1 d2
        · refine ⟨?_, ?_, ?_, ?_⟩
          · rw [sanitizeAdditionalFields_arr, sanitizeC_arr, if_pos d1,
              sanitizeAdditionalFields_arr, additionalList2_idem]
          · rw [sanitizeAdditionalFields_arr, demote_arr_elems, sanitizeC_arr, if_pos d1,
              sanitizeAdditionalFields_arr, additionalList2_demote_stable es hrawl]
          · rw [sanitizeAdditionalFields_arr]
            exact numsSafeList_additional2 es hrawl
          · rw [sanitizeAdditionalFields_arr]
            exact ctorFreeList_additional2 es hrawl
        · refine ⟨?_, ?_, ?_, ?_⟩
          · rw [sanitizeMetadatum_arr, sanitizeC_arr, if_neg d1, if_pos d2,
              sanitizeMetadatum_arr, sMetaList_idem]
          · rw [sanitizeMetadatum_arr, demote_arr_elems, sanitizeC_arr, if_neg d1, if_pos d2,
              sanitizeMetadatum_arr, sMetaList_demote_stable]
          · rw [sanitizeMetadatum_arr]
            exact numsSafeList_sMeta es
          · rw [sanitizeMetadatum_arr]
            exact ctorFreeList_sMeta es (rawShapedList_ctorFree es hrawl)
        · obtain ⟨l1, l2, l3, l4⟩ := ihL es 0 hes hrawl
          refine ⟨?_, ?_, l3, l4⟩
          · rw [sanitizeC_arr, if_neg d1, if_neg d2, l1]
          · rw [demote_arr_elems, sanitizeC_arr, if_neg d1, if_neg d2, l2]
    · -- sanitizeFields
      intro ms fields hsz hraw
      cases ms with
      | nil => exact ⟨rfl, rfl, rfl, rfl⟩
      | cons kv ms =>
        obtain ⟨k, v⟩ := kv
        rw [rawShapedMembers, Bool.and_eq_true, Bool.and_eq_true] at hraw
        have hszeq : jsizeMembers ((k, v) :: ms) = 2 + jsize v + jsizeMembers ms := rfl
        have hpv := jsize_pos v
        have hpm := jsizeMembers_pos ms
        have hszv : jsize v ≤ N := by omega
        have hszm : jsizeMembers ms ≤ N := by omega
        obtain ⟨m1, m2, m3, m4⟩ := ihM v (some k) hszv hraw.1.2
        obtain ⟨t1, t2, t3, t4⟩ := ihF ms fields hszm hraw.2
        have hFidem : (if fields.contains k then
              bigify (if fields.contains k then bigify v else sanitizeC v (some k))
            else sanitizeC (if fields.contains k then bigify v else sanitizeC v (some k))
              (some k)) =
            (if fields.contains k then bigify v else sanitizeC v (some k)) := by
          by_cases hk : fields.contains k = true
          · simp only [if_pos hk]
            exact bigify_idem v
          · simp only [if_neg hk]
            exact m1
        have hFdem : (if fields.contains k then
              bigify (demote (if fields.contains k then bigify v else sanitizeC v (some k)))
            else sanitizeC (demote (if fields.contains k then bigify v
              else sanitizeC v (some k))) (some k)) =
            (if fields.contains k then bigify v else sanitizeC v (some k)) := by
          by_cases hk : fields.contains k = true
          · simp only [if_pos hk]
            exact bigify_demote_bigify v hraw.1.2
          · simp only [if_neg hk]
            exact m2
        have hFnum : numsSafe (if fields.contains k then bigify v
            else sanitizeC v (some k)) = true := by
          by_cases hk : fields.contains k = true
          · simp only [if_pos hk]
            exact numsSafe_bigify v (rawShaped_numsSafe v hraw.1.2)
          · simp only [if_neg hk]
            exact m3
        have hFctor : ctorFree (if fields.contains k then bigify v
            else sanitizeC v (some k)) = true := by
          by_cases hk : fields.contains k = true
          · simp only [if_pos hk]
            exact ctorFree_bigify v (rawShaped_ctorFree v hraw.1.2)
          · simp only [if_neg hk]
            exact m4
        refine ⟨?_, ?_, ?_, ?_⟩
        · rw [sanitizeFieldsC_cons, sanitizeFieldsC_cons, hFidem, t1]
        · rw [sanitizeFieldsC_cons, demoteMembers, sanitizeFieldsC_cons, hFdem, t2]
        · rw [sanitizeFieldsC_cons, numsSafeMembers, Bool.and_eq_true]
          exact ⟨hFnum, t3⟩
        · rw [sanitizeFieldsC_cons, ctorFreeMembers, Bool.and_eq_true, Bool.and_eq_true]
          exact ⟨⟨hraw.1.1, hFctor⟩, t4⟩
    · -- the default member pass
      intro ms hsz hraw
      cases ms with
      | nil => exact ⟨rfl, rfl, rfl, rfl⟩
      | cons kv ms =>
        obtain ⟨k, v⟩ := kv
        rw [rawShapedMembers, Bool.and_eq_true, Bool.and_eq_true] at hraw
        have hszeq : jsizeMembers ((k, v) :: ms) = 2 + jsize v + jsizeMembers ms := rfl
        have hpv := jsize_pos v
        have hpm := jsizeMembers_pos ms
        have hszv : jsize v ≤ N := by omega
        have hszm : jsizeMembers ms ≤ N := by omega
        obtain ⟨m1, m2, m3, m4⟩ := ihM v (some k) hszv hraw.1.2
        obtain ⟨t1, t2, t3, t4⟩ := ihE ms hszm hraw.2
        refine ⟨?_, ?_, ?_, ?_⟩
        · rw [sanitizeEachMemberC_cons, sanitizeEachMemberC_cons, m1, t1]
        · rw [sanitizeEachMemberC_cons, demoteMembers, sanitizeEachMemberC_cons, m2, t2]
        · rw [sanitizeEachMemberC_cons, numsSafeMembers, Bool.and_eq_true]
          exact ⟨m3, t3⟩
        · rw [sanitizeEachMemberC_cons, ctorFreeMembers, Bool.and_eq_true, Bool.and_eq_true]
          exact ⟨⟨hraw.1.1, m4⟩, t4⟩
    · -- the default element pass
      intro es i hsz hraw
      cases es with
      | nil => exact ⟨rfl, rfl, rfl, rfl⟩
      | cons v es =>
        rw [rawShapedList, Bool.and_eq_true] at hraw
        have hszeq : jsizeList (v :: es) = 1 + jsize v + jsizeList es := rfl
        have hpv := jsize_pos v
        have hpl := jsizeList_pos es
        have hszv : jsize v ≤ N := by omega
        have hszl : jsizeList es ≤ N := by omega
        obtain ⟨m1, m2, m3, m4⟩ := ihM v (some (toString i)) hszv hraw.1
        obtain ⟨t1, t2, t3, t4⟩ := ihL es (i + 1) hszl hraw.2
        refine ⟨?_, ?_, ?_, ?_⟩
        · rw [sanitizeEachElemC, sanitizeEachElemC, m1, t1]
        · rw [sanitizeEachElemC, demoteList, sanitizeEachElemC, m2, t2]
        · rw [sanitizeEachElemC, numsSafeList, Bool.and_eq_true]
          exact ⟨m3, t3⟩
        · rw [sanitizeEachElemC, ctorFreeList, Bool.and_eq_true]
          exact ⟨m4, t4⟩
    · -- the clause second pass collapses
      intro ms hsz hraw
      cases ms with
      | nil => exact rfl
      | cons kv ms =>
        obtain ⟨k, v⟩ := kv
        rw [rawShapedMembers, Bool.and_eq_true, Bool.and_eq_true] at hraw
        have hszeq : jsizeMembers ((k, v) :: ms) = 2 + jsize v + jsizeMembers ms := rfl
        have hpv := jsize_pos v
        have hpm := jsizeMembers_pos ms
        have hszv : jsize v ≤ N := by omega
        have hszm : jsizeMembers ms ≤ N := by omega
        rw [sanitizeFieldsC_cons, sanitizeFromMemberC_cons, ihFRM ms hszm hraw.2]
        by_cases hk : k = "from"
        · rw [if_pos hk]
          subst hk
          rw [if_neg (show ¬(["atLeast"].contains "from" = true) from by decide)]
          rw [(ihM v (some "from") hszv hraw.1.2).1]
        · rw [if_neg hk]

end Mdk

namespace Mdk

theorem getField_fieldsC (ms : List (String × Json)) (fields : List String) (k : String) :
    getField (sanitizeFieldsC ms fields) k =
      Option.map (fun v => if fields.contains k then bigify v else sanitizeC v (some k))
        (getField ms k) :=
  getField_map_value
    (fun k v => if fields.contains k then bigify v else sanitizeC v (some k)) ms k

/-- The parent key influences sanitation only through the `mint`, `value`
and `labels` comparisons. -/
theorem sanitizeC_pk_congr (x : Json) (pk1 pk2 : Option String)
    (h1m : pk1 ≠ some "mint") (h1v : pk1 ≠ some "value") (h1l : pk1 ≠ some "labels")
    (h2m : pk2 ≠ some "mint") (h2v : pk2 ≠ some "value") (h2l : pk2 ≠ some "labels") :
    sanitizeC x pk1 = sanitizeC x pk2 := by
  cases x with
  | obj ms =>
    rw [sanitizeC_obj, sanitizeC_obj]
    simp [h1m, h1v, h1l, h2m, h2v, h2l]
  | arr es =>
    rw [sanitizeC_arr, sanitizeC_arr]
    simp [h1m, h1v, h1l, h2m, h2v, h2l]
  | null => rfl
  | bool b => rfl
  | num n => rfl
  | big n => rfl
  | str s => rfl

/-- Away from the clause branch, the returned value is the mutated
argument. -/
theorem sanitizeRetC_eq_mut (u : Json) (pk : Option String)
    (h : ∀ ms, u = .obj ms → (getField ms "lovelace").isSome = true ∨
      (getField ms "ada").isSome = true ∨ isSomeClause ms = false) :
    sanitizeRetC u pk = some (sanitizeC u pk) := by
  cases u with
  | null => rfl
  | bool b => rfl
  | num n => rfl
  | big n => rfl
  | str s => rfl
  | arr es =>
    rw [sanitizeRetC_arr, sanitizeC_arr]
    split_ifs <;> rfl
  | obj ms =>
    rw [sanitizeRetC_obj, sanitizeC_obj]
    split_ifs with c1 c2 c3 c4
    · rfl
    · rfl
    · rcases h ms rfl with hlov | hada | hcl
      · exact absurd hlov c1
      · exact absurd (by simp [hada]) c2
      · exact absurd c3 (by simp [hcl])
    · rfl
    · rfl

/-- The clause chain: the value returned for an already sanitized `from`
sub-tree is either undefined or a stable, well-shaped value. -/
theorem sanitizeRet_chain : ∀ (N : Nat) (v : Json), jsize v ≤ N → rawShaped v = true →
    sanitizeRetC (sanitizeC v (some "from")) (some "from") = none ∨
    ∃ w, sanitizeRetC (sanitizeC v (some "from")) (some "from") = some w ∧
      numsSafe w = true ∧ ctorFree w = true ∧
      ∀ pk2, pk2 ≠ some "mint" → pk2 ≠ some "value" → pk2 ≠ some "labels" →
        sanitizeRetC (demote w) pk2 = some w := by
  intro N
  induction N with
  | zero =>
    intro v h _
    have := jsize_pos v
    omega
  | succ N ih =>
    intro v hsz hraw
    obtain ⟨s1, s2, s3, s4⟩ :=
      (sanitize_stable (jsize v)).1 v (some "from") (le_refl _) hraw
    cases v with
    | null => exact Or.inr ⟨.null, rfl, rfl, rfl, fun pk2 _ _ _ => rfl⟩
    | bool b => exact Or.inr ⟨.bool b, rfl, rfl, rfl, fun pk2 _ _ _ => rfl⟩
    | str s => exact Or.inr ⟨.str s, rfl, rfl, rfl, fun pk2 _ _ _ => rfl⟩
    | num n => exact Or.inr ⟨.num n, rfl, hraw, rfl, fun pk2 _ _ _ => rfl⟩
    | big n =>
      refine Or.inr ⟨.big n, rfl, rfl, rfl, fun pk2 _ _ _ => ?_⟩
      rw [rawShaped_demote _ hraw]
      rfl
    | arr es =>
      obtain ⟨es2, hes2⟩ := sanitizeC_arr_is_arr es (some "from")
      have hno : ∀ ms, sanitizeC (Json.arr es) (some "from") = .obj ms →
          (getField ms "lovelace").isSome = true ∨
          (getField ms "ada").isSome = true ∨ isSomeClause ms = false := by
        intro ms hmeq
        rw [hes2] at hmeq
        exact Json.noConfusion hmeq
      refine Or.inr ⟨sanitizeC (Json.arr es) (some "from"), ?_, s3, s4, ?_⟩
      · rw [sanitizeRetC_eq_mut _ _ hno, s1]
      · intro pk2 p2m p2v p2l
        have hno2 : ∀ ms, demote (sanitizeC (Json.arr es) (some "from")) = .obj ms →
            (getField ms "lovelace").isSome = true ∨
            (getField ms "ada").isSome = true ∨ isSomeClause ms = false := by
          intro ms hmeq
          rw [hes2, demote_arr_elems] at hmeq
          exact Json.noConfusion hmeq
        rw [sanitizeRetC_eq_mut _ _ hno2,
          sanitizeC_pk_congr _ pk2 (some "from") p2m p2v p2l (by decide) (by decide)
            (by decide), s2]
    | obj msv =>
      have hrawm : rawShapedMembers msv = true := hraw
      obtain ⟨ms1, hms1, hpres, hclp⟩ := sanitizeC_obj_members msv (some "from")
      by_cases hchase : (getField msv "lovelace").isSome = false ∧
          (getField msv "ada").isSome = false ∧ isSomeClause msv = true
      · obtain ⟨hlovF, hadaF, hclT⟩ := hchase
        have hszeq : jsize (Json.obj msv) = 1 + jsizeMembers msv := rfl
        have hms : jsizeMembers msv ≤ N := by omega
        have hFRM := (sanitize_stable (jsizeMembers msv)).2.2.2.2 msv (le_refl _) hrawm
        have hFLD :=
          ((sanitize_stable (jsizeMembers msv)).2.1 msv ["atLeast"] (le_refl _) hrawm).1
        have hf1 : sanitizeC (Json.obj msv) (some "from") =
            .obj (sanitizeFieldsC msv ["atLeast"]) := by
          rw [sanitizeC_obj, if_neg (by rw [hlovF]; decide),
            if_neg (by rw [hadaF]; decide), if_pos hclT, hFRM]
        rw [hf1, sanitizeRetC_obj]
        simp only [getField_isSome_fieldsC, isSomeClause_fieldsC]
        split_ifs with e1 e2
        · exact absurd e1 (by rw [hlovF]; decide)
        · exact absurd e2 (by rw [hadaF]; decide)
        · rw [hFLD, getField_fieldsC]
          cases hfrom : getField msv "from" with
          | none => exact Or.inl rfl
          | some v0 =>
            rw [Option.map_some',
              if_neg (show ¬(["atLeast"].contains "from" = true) from by decide)]
            have hv0raw : rawShaped v0 = true :=
              (rawShapedMembers_mem msv hrawm ("from", v0)
                (getField_mem msv "from" v0 hfrom)).2
            have hv0sz : jsize v0 ≤ N := by
              have := getField_jsize hfrom
              omega
            exact ih v0 hv0sz hv0raw
      · have hdisj : (getField msv "lovelace").isSome = true ∨
            (getField msv "ada").isSome = true ∨ isSomeClause msv = false := by
          by_cases h1 : (getField msv "lovelace").isSome = true
          · exact Or.inl h1
          · by_cases h2 : (getField msv "ada").isSome = true
            · exact Or.inr (Or.inl h2)
            · by_cases h3 : isSomeClause msv = true
              · exact absurd ⟨by simpa using h1, by simpa using h2, h3⟩ hchase
              · exact Or.inr (Or.inr (by simpa using h3))
        have hno : ∀ ms, sanitizeC (Json.obj msv) (some "from") = .obj ms →
            (getField ms "lovelace").isSome = true ∨
            (getField ms "ada").isSome = true ∨ isSomeClause ms = false := by
          intro ms hmeq
          rw [hms1] at hmeq
          injection hmeq with hmeq2
          subst hmeq2
          rcases hdisj with h | h | h
          · exact Or.inl (by rw [hpres "lovelace"]; exact h)
          · exact Or.inr (Or.inl (by rw [hpres "ada"]; exact h))
          · exact Or.inr (Or.inr (by rw [hclp]; exact h))
        refine Or.inr ⟨sanitizeC (Json.obj msv) (some "from"), ?_, s3, s4, ?_⟩
        · rw [sanitizeRetC_eq_mut _ _ hno, s1]
        · intro pk2 p2m p2v p2l
          have hno2 : ∀ ms, demote (sanitizeC (Json.obj msv) (some "from")) = .obj ms →
              (getField ms "lovelace").isSome = true ∨
              (getField ms "ada").isSome = true ∨ isSomeClause ms = false := by
            intro ms hmeq
            rw [hms1, demote_obj_members] at hmeq
            injection hmeq with hmeq2
            subst hmeq2
            rcases hdisj with h | h | h
            · exact Or.inl (by rw [getField_isSome_demoteMembers, hpres "lovelace"]; exact h)
            · exact Or.inr (Or.inl
                (by rw [getField_isSome_demoteMembers, hpres "ada"]; exact h))
            · exact Or.inr (Or.inr (by rw [isSomeClause_demoteMembers, hclp]; exact h))
          rw [sanitizeRetC_eq_mut _ _ hno2,
            sanitizeC_pk_congr _ pk2 (some "from") p2m p2v p2l (by decide) (by decide)
              (by decide), s2]

end Mdk

namespace Mdk

/-- The top-level sanitation of a raw parse: it either returns undefined
(clause root without `from`), or a well-shaped value that survives a
serialize/re-parse/re-sanitize round trip. -/
theorem sanitizeTop_good (u : Json) (hraw : rawShaped u = true) :
    sanitizeTop u = none ∨
    ∃ w, sanitizeTop u = some w ∧ numsSafe w = true ∧ ctorFree w = true ∧
      sanitizeTop (demote w) = some w := by
  obtain ⟨s1, s2, s3, s4⟩ := (sanitize_stable (jsize u)).1 u none (le_refl _) hraw
  rw [sanitizeTop_eq]
  cases u with
  | null => exact Or.inr ⟨.null, rfl, rfl, rfl, rfl⟩
  | bool b => exact Or.inr ⟨.bool b, rfl, rfl, rfl, rfl⟩
  | str s => exact Or.inr ⟨.str s, rfl, rfl, rfl, rfl⟩
  | num n => exact Or.inr ⟨.num n, rfl, hraw, rfl, rfl⟩
  | big n =>
    refine Or.inr ⟨.big n, rfl, rfl, rfl, ?_⟩
    rw [sanitizeTop_eq, rawShaped_demote _ hraw]
    rfl
  | arr es =>
    obtain ⟨es2, hes2⟩ := sanitizeC_arr_is_arr es none
    have hnoRaw : ∀ ms, Json.arr es = Json.obj ms →
        (getField ms "lovelace").isSome = true ∨
        (getField ms "ada").isSome = true ∨ isSomeClause ms = false :=
      fun ms hmeq => Json.noConfusion hmeq
    refine Or.inr ⟨sanitizeC (Json.arr es) none, ?_, s3, s4, ?_⟩
    · rw [sanitizeRetC_eq_mut _ _ hnoRaw]
    · have hno2 : ∀ ms, demote (sanitizeC (Json.arr es) none) = .obj ms →
          (getField ms "lovelace").isSome = true ∨
          (getField ms "ada").isSome = true ∨ isSomeClause ms = false := by
        intro ms hmeq
        rw [hes2, demote_arr_elems] at hmeq
        exact Json.noConfusion hmeq
      rw [sanitizeTop_eq, sanitizeRetC_eq_mut _ _ hno2, s2]
  | obj msv =>
    have hrawm : rawShapedMembers msv = true := hraw
    obtain ⟨ms1, hms1, hpres, hclp⟩ := sanitizeC_obj_members msv none
    by_cases hchase : (getField msv "lovelace").isSome = false ∧
        (getField msv "ada").isSome = false ∧ isSomeClause msv = true
    · obtain ⟨hlovF, hadaF, hclT⟩ := hchase
      rw [sanitizeRetC_obj]
      split_ifs with e1 e2
      · exact absurd e1 (by rw [hlovF]; decide)
      · exact absurd e2 (by rw [hadaF]; decide)
      · rw [getField_fieldsC]
        cases hfrom : getField msv "from" with
        | none => exact Or.inl rfl
        | some v0 =>
          rw [Option.map_some',
            if_neg (show ¬(["atLeast"].contains "from" = true) from by decide)]
          have hv0raw : rawShaped v0 = true :=
            (rawShapedMembers_mem msv hrawm ("from", v0)
              (getField_mem msv "from" v0 hfrom)).2
          rcases sanitizeRet_chain (jsize v0) v0 (le_refl _) hv0raw with
            hnone | ⟨w, hw, hwn, hwc, hwst⟩
          · exact Or.inl hnone
          · refine Or.inr ⟨w, hw, hwn, hwc, ?_⟩
            rw [sanitizeTop_eq]
            exact hwst none (by decide) (by decide) (by decide)
    · have hdisj : (getField msv "lovelace").isSome = true ∨
          (getField msv "ada").isSome = true ∨ isSomeClause msv = false := by
        by_cases h1 : (getField msv "lovelace").isSome = true
        · exact Or.inl h1
        · by_cases h2 : (getField msv "ada").isSome = true
          · exact Or.inr (Or.inl h2)
          · by_cases h3 : isSomeClause msv = true
            · exact absurd ⟨by simpa using h1, by simpa using h2, h3⟩ hchase
            · exact Or.inr (Or.inr (by simpa using h3))
      have hnoRaw : ∀ ms, Json.obj msv = Json.obj ms →
          (getField ms "lovelace").isSome = true ∨
          (getField ms "ada").isSome = true ∨ isSomeClause ms = false := by
        intro ms hmeq
        injection hmeq with hmeq2
        subst hmeq2
        exact hdisj
      refine Or.inr ⟨sanitizeC (Json.obj msv) none, ?_, s3, s4, ?_⟩
      · rw [sanitizeRetC_eq_mut _ _ hnoRaw]
      · have hno2 : ∀ ms, demote (sanitizeC (Json.obj msv) none) = .obj ms →
            (getField ms "lovelace").isSome = true ∨
            (getField ms "ada").isSome = true ∨ isSomeClause ms = false := by
          intro ms hmeq
          rw [hms1, demote_obj_members] at hmeq
          injection hmeq with hmeq2
          subst hmeq2
          rcases hdisj with h | h | h
          · exact Or.inl (by rw [getField_isSome_demoteMembers, hpres "lovelace"]; exact h)
          · exact Or.inr (Or.inl
              (by rw [getField_isSome_demoteMembers, hpres "ada"]; exact h))
          · exact Or.inr (Or.inr (by rw [isSomeClause_demoteMembers, hclp]; exact h))
        rw [sanitizeTop_eq, sanitizeRetC_eq_mut _ _ hno2, s2]

/-- Every value decode yields is safely numbered, `constructor`-free, and
is restored exactly by sanitizing its demotion. -/
theorem jsonParse_stable (toks : List Tok) (v : Json)
    (h : jsonParse toks = .ok (some v)) :
    numsSafe v = true ∧ ctorFree v = true ∧ sanitizeTop (demote v) = some v := by
  obtain ⟨u, hu, hsan⟩ : ∃ u, rawShaped u = true ∧ sanitizeTop u = some v := by
    unfold jsonParse at h
    rcases hrp : rawParse toks with e | u
    · rw [hrp] at h
      have h2 : (if msgIncludesForbiddenCtor e = true then
          (match rawParse (substituteCtor toks) with
            | Except.ok u2 => Except.ok (sanitizeTop u2)
            | Except.error e2 => (Except.error e2 : Except JsError (Option Json)))
          else Except.error e) = Except.ok (some v) := h
      by_cases hmsg : msgIncludesForbiddenCtor e = true
      · rw [if_pos hmsg] at h2
        rcases hrp2 : rawParse (substituteCtor toks) with e2 | u2
        · rw [hrp2] at h2
          exact nomatch h2
        · rw [hrp2] at h2
          injection h2 with h3
          exact ⟨u2, rawParse_rawShaped _ _ hrp2, h3⟩
      · rw [if_neg hmsg] at h2
        exact nomatch h2
    · rw [hrp] at h
      injection h with h2
      exact ⟨u, rawParse_rawShaped _ _ hrp, h2⟩
  rcases sanitizeTop_good u hu with hnone | ⟨w, hw, hwn, hwc, hwst⟩
  · rw [hnone] at hsan
    exact nomatch hsan
  · rw [hw] at hsan
    injection hsan with h3
    subst h3
    exact ⟨hwn, hwc, hwst⟩

/-- C4: for every value `v` produced by decode (`Json.parse` succeeded and
returned `v`), encode (`Json.stringify`) followed by decode is the
identity: the re-parsed text yields exactly `v` again, restoring every
arbitrary-precision integer (lovelace, ada, mint, value, atLeast, labels
contexts) and leaving every ordinary numeric leaf unperturbed. -/
theorem decode_encode_id (toks : List Tok) (v : Json)
    (h : jsonParse toks = .ok (some v)) :
    jsonParse (jsonStringify v) = .ok (some v) := by
  obtain ⟨hns, hcf, hstab⟩ := jsonParse_stable toks v h
  unfold jsonParse jsonStringify
  rw [rawParse_stringify v hns hcf]
  show Except.ok (sanitizeTop (demote v)) = Except.ok (some v)
  rw [hstab]

/-- Witness: a document with a `lovelace` amount, a metadatum label map and
a plain number round-trips exactly through encode/decode. -/
theorem decode_encode_id_witness :
    jsonParse [.lbrace, .tstr "lovelace", .colon, .tint 2, .comma,
        .tstr "labels", .colon, .lbrace, .tstr "674", .colon, .tint 42, .rbrace, .comma,
        .tstr "n", .colon, .tint 7, .rbrace] =
      .ok (some (.obj [("lovelace", .big 2), ("labels", .obj [("674", .big 42)]),
        ("n", .num 7)])) ∧
    jsonParse (jsonStringify (.obj [("lovelace", .big 2),
        ("labels", .obj [("674", .big 42)]), ("n", .num 7)])) =
      .ok (some (.obj [("lovelace", .big 2), ("labels", .obj [("674", .big 42)]),
        ("n", .num 7)])) :=
  ⟨rfl,
   decode_encode_id [.lbrace, .tstr "lovelace", .colon, .tint 2, .comma,
     .tstr "labels", .colon, .lbrace, .tstr "674", .colon, .tint 42, .rbrace, .comma,
     .tstr "n", .colon, .tint 7, .rbrace]
     (.obj [("lovelace", .big 2), ("labels", .obj [("674", .big 42)]), ("n", .num 7)])
     rfl⟩

end Mdk
